import Mathlib

/-!
# KNN4Titanic: kd-tree search, adaptive feature weights and majority vote

A shallow embedding of `src/utils/math.h`, `src/model/kdtree.h`,
`src/model/adaptive_weights.h`, `src/model/predictor.h`, `src/model/weights.h`
and the loading loop of `src/data/loader.h`.

Conventions of the embedding.

* A C++ `double` is an exact rational. The two distance functions return
  `sqrt(sum)`; that value is kept exactly, by its radicand (`Distance.root sum`
  stands for the real number `sqrt(sum)`), and `INFINITY` is `Distance.infinity`.
  The source only ever compares distances, so `sqrt a < sqrt b` is decided as
  `a < b` and `std::abs(x) < sqrt b` as `x * x < b`.
* A raw pointer to `D` doubles is a `List ℚ`; a null pointer is `none`.
  Reading a feature beyond the end of its vector (undefined in the source)
  reads `0`; the theorems assume well-formed data, where this never happens.
* Reads and writes of the neighbour list are bounds-checked: an access outside
  the list makes the search return `none`.
* An `int` is an integer without overflow (signed overflow is undefined in
  the source); the conversion of an `int` to `size_t` is made explicit. The
  two `int` counters of the tracker only count up from `0` and are naturals.
* `std::nth_element` is a library routine that is not part of the repository.
  `build_tree` takes it as a parameter and the theorems hold for every
  routine that meets `NthElementSpec`, its documented postcondition.
-/

/-! ## Data model (`data/loader.h`) -/

/-- One record: `features` points at `n_features` doubles, `survived` is the
label (`0`, `1`, or `-1` for unknown). -/
structure Sample where
  features : List ℚ
  survived : Int
deriving DecidableEq

/-- The dataset: `data` is the array of samples (its length is the source's
`n_samples`), all of dimension `n_features`. -/
structure Dataset where
  data : List Sample
  n_features : Nat
deriving DecidableEq

/-- The field `n_samples` of the source. -/
def Dataset.n_samples (ds : Dataset) : Nat := ds.data.length

/-- The pointer `data[a].features`. -/
def Dataset.features (ds : Dataset) (a : Nat) : List ℚ :=
  match ds.data[a]? with
  | some s => s.features
  | none => []

/-- The label `data[a].survived`. -/
def Dataset.survived (ds : Dataset) (a : Nat) : Int :=
  match ds.data[a]? with
  | some s => s.survived
  | none => 0

/-- Well-formed dataset: at least one feature column, and every sample
carries exactly `n_features` values. -/
def Dataset.WF (ds : Dataset) : Prop :=
  0 < ds.n_features ∧ ∀ s ∈ ds.data, s.features.length = ds.n_features

instance (ds : Dataset) : Decidable ds.WF := by
  unfold Dataset.WF; infer_instance

/-! ## Distances (`utils/math.h`) -/

/-- The value of a `double` that holds a distance: `root r` is the real number
`sqrt r`, `infinity` is `INFINITY`. -/
inductive Distance where
  | root (radicand : ℚ)
  | infinity
deriving DecidableEq

/-- The comparison `a < b` of two distances. -/
def Distance.lt : Distance → Distance → Bool
  | .root a, .root b => decide (a < b)
  | .root _, .infinity => true
  | .infinity, _ => false

/-- The comparison `std::abs(x) < d` of a plain double with a distance. -/
def Distance.abs_lt (x : ℚ) : Distance → Bool
  | .root b => decide (x * x < b)
  | .infinity => true

/-- The loop of `MathUtils::euclidean_distance`: `sum += diff * diff` for
`i < dim`. -/
def MathUtils.squared_sum (p1 p2 : List ℚ) (dim : Nat) : ℚ :=
  (List.range dim).foldl
    (fun sum i => sum + (p1.getD i 0 - p2.getD i 0) * (p1.getD i 0 - p2.getD i 0)) 0

/-- The source's `MathUtils::euclidean_distance`: `sqrt(sum)`. -/
def MathUtils.euclidean_distance (p1 p2 : List ℚ) (dim : Nat) : Distance :=
  Distance.root (MathUtils.squared_sum p1 p2 dim)

/-- The loop of `MathUtils::weighted_euclidean_distance`:
`sum += weights[i] * diff * diff` for `i < dim`. -/
def MathUtils.weighted_squared_sum (p1 p2 : List ℚ) (dim : Nat) (weights : List ℚ) : ℚ :=
  (List.range dim).foldl
    (fun sum i => sum + weights.getD i 0 * (p1.getD i 0 - p2.getD i 0)
      * (p1.getD i 0 - p2.getD i 0)) 0

/-- The source's `MathUtils::weighted_euclidean_distance`: `sqrt(sum)`. -/
def MathUtils.weighted_euclidean_distance (p1 p2 : List ℚ) (dim : Nat)
    (weights : List ℚ) : Distance :=
  Distance.root (MathUtils.weighted_squared_sum p1 p2 dim weights)

/-! ## The tree (`model/kdtree.h`) -/

/-- One slot of the neighbour list. -/
structure NearestNeighbor where
  distance : Distance
  point : Option (List ℚ)
  index : Nat
deriving DecidableEq

/-- The default constructor: `distance(INFINITY), point(nullptr), index(0)`. -/
def NearestNeighbor.default : NearestNeighbor := ⟨Distance.infinity, none, 0⟩

/-- A tree node; `null` is the null pointer. -/
inductive KDNode where
  | null
  | node (point : List ℚ) (index : Nat) (split_dim : Nat) (left right : KDNode)
deriving DecidableEq

/-- The type of `std::nth_element` on a range of indices:
`sel comp range nth` is the range after the call. -/
abbrev Selector := (Nat → Nat → Bool) → List Nat → Nat → List Nat

/-- The postcondition of `std::nth_element` for a comparator that compares a
key: the range is permuted, no element from position `nth` on is smaller than
an element before position `nth`, and the element at position `nth` is the one
a full sort would put there (nothing after it is smaller). -/
def NthElementSpec (sel : Selector) : Prop :=
  ∀ (key : Nat → ℚ) (l : List Nat) (nth : Nat), nth < l.length →
    (sel (fun a b => decide (key a < key b)) l nth).Perm l ∧
    (∀ x ∈ (sel (fun a b => decide (key a < key b)) l nth).take nth,
      ∀ y ∈ (sel (fun a b => decide (key a < key b)) l nth).drop nth, key x ≤ key y) ∧
    (∀ y ∈ (sel (fun a b => decide (key a < key b)) l nth).drop nth,
      key ((sel (fun a b => decide (key a < key b)) l nth).getD nth 0) ≤ key y)

/-- One routine that meets the postcondition of `std::nth_element`: it sorts
the whole range. Used to run the model on concrete data. -/
def nth_element_by_sort : Selector :=
  fun comp l _ => l.insertionSort (fun a b => comp b a = false)

/-- The source's `KDTree::build_tree` on the index range `indices`
(`n_points` is its length). The first argument bounds the recursion depth;
`build_tree` below supplies `n_points`, which is always enough. -/
def KDTree.build_tree_aux (sel : Selector) (ds : Dataset) :
    Nat → List Nat → Nat → KDNode
  | 0, _, _ => KDNode.null
  | fuel + 1, indices, depth =>
    if indices.length = 0 then KDNode.null
    else
      let split_dim := depth % ds.n_features
      let mid := indices.length / 2
      let arr := sel (fun a b => decide ((ds.features a).getD split_dim 0
                                        < (ds.features b).getD split_dim 0)) indices mid
      KDNode.node (ds.features (arr.getD mid 0)) (arr.getD mid 0) split_dim
        (KDTree.build_tree_aux sel ds fuel (arr.take mid) (depth + 1))
        (KDTree.build_tree_aux sel ds fuel
          ((arr.drop (mid + 1)).take (indices.length - mid - 1)) (depth + 1))

/-- The source's `KDTree::build_tree(indices, n_points, depth)`. -/
def KDTree.build_tree (sel : Selector) (ds : Dataset) (indices : List Nat)
    (depth : Nat) : KDNode :=
  KDTree.build_tree_aux sel ds indices.length indices depth

/-- The class `KDTree`: the dataset pointer and the root. -/
structure KDTree where
  dataset_ : Option Dataset
  root : KDNode

/-- The constructor `KDTree(const Dataset* dataset)`. -/
def KDTree.new (sel : Selector) (dataset : Option Dataset) : KDTree :=
  match dataset with
  | none => ⟨none, KDNode.null⟩
  | some ds =>
    if ds.n_samples = 0 then ⟨some ds, KDNode.null⟩
    else ⟨some ds, KDTree.build_tree sel ds (List.range ds.n_samples) 0⟩

/-- The read `neighbors[i]` for a signed position `i`. -/
def NearestNeighbor.read (neighbors : List NearestNeighbor) (i : Int) :
    Option NearestNeighbor :=
  if 0 ≤ i then neighbors[i.toNat]? else none

/-- The write `neighbors[i] = e`. -/
def NearestNeighbor.write (neighbors : List NearestNeighbor) (i : Nat)
    (e : NearestNeighbor) : Option (List NearestNeighbor) :=
  if i < neighbors.length then some (neighbors.set i e) else none

/-- The `while` loop of `find_k_nearest_impl` followed by `insert_pos++`.
The counter argument is `insert_pos + 1` (so `0` is `insert_pos = -1`, where
the loop stops); the result is the final value of `insert_pos` and the list. -/
def KDTree.shift_loop (dist : Distance) (k : Nat) :
    Nat → List NearestNeighbor → Option (Nat × List NearestNeighbor)
  | 0, neighbors => some (0, neighbors)
  | p + 1, neighbors =>
    match NearestNeighbor.read neighbors p with
    | none => none
    | some e =>
      if e.point.isNone || dist.lt e.distance then
        if (p : Int) < (k : Int) - 1 then
          match NearestNeighbor.write neighbors (p + 1) e with
          | none => none
          | some neighbors1 => KDTree.shift_loop dist k p neighbors1
        else KDTree.shift_loop dist k p neighbors
      else some (p + 1, neighbors)

/-- The test `neighbors[k-1].point == nullptr || std::abs(split_dist) <
neighbors[k-1].distance` that lets the search enter the second child. -/
def KDTree.visit_second (split_dist : ℚ) (k : Nat)
    (neighbors : List NearestNeighbor) : Option Bool :=
  match NearestNeighbor.read neighbors ((k : Int) - 1) with
  | none => none
  | some e => some (e.point.isNone || Distance.abs_lt split_dist e.distance)

/-- Lines 108-110 of `find_k_nearest_impl`: the distance from the query to a
node's point, weighted when a weight vector is supplied. -/
def KDTree.node_distance (dim : Nat) (query point : List ℚ)
    (weights : Option (List ℚ)) : Distance :=
  match weights with
  | some w => MathUtils.weighted_euclidean_distance query point dim w
  | none => MathUtils.euclidean_distance query point dim

/-- Lines 112-126 of `find_k_nearest_impl`: the shifting loop, then the store
of the candidate at `insert_pos` when `insert_pos < k`. -/
def KDTree.offer (dist : Distance) (point : List ℚ) (index : Nat) (k : Nat)
    (neighbors : List NearestNeighbor) : Option (List NearestNeighbor) := do
  let (insert_pos, neighbors1) ← KDTree.shift_loop dist k k neighbors
  if insert_pos < k then
    NearestNeighbor.write neighbors1 insert_pos ⟨dist, some point, index⟩
  else some neighbors1

/-- Lines 128-131 of `find_k_nearest_impl`: the signed gap to the splitting
hyperplane, multiplied by `weights[split_dim]` when weights are supplied. -/
def KDTree.split_distance (query point : List ℚ) (split_dim : Nat)
    (weights : Option (List ℚ)) : ℚ :=
  match weights with
  | some w => (query.getD split_dim 0 - point.getD split_dim 0) * w.getD split_dim 0
  | none => query.getD split_dim 0 - point.getD split_dim 0

/-- The source's `KDTree::find_k_nearest_impl`; `dim` is
`dataset_->n_features`. -/
def KDTree.find_k_nearest_impl (dim : Nat) :
    KDNode → List ℚ → Nat → List NearestNeighbor → Option (List ℚ) →
      Option (List NearestNeighbor)
  | KDNode.null, _, _, neighbors, _ => some neighbors
  | KDNode.node point index split_dim left right, query, k, neighbors, weights => do
    let dist := KDTree.node_distance dim query point weights
    let neighbors2 ← KDTree.offer dist point index k neighbors
    let split_dist := KDTree.split_distance query point split_dim weights
    if split_dist ≤ 0 then do
      let neighbors3 ← KDTree.find_k_nearest_impl dim left query k neighbors2 weights
      if (← KDTree.visit_second split_dist k neighbors3) then
        KDTree.find_k_nearest_impl dim right query k neighbors3 weights
      else some neighbors3
    else do
      let neighbors3 ← KDTree.find_k_nearest_impl dim right query k neighbors2 weights
      if (← KDTree.visit_second split_dist k neighbors3) then
        KDTree.find_k_nearest_impl dim left query k neighbors3 weights
      else some neighbors3

/-- The ways a call can end without a result. -/
inductive Fault where
  /-- `std::length_error`, thrown by `std::vector<NearestNeighbor>(k)` when the
  requested size exceeds `max_size()`. -/
  | length_error
  /-- An access outside the neighbour list (undefined behaviour in the source). -/
  | out_of_bounds
  /-- A read through a null pointer (undefined behaviour in the source). -/
  | null_dereference
  /-- `std::bad_array_new_length`, thrown by `new Sample[n]` for a negative `n`. -/
  | bad_array_new_length
deriving DecidableEq

/-- The source's `KDTree::find_k_nearest(query, k, weights)`: `k` is an `int`;
a negative `k` converts to a `size_t` above `max_size()`, so the construction
of the neighbour list throws. -/
def KDTree.find_k_nearest (t : KDTree) (query : List ℚ) (k : Int)
    (weights : Option (List ℚ)) : Except Fault (List Nat) :=
  if k < 0 then Except.error Fault.length_error
  else
    let dim := match t.dataset_ with
      | some ds => ds.n_features
      | none => 0
    match KDTree.find_k_nearest_impl dim t.root query k.toNat
        (List.replicate k.toNat NearestNeighbor.default) weights with
    | none => Except.error Fault.out_of_bounds
    | some neighbors =>
      Except.ok (neighbors.filterMap
        (fun neighbor => if neighbor.point.isSome then some neighbor.index else none))

/-! ## The adaptive weight tracker (`model/adaptive_weights.h`) -/

/-- The class `AdaptiveWeights`: three parallel vectors. The two `int`
counters start at `0` and are only ever incremented, so they are naturals. -/
structure AdaptiveWeights where
  weights_ : List ℚ
  feature_success_ : List Nat
  feature_used_ : List Nat
deriving DecidableEq

/-- The constructor `AdaptiveWeights(int n_features)`. -/
def AdaptiveWeights.new (n_features : Nat) : AdaptiveWeights :=
  ⟨List.replicate n_features 1, List.replicate n_features 0, List.replicate n_features 0⟩

/-- The accessor `get_weights()`: the current snapshot. -/
def AdaptiveWeights.get_weights (s : AdaptiveWeights) : List ℚ := s.weights_

/-- The sum accumulated by the loop of `is_feature_helpful`, before the
division by `neighbors.size()`. -/
def AdaptiveWeights.diff_sum (feature_idx : Nat) (query : List ℚ)
    (neighbors : List Nat) (train_data : Dataset) : ℚ :=
  neighbors.foldl
    (fun avg_diff idx =>
      avg_diff + |query.getD feature_idx 0 - (train_data.features idx).getD feature_idx 0|) 0

/-- The source's `AdaptiveWeights::is_feature_helpful`. With no neighbour the
source divides `0.0` by `0`, which is NaN, and `NaN < 0.5` is false. -/
def AdaptiveWeights.is_feature_helpful (feature_idx : Nat) (query : List ℚ)
    (neighbors : List Nat) (train_data : Dataset) : Bool :=
  if neighbors.length = 0 then false
  else decide (AdaptiveWeights.diff_sum feature_idx query neighbors train_data
                / (neighbors.length : ℚ) < 1 / 2)

/-- The body of the loop of `AdaptiveWeights::update` for one feature `f`. -/
def AdaptiveWeights.update_feature (s : AdaptiveWeights) (f : Nat) (query : List ℚ)
    (neighbors : List Nat) (train_data : Dataset) (correct_prediction : Bool) :
    AdaptiveWeights :=
  let feature_helpful := AdaptiveWeights.is_feature_helpful f query neighbors train_data
  let used := s.feature_used_.set f (s.feature_used_.getD f 0 + 1)
  let success :=
    if feature_helpful = correct_prediction then
      s.feature_success_.set f (s.feature_success_.getD f 0 + 1)
    else s.feature_success_
  let weights :=
    s.weights_.set f (((success.getD f 0 : Nat) : ℚ) / ((used.getD f 0 : Nat) : ℚ) * 2 + 1 / 2)
  ⟨weights, success, used⟩

/-- The source's `AdaptiveWeights::update`: the loop over
`f = 0 .. weights_.size() - 1`. -/
def AdaptiveWeights.update (s : AdaptiveWeights) (query : List ℚ) (neighbors : List Nat)
    (train_data : Dataset) (correct_prediction : Bool) : AdaptiveWeights :=
  (List.range s.weights_.length).foldl
    (fun st f => st.update_feature f query neighbors train_data correct_prediction) s

/-! ## The classifier (`model/predictor.h`) -/

/-- The class `Predictor`. -/
structure Predictor where
  train_data_ : Dataset
  kdtree_ : KDTree
  static_weights_ : Option (List ℚ)
  adaptive_weights_ : Option AdaptiveWeights
  use_adaptive_ : Bool

/-- The constructor `Predictor(const Dataset* train_data, const double* weights)`. -/
def Predictor.with_weights (sel : Selector) (train_data : Dataset)
    (weights : Option (List ℚ)) : Predictor :=
  ⟨train_data, KDTree.new sel (some train_data), weights, none, false⟩

/-- The constructor `Predictor(const Dataset* train_data, bool use_adaptive)`. -/
def Predictor.with_mode (sel : Selector) (train_data : Dataset) (use_adaptive : Bool) :
    Predictor :=
  ⟨train_data, KDTree.new sel (some train_data), none,
    if use_adaptive then some (AdaptiveWeights.new train_data.n_features) else none,
    use_adaptive⟩

/-- The conversion of an `int` to `size_t` (64 bits). -/
def size_t_of_int (x : Int) : Nat := (x % 2 ^ 64).toNat

/-- The sum of the neighbours' labels accumulated by `make_prediction`. -/
def Predictor.survived_votes (p : Predictor) (neighbors : List Nat) : Int :=
  neighbors.foldl (fun votes idx => votes + p.train_data_.survived idx) 0

/-- The source's `Predictor::make_prediction`: the comparison
`2 * survived_votes >= neighbors.size()` is made in `size_t`. -/
def Predictor.make_prediction (p : Predictor) (neighbors : List Nat) : Int :=
  if neighbors.length ≤ size_t_of_int (2 * p.survived_votes neighbors) then 1 else 0

/-- The loop of `predict_static` over the test samples. -/
def Predictor.predict_static_loop (p : Predictor) (k : Int) :
    List Sample → Except Fault (List Int)
  | [] => Except.ok []
  | s :: rest => do
    let neighbors ← p.kdtree_.find_k_nearest s.features k p.static_weights_
    let predictions ← Predictor.predict_static_loop p k rest
    Except.ok (p.make_prediction neighbors :: predictions)

/-- The source's `Predictor::predict_static`. -/
def Predictor.predict_static (p : Predictor) (test_data : Dataset) (k : Int) :
    Except Fault (List Int) :=
  p.predict_static_loop k test_data.data

/-- The loop of `predict_adaptive` over the test samples, threading the
tracker; the result is the predictions and the tracker after the last sample. -/
def Predictor.predict_adaptive_loop (p : Predictor) (k : Int) :
    List Sample → AdaptiveWeights → Except Fault (List Int × AdaptiveWeights)
  | [], aw => Except.ok ([], aw)
  | s :: rest, aw => do
    let neighbors ← p.kdtree_.find_k_nearest s.features k (some aw.get_weights)
    let prediction := p.make_prediction neighbors
    let aw1 :=
      if s.survived ≠ -1 then
        aw.update s.features neighbors p.train_data_ (decide (prediction = s.survived))
      else aw
    let (predictions, aw2) ← Predictor.predict_adaptive_loop p k rest aw1
    Except.ok (prediction :: predictions, aw2)

/-- The source's `Predictor::predict_adaptive`. A predictor in adaptive mode
always owns a tracker (both constructors see to it); without one the source
would dereference a null pointer, and the model runs the fresh tracker. -/
def Predictor.predict_adaptive (p : Predictor) (test_data : Dataset) (k : Int) :
    Except Fault (List Int × AdaptiveWeights) :=
  p.predict_adaptive_loop k test_data.data
    (p.adaptive_weights_.getD (AdaptiveWeights.new p.train_data_.n_features))

/-- The source's `Predictor::predict`: the predictions, and the predictor as
the call leaves it (in adaptive mode the tracker has moved). -/
def Predictor.predict (p : Predictor) (test_data : Dataset) (k : Int) :
    Except Fault (List Int × Predictor) :=
  if p.use_adaptive_ then
    match p.predict_adaptive test_data k with
    | Except.ok (predictions, aw) =>
      Except.ok (predictions, { p with adaptive_weights_ := some aw })
    | Except.error e => Except.error e
  else
    match p.predict_static test_data k with
    | Except.ok predictions => Except.ok (predictions, p)
    | Except.error e => Except.error e

/-- The loop of `predict_with_neighbors` over the test samples: for each
sample the neighbours are searched with the tracker's weights in adaptive mode
and the static weights otherwise, pushed to `all_neighbors`, and the vote
`2 * survived_votes >= neighbors.size()` (made in `size_t`) is pushed to
`predictions`. -/
def Predictor.predict_with_neighbors_loop (p : Predictor) (k : Int) :
    List Sample → Except Fault (List Int × List (List Nat))
  | [] => Except.ok ([], [])
  | s :: rest => do
    let neighbors ← p.kdtree_.find_k_nearest s.features k
      (if p.use_adaptive_ then
        some (p.adaptive_weights_.getD (AdaptiveWeights.new p.train_data_.n_features)).get_weights
      else p.static_weights_)
    let survived_votes : Int :=
      neighbors.foldl (fun votes idx => votes + p.train_data_.survived idx) 0
    let prediction : Int :=
      if neighbors.length ≤ size_t_of_int (2 * survived_votes) then 1 else 0
    let (predictions, all_neighbors) ← Predictor.predict_with_neighbors_loop p k rest
    Except.ok (prediction :: predictions, neighbors :: all_neighbors)

/-- The source's `Predictor::predict_with_neighbors`: the two output vectors
`predictions` and `all_neighbors` as they are when the call returns. -/
def Predictor.predict_with_neighbors (p : Predictor) (test_data : Dataset) (k : Int) :
    Except Fault (List Int × List (List Nat)) :=
  p.predict_with_neighbors_loop k test_data.data

/-! ## The static weights (`model/weights.h`) -/

/-- The enumerator `FEATURE_COUNT` of `data/loader.h`. -/
def FEATURE_COUNT : Nat := 7

/-- The write `weights[i] = v` into an array of doubles. -/
def WeightCalculator.store (weights : List ℚ) (i : Nat) (v : ℚ) : Except Fault (List ℚ) :=
  if i < weights.length then Except.ok (weights.set i v) else Except.error Fault.out_of_bounds

/-- The source's `WeightCalculator::calculate_feature_weights`: it reads
`dataset->n_features`, allocates that many doubles and stores the seven
defaults at the positions `PCLASS .. EMBARKED` (`0 .. 6`). The cells of the
fresh array are indeterminate in the source and shown as `0`. -/
def WeightCalculator.calculate_feature_weights (dataset : Option Dataset) :
    Except Fault (List ℚ) :=
  match dataset with
  | none => Except.error Fault.null_dereference
  | some ds => do
    let weights := List.replicate ds.n_features (0 : ℚ)
    let weights ← WeightCalculator.store weights 0 2
    let weights ← WeightCalculator.store weights 1 3
    let weights ← WeightCalculator.store weights 2 (3 / 2)
    let weights ← WeightCalculator.store weights 3 1
    let weights ← WeightCalculator.store weights 4 1
    let weights ← WeightCalculator.store weights 5 (6 / 5)
    let weights ← WeightCalculator.store weights 6 (1 / 2)
    Except.ok weights

/-- The copy loop of `set_custom_weights`: `weights[i] = custom_weights[i]`
for `i` from the counter argument up to `FEATURE_COUNT - 1`; the first
argument is the number of iterations left. -/
def WeightCalculator.copy_loop (custom_weights : List ℚ) :
    Nat → Nat → List ℚ → Except Fault (List ℚ)
  | 0, _, weights => Except.ok weights
  | left + 1, i, weights =>
    match custom_weights[i]? with
    | none => Except.error Fault.out_of_bounds
    | some v => do
      let weights1 ← WeightCalculator.store weights i v
      WeightCalculator.copy_loop custom_weights left (i + 1) weights1

/-- The source's `WeightCalculator::set_custom_weights(custom_weights, size)`:
when `size` is not `FEATURE_COUNT` it prints a warning and returns
`calculate_feature_weights(nullptr)`. -/
def WeightCalculator.set_custom_weights (custom_weights : List ℚ) (size : Int) :
    Except Fault (List ℚ) :=
  if size ≠ (FEATURE_COUNT : Int) then WeightCalculator.calculate_feature_weights none
  else
    WeightCalculator.copy_loop custom_weights FEATURE_COUNT 0
      (List.replicate FEATURE_COUNT (0 : ℚ))

/-! ## Loading a file (`data/loader.h`)

A file is the list of its characters; the position of an open file is the list
of the characters not read yet. The two parsers `parse_header` and `parse_line`
turn one line into column positions and into a sample; they take no part in
the counting and reading of lines, and `load_csv` is stated for any two such
functions. -/

/-- The characters `fgets` stores when it may still store `n` of them: it
stops after a newline, at the end of the file, or when `n` are stored. The
result is the characters stored and the rest of the file. -/
def fgets_chars : Nat → List Char → List Char × List Char
  | 0, rest => ([], rest)
  | _ + 1, [] => ([], [])
  | n + 1, c :: rest =>
    if c = '\n' then ([c], rest)
    else ((c :: (fgets_chars n rest).1), (fgets_chars n rest).2)

/-- The library call `fgets(buf, size, file)`: `none` is the null result at
the end of the file; otherwise at most `size - 1` characters are read. -/
def fgets (size : Nat) (rest : List Char) : Option (List Char × List Char) :=
  match rest with
  | [] => none
  | _ :: _ => some (fgets_chars (size - 1) rest)

/-- The loop of `DataLoader::count_samples`; the first argument bounds the
number of iterations (every successful `fgets` consumes a character, so the
number of unread characters is enough). -/
def DataLoader.count_samples_loop : Nat → List Char → Int
  | 0, _ => 0
  | fuel + 1, rest =>
    match fgets 1024 rest with
    | none => 0
    | some (_, rest1) => DataLoader.count_samples_loop fuel rest1 + 1

/-- The source's `DataLoader::count_samples(file)` from the current position. -/
def DataLoader.count_samples (rest : List Char) : Int :=
  DataLoader.count_samples_loop rest.length rest

/-- The reading loop of `load_csv`:
`while (fgets(line, sizeof(line), file) && row < dataset->n_samples)`; the
result is the rows stored. The first argument bounds the number of
iterations. -/
def DataLoader.read_rows {α : Type} (parse_line : List Char → α → Sample) (col_idx : α)
    (n_samples : Int) : Nat → List Char → Nat → List Sample → List Sample
  | 0, _, _, rows => rows
  | fuel + 1, rest, row, rows =>
    match fgets 1024 rest with
    | none => rows
    | some (line, rest1) =>
      if (row : Int) < n_samples then
        DataLoader.read_rows parse_line col_idx n_samples fuel rest1 (row + 1)
          (rows ++ [parse_line line col_idx])
      else rows

/-- The source's `DataLoader::load_csv`; `file` is `none` when `fopen` fails.
The result `none` is the null pointer. A cell of `data` that the reading loop
does not reach stays default-constructed (indeterminate in the source) and is
shown as an empty sample. -/
def DataLoader.load_csv {α : Type} (parse_header : List Char → α)
    (parse_line : List Char → α → Sample) (file : Option (List Char)) (is_training : Bool) :
    Except Fault (Option Dataset) :=
  match file with
  | none => Except.ok none
  | some content =>
    match fgets 1024 content with
    | none => Except.ok none
    | some (header, rest) =>
      let col_idx := parse_header header
      let n_samples : Int := DataLoader.count_samples rest - 1
      if n_samples < 0 then Except.error Fault.bad_array_new_length
      else
        let rest2 := match fgets 1024 content with
          | some (_, r) => r
          | none => content
        let rows := DataLoader.read_rows parse_line col_idx n_samples rest2.length rest2 0 []
        Except.ok (some
          ⟨rows ++ List.replicate (n_samples.toNat - rows.length) ⟨[], 0⟩, FEATURE_COUNT⟩)

/-! ## Vocabulary of the proofs -/

/-- A filled slot of the neighbour list: the radicand of its distance, its
point and its sample index. -/
structure Cand where
  rad : ℚ
  point : List ℚ
  index : Nat

/-- The slot that holds a candidate. -/
def Cand.slot (c : Cand) : NearestNeighbor :=
  ⟨Distance.root c.rad, some c.point, c.index⟩

/-- The neighbour list of capacity `k` whose filled slots are `L`, in order,
followed by default-constructed slots. -/
def slots (k : Nat) (L : List Cand) : List NearestNeighbor :=
  L.map Cand.slot ++ List.replicate (k - L.length) NearestNeighbor.default

/-- The loop condition `neighbors[insert_pos].point == nullptr || dist <
neighbors[insert_pos].distance` on one slot. -/
def moves (dist : Distance) (e : NearestNeighbor) : Bool :=
  e.point.isNone || dist.lt e.distance

/-- The radicand of `KDTree.node_distance`. -/
def KDTree.node_radicand (dim : Nat) (query point : List ℚ) (weights : Option (List ℚ)) : ℚ :=
  match weights with
  | some w => MathUtils.weighted_squared_sum query point dim w
  | none => MathUtils.squared_sum query point dim

/-- The (point, index) pairs stored in a tree, root first. -/
def KDNode.entries : KDNode → List (List ℚ × Nat)
  | KDNode.null => []
  | KDNode.node point index _ left right => (point, index) :: (left.entries ++ right.entries)

/-- The candidate a node offers to the neighbour list for a given query. -/
def candOf (dim : Nat) (query : List ℚ) (weights : Option (List ℚ)) (e : List ℚ × Nat) : Cand :=
  ⟨KDTree.node_radicand dim query e.1 weights, e.1, e.2⟩

/-- The candidates of all nodes of a tree. -/
def KDNode.cands (dim : Nat) (query : List ℚ) (weights : Option (List ℚ)) (t : KDNode) :
    List Cand :=
  t.entries.map (candOf dim query weights)

/-- The invariant of the search. `S` is what has been offered or skipped so
far and `L` the filled slots: `L` is sorted, holds at most `k` candidates, is
`S` minus a remainder that is empty unless `L` is full, and (when the pruning
bound is sound, `ok`) nothing in the remainder is closer than a kept one. -/
def SearchInv (k : Nat) (ok : Prop) (S L : List Cand) : Prop :=
  L.Pairwise (fun a b => a.rad ≤ b.rad) ∧ L.length ≤ k ∧
  ∃ rest, S.Perm (L ++ rest) ∧ (rest = [] ∨ L.length = k) ∧
    (ok → ∀ x ∈ L, ∀ y ∈ rest, x.rad ≤ y.rad)

/-- Soundness of the pruning bound at every node of a tree: the squared
hyperplane gap is at most the radicand of every candidate of the far child. -/
def PruneSound (dim : Nat) (query : List ℚ) (weights : Option (List ℚ)) : KDNode → Prop
  | KDNode.null => True
  | KDNode.node point _ split_dim left right =>
    (KDTree.split_distance query point split_dim weights ≤ 0 →
      ∀ y ∈ right.cands dim query weights,
        KDTree.split_distance query point split_dim weights
          * KDTree.split_distance query point split_dim weights ≤ y.rad) ∧
    (¬ KDTree.split_distance query point split_dim weights ≤ 0 →
      ∀ y ∈ left.cands dim query weights,
        KDTree.split_distance query point split_dim weights
          * KDTree.split_distance query point split_dim weights ≤ y.rad) ∧
    PruneSound dim query weights left ∧ PruneSound dim query weights right

/-- The partition invariant of a tree over a dataset: at every node the split
dimension is a feature column, no point of the left subtree exceeds the node's
point in that column, and no point of the right subtree is below it. -/
def KDInv (ds : Dataset) : KDNode → Prop
  | KDNode.null => True
  | KDNode.node point _ split_dim left right =>
    split_dim < ds.n_features ∧
    (∀ e ∈ left.entries, e.1.getD split_dim 0 ≤ point.getD split_dim 0) ∧
    (∀ e ∈ right.entries, point.getD split_dim 0 ≤ e.1.getD split_dim 0) ∧
    KDInv ds left ∧ KDInv ds right

/-- The weight vectors for which the pruning bound is sound: none, or one
whose first `dim` weights all lie in `[0, 1]`. -/
def WeightsUnit (dim : Nat) (weights : Option (List ℚ)) : Prop :=
  ∀ w, weights = some w → ∀ i < dim, 0 ≤ w.getD i 0 ∧ w.getD i 0 ≤ 1

/-- Well-formed weight argument: when a weight vector is supplied it has one
weight per feature and no weight is negative. -/
def WeightsWF (dim : Nat) (weights : Option (List ℚ)) : Prop :=
  ∀ w, weights = some w → w.length = dim ∧ ∀ x ∈ w, 0 ≤ x

/-! ## Concrete data -/

/-- The four labelled points of Scenario A of the specification. -/
def scenarioA : Dataset :=
  ⟨[⟨[0, 0], 1⟩, ⟨[1, 0], 0⟩, ⟨[0, 1], 1⟩, ⟨[10, 10], 0⟩], 2⟩

/-- Three samples on a line, at `0`, `10` and `-1`. -/
def lineData : Dataset :=
  ⟨[⟨[0], 1⟩, ⟨[10], 0⟩, ⟨[-1], 1⟩], 1⟩

/-- A dataset of dimension one without any sample. -/
def emptyData : Dataset := ⟨[], 1⟩

/-- One test sample of dimension one, labelled `1`. -/
def oneTest : Dataset := ⟨[⟨[0], 1⟩], 1⟩

/-! ## Vocabulary of the tracker proofs -/

/-- A tracker whose three vectors have the same length, as every tracker made
by the constructor and changed by `update` has. -/
def AdaptiveWeights.WF (s : AdaptiveWeights) : Prop :=
  s.feature_success_.length = s.weights_.length ∧ s.feature_used_.length = s.weights_.length

/-- The three entries of a tracker for feature `f`: weight, successes, uses. -/
def AdaptiveWeights.stat (s : AdaptiveWeights) (f : Nat) : ℚ × Nat × Nat :=
  (s.weights_.getD f 0, s.feature_success_.getD f 0, s.feature_used_.getD f 0)

/-- The effect of one loop iteration of `update` on the entries of its
feature, given whether the feature was helpful and the correctness flag. -/
def stepStat (helpful correct : Bool) (st : ℚ × Nat × Nat) : ℚ × Nat × Nat :=
  (((if helpful = correct then st.2.1 + 1 else st.2.1 : Nat) : ℚ) / ((st.2.2 + 1 : Nat) : ℚ) * 2
      + 1 / 2,
    if helpful = correct then st.2.1 + 1 else st.2.1,
    st.2.2 + 1)

/-- The arguments of one call of `AdaptiveWeights::update`. -/
structure UpdateCall where
  query : List ℚ
  neighbors : List Nat
  train_data : Dataset
  correct_prediction : Bool

/-- One call of `update` with the given arguments. -/
def AdaptiveWeights.apply (s : AdaptiveWeights) (c : UpdateCall) : AdaptiveWeights :=
  s.update c.query c.neighbors c.train_data c.correct_prediction

/-- A sequence of calls of `update`, in order. -/
def AdaptiveWeights.update_all (s : AdaptiveWeights) (calls : List UpdateCall) :
    AdaptiveWeights :=
  calls.foldl AdaptiveWeights.apply s

/-- Whether feature `f` is helpful in a call. -/
def UpdateCall.helpful (c : UpdateCall) (f : Nat) : Bool :=
  AdaptiveWeights.is_feature_helpful f c.query c.neighbors c.train_data

/-! ## Shape of a tree -/

/-- The number of nodes of a tree. -/
def KDNode.size : KDNode → Nat
  | KDNode.null => 0
  | KDNode.node _ _ _ left right => 1 + left.size + right.size

/-- The number of nodes on the longest path from the root to a leaf. -/
def KDNode.height : KDNode → Nat
  | KDNode.null => 0
  | KDNode.node _ _ _ left right => 1 + max left.height right.height

/-- The partition invariant at depth `d`: the node splits on column
`d mod D`, no point of its left subtree exceeds its point in that column, no
point of its right subtree is below it, and the children satisfy the invariant
at depth `d + 1`. -/
def PartitionInv (ds : Dataset) : Nat → KDNode → Prop
  | _, KDNode.null => True
  | d, KDNode.node point _ split_dim left right =>
    split_dim = d % ds.n_features ∧
    (∀ e ∈ left.entries, e.1.getD split_dim 0 ≤ point.getD split_dim 0) ∧
    (∀ e ∈ right.entries, point.getD split_dim 0 ≤ e.1.getD split_dim 0) ∧
    PartitionInv ds (d + 1) left ∧ PartitionInv ds (d + 1) right

/-- Balance: at every node, whose subtree holds `m` points, the left subtree
holds `m / 2` points and the right one `m - 1 - m / 2`; the two sizes sum to
`m - 1` and differ by at most one. -/
def KDNode.Balanced : KDNode → Prop
  | KDNode.null => True
  | KDNode.node point index split_dim left right =>
    left.size = (KDNode.node point index split_dim left right).size / 2 ∧
    right.size = (KDNode.node point index split_dim left right).size - 1
      - (KDNode.node point index split_dim left right).size / 2 ∧
    left.size + right.size = (KDNode.node point index split_dim left right).size - 1 ∧
    right.size ≤ left.size ∧ left.size ≤ right.size + 1 ∧
    left.Balanced ∧ right.Balanced

/-! ## The search with a record of its visits -/

/-- The source's `KDTree::find_k_nearest_impl` with a ghost record: next to the
neighbour list it returns, in the order of the calls, the index of every node
the recursion entered together with the depth of that call (the call on the
root has depth `1`). The computation of the neighbour list is unchanged. -/
def KDTree.find_k_nearest_impl_traced (dim : Nat) :
    KDNode → Nat → List ℚ → Nat → List NearestNeighbor → Option (List ℚ) →
      Option (List NearestNeighbor × List (Nat × Nat))
  | KDNode.null, _, _, _, neighbors, _ => some (neighbors, [])
  | KDNode.node point index split_dim left right, depth, query, k, neighbors, weights => do
    let dist := KDTree.node_distance dim query point weights
    let neighbors2 ← KDTree.offer dist point index k neighbors
    let split_dist := KDTree.split_distance query point split_dim weights
    if split_dist ≤ 0 then do
      let (neighbors3, visits1) ←
        KDTree.find_k_nearest_impl_traced dim left (depth + 1) query k neighbors2 weights
      if (← KDTree.visit_second split_dist k neighbors3) then do
        let (neighbors4, visits2) ←
          KDTree.find_k_nearest_impl_traced dim right (depth + 1) query k neighbors3 weights
        some (neighbors4, (index, depth) :: (visits1 ++ visits2))
      else some (neighbors3, (index, depth) :: visits1)
    else do
      let (neighbors3, visits1) ←
        KDTree.find_k_nearest_impl_traced dim right (depth + 1) query k neighbors2 weights
      if (← KDTree.visit_second split_dist k neighbors3) then do
        let (neighbors4, visits2) ←
          KDTree.find_k_nearest_impl_traced dim left (depth + 1) query k neighbors3 weights
        some (neighbors4, (index, depth) :: (visits1 ++ visits2))
      else some (neighbors3, (index, depth) :: visits1)

/-- Three samples on a line, at `0`, `1` and `-1`: in the tree the root is
sample `0`, its left child sample `2` and its right child sample `1`. -/
def tieData : Dataset :=
  ⟨[⟨[0], 1⟩, ⟨[1], 0⟩, ⟨[-1], 1⟩], 1⟩

/-- The index range of `build_tree` after its call of `std::nth_element`. -/
def KDTree.partitioned (sel : Selector) (ds : Dataset) (indices : List Nat) (depth : Nat) :
    List Nat :=
  sel (fun a b => decide ((ds.features a).getD (depth % ds.n_features) 0
    < (ds.features b).getD (depth % ds.n_features) 0)) indices (indices.length / 2)

/-- The height of a balanced tree of `m` nodes: `0` for the empty tree,
`floor(log2 m) + 1` otherwise. -/
def balancedHeight (m : Nat) : Nat :=
  if m = 0 then 0 else Nat.log 2 m + 1

/-! ## Text files -/

/-- One line as `fgets` with a buffer of 1024 bytes returns it: not empty, at
most 1023 characters, and no newline except possibly as its last character. -/
def TextLine (l : List Char) : Prop :=
  l ≠ [] ∧ l.length ≤ 1023 ∧ '\n' ∉ l.dropLast

/-- A file body split into its lines: every line is a `TextLine`, and every
line but the last ends with a newline. -/
def TextLines : List (List Char) → Prop
  | [] => True
  | [l] => TextLine l
  | l :: l1 :: ls => TextLine l ∧ l.getLast? = some '\n' ∧ TextLines (l1 :: ls)

/-! # Theorems -/

set_option linter.unusedVariables false

/-! ## The shifting loop -/

theorem read_append (A C : List NearestNeighbor) (x : NearestNeighbor) :
    NearestNeighbor.read (A ++ x :: C) (A.length : Int) = some x := by
  have h : (A ++ x :: C)[A.length]? = some x := by
    rw [List.getElem?_append_right (Nat.le_refl _)]; simp
  simpa [NearestNeighbor.read] using h

theorem write_append (A C : List NearestNeighbor) (x e : NearestNeighbor) :
    NearestNeighbor.write (A ++ x :: C) A.length e = some (A ++ e :: C) := by
  simp [NearestNeighbor.write]

theorem shift_loop_general (dist : Distance) (k : Nat) (P : List NearestNeighbor)
    (hP : ∀ x, P.getLast? = some x → moves dist x = false) :
    ∀ (S : List NearestNeighbor) (b : NearestNeighbor) (B : List NearestNeighbor),
      (∀ e ∈ S, moves dist e = true) →
      P.length + S.length + B.length + 1 = k →
      KDTree.shift_loop dist k (P.length + S.length) (P ++ S ++ b :: B) =
        some (P.length, P ++ (match S with
                              | [] => b :: B
                              | s1 :: _ => s1 :: S ++ B)) := by
  intro S
  induction S using List.reverseRecOn with
  | nil =>
    intro b B _ _
    rcases List.eq_nil_or_concat P with hnil | ⟨P0, x, hx⟩
    · subst hnil; simp [KDTree.shift_loop]
    · subst hx
      have hmx : moves dist x = false := hP x (by simp)
      have hread := read_append P0 (b :: B) x
      unfold moves at hmx
      simp [KDTree.shift_loop, hread, hmx]
  | append_singleton S0 a ih =>
    intro b B hS hk
    have hma : moves dist a = true := hS a (by simp)
    have hS0 : ∀ e ∈ S0, moves dist e = true := fun e he => hS e (by simp [he])
    have hlen : P.length + (S0 ++ [a]).length = (P.length + S0.length) + 1 := by
      simp; omega
    have hread : NearestNeighbor.read (P ++ (S0 ++ [a]) ++ b :: B)
        ((P.length + S0.length : Nat) : Int) = some a := by
      have := read_append (P ++ S0) (b :: B) a
      simpa using this
    have hwrite : NearestNeighbor.write (P ++ (S0 ++ [a]) ++ b :: B)
        (P.length + S0.length + 1) a = some (P ++ S0 ++ a :: a :: B) := by
      have := write_append (P ++ S0 ++ [a]) B b a
      simpa using this
    have hlt : ((P.length + S0.length : Nat) : Int) < (k : Int) - 1 := by
      simp at hk; omega
    rw [hlen]
    unfold moves at hma
    simp only [KDTree.shift_loop, hread, hma, if_true, hlt, hwrite]
    have := ih a (a :: B) hS0 (by simp at hk ⊢; omega)
    rw [this]
    cases S0 <;> simp

theorem shift_loop_full (dist : Distance) (k : Nat) (P : List NearestNeighbor)
    (hP : ∀ x, P.getLast? = some x → moves dist x = false) (hk : P.length = k) :
    KDTree.shift_loop dist k k P = some (k, P) := by
  rcases List.eq_nil_or_concat P with hnil | ⟨P0, x, hx⟩
  · subst hnil; subst hk; simp [KDTree.shift_loop]
  · subst hx
    have hmx : moves dist x = false := hP x (by simp)
    have hread := read_append P0 [] x
    unfold moves at hmx
    have hk1 : k = P0.length + 1 := by simp at hk; omega
    subst hk1
    simp [KDTree.shift_loop, hread, hmx]

theorem offer_list (dist : Distance) (point : List ℚ) (index k : Nat)
    (P S : List NearestNeighbor)
    (hP : ∀ x, P.getLast? = some x → moves dist x = false)
    (hS : ∀ e ∈ S, moves dist e = true) (hk : P.length + S.length = k) :
    KDTree.offer dist point index k (P ++ S) =
      some ((P ++ ⟨dist, some point, index⟩ :: S).take k) := by
  rcases List.eq_nil_or_concat S with hnil | ⟨S0, a, ha⟩
  · subst hnil
    have hk1 : P.length = k := by simpa using hk
    simp [KDTree.offer, shift_loop_full dist k P hP hk1, bind, List.take_append_eq_append_take,
      hk1]
  · subst ha
    have hma : moves dist a = true := hS a (by simp)
    have hS0 : ∀ e ∈ S0, moves dist e = true := fun e he => hS e (by simp [he])
    have hk1 : k = (P.length + S0.length) + 1 := by simp at hk; omega
    have hread : NearestNeighbor.read (P ++ S0.concat a)
        ((P.length + S0.length : Nat) : Int) = some a := by
      have := read_append (P ++ S0) [] a
      simpa using this
    have hgen := shift_loop_general dist k P hP S0 a [] hS0 (by simp; omega)
    unfold moves at hma
    have hnlt : ¬ (((P.length + S0.length : Nat) : Int) < ((P.length + S0.length + 1 : Nat) : Int) - 1) := by
      push_cast; omega
    subst hk1
    have hstep : KDTree.shift_loop dist (P.length + S0.length + 1) (P.length + S0.length + 1)
        (P ++ S0.concat a) = KDTree.shift_loop dist (P.length + S0.length + 1)
          (P.length + S0.length) (P ++ S0 ++ a :: []) := by
      rw [KDTree.shift_loop]
      simp only [hread, hma, if_true, hnlt, if_false]
      simp
    simp only [KDTree.offer, hstep, hgen, bind, Option.bind]
    rw [if_pos (by omega)]
    have htake : ∀ (X : List NearestNeighbor) (y : NearestNeighbor) (n : Nat), n = X.length →
        List.take (P.length + n) (P ++ X.concat y) = P ++ X := by
      intro X y n hn
      subst hn
      simp [List.take_append_eq_append_take]
    cases S0 with
    | nil =>
      have := htake [⟨dist, some point, index⟩] a 1 rfl
      simp only [List.length_nil, Nat.add_zero] at this ⊢
      rw [write_append P [] a]
      simpa using this.symm
    | cons s1 S1 =>
      have := htake (⟨dist, some point, index⟩ :: s1 :: S1) a (S1.length + 1 + 1) (by simp)
      simp only [List.length_cons, List.append_nil]
      rw [write_append P (s1 :: S1) s1]
      rw [← this]
      simp [Nat.add_assoc]

theorem node_distance_eq (dim : Nat) (query point : List ℚ) (weights : Option (List ℚ)) :
    KDTree.node_distance dim query point weights =
      Distance.root (KDTree.node_radicand dim query point weights) := by
  cases weights <;> rfl

theorem split_tail (d : ℚ) (L : List Cand) :
    ∃ Lp Ls, L = Lp ++ Ls ∧ (∀ c ∈ Ls, d < c.rad) ∧
      (∀ x, Lp.getLast? = some x → x.rad ≤ d) := by
  induction L using List.reverseRecOn with
  | nil => exact ⟨[], [], rfl, by simp, by simp⟩
  | append_singleton L0 a ih =>
    obtain ⟨Lp, Ls, hL, hs, hp⟩ := ih
    by_cases hd : d < a.rad
    · refine ⟨Lp, Ls ++ [a], by simp [hL], ?_, hp⟩
      intro c hc
      rcases List.mem_append.1 hc with h | h
      · exact hs c h
      · simp at h; subst h; exact hd
    · refine ⟨L0 ++ [a], [], by simp, by simp, ?_⟩
      intro x hx
      simp at hx
      subst hx
      exact not_lt.1 hd

theorem take_slots (k r : Nat) (M : List Cand) (h : k ≤ M.length + r) :
    (M.map Cand.slot ++ List.replicate r NearestNeighbor.default).take k =
      slots k (M.take k) := by
  unfold slots
  rw [List.take_append_eq_append_take, List.take_replicate, List.map_take]
  congr 2
  simp
  omega

theorem offer_slots (d : ℚ) (point : List ℚ) (index k : Nat) (L : List Cand)
    (hL : L.length ≤ k) :
    ∃ Lp Ls, L = Lp ++ Ls ∧ (∀ c ∈ Ls, d < c.rad) ∧
      (∀ x, Lp.getLast? = some x → x.rad ≤ d) ∧
      KDTree.offer (Distance.root d) point index k (slots k L) =
        some (slots k ((Lp ++ ⟨d, point, index⟩ :: Ls).take k)) := by
  obtain ⟨Lp, Ls, hsplit, hs, hp⟩ := split_tail d L
  refine ⟨Lp, Ls, hsplit, hs, hp, ?_⟩
  have hlen : L.length = Lp.length + Ls.length := by simp [hsplit]
  have hP : ∀ x, (Lp.map Cand.slot).getLast? = some x → moves (Distance.root d) x = false := by
    intro x hx
    rw [List.getLast?_map] at hx
    cases hlast : Lp.getLast? with
    | none => simp [hlast] at hx
    | some c =>
      simp [hlast] at hx
      subst hx
      have := hp c hlast
      simp [moves, Cand.slot, Distance.lt, not_lt.2 this]
  have hS : ∀ e ∈ Ls.map Cand.slot ++ List.replicate (k - L.length) NearestNeighbor.default,
      moves (Distance.root d) e = true := by
    intro e he
    rcases List.mem_append.1 he with h | h
    · obtain ⟨c, hc, rfl⟩ := List.mem_map.1 h
      simp [moves, Cand.slot, Distance.lt, hs c hc]
    · have := List.eq_of_mem_replicate h
      subst this
      simp [moves, NearestNeighbor.default]
  have hoff := offer_list (Distance.root d) point index k (Lp.map Cand.slot)
    (Ls.map Cand.slot ++ List.replicate (k - L.length) NearestNeighbor.default) hP hS
    (by simp; omega)
  have hrepr : slots k L = Lp.map Cand.slot ++
      (Ls.map Cand.slot ++ List.replicate (k - L.length) NearestNeighbor.default) := by
    simp [slots, hsplit]
  rw [hrepr, hoff]
  have := take_slots k (k - L.length) (Lp ++ ⟨d, point, index⟩ :: Ls) (by simp; omega)
  rw [← this]
  simp [Cand.slot]

/-! ## The invariant of the search -/

theorem le_last_of_sorted (L : List Cand) (hs : L.Pairwise (fun a b => a.rad ≤ b.rad))
    (z : Cand) (hz : L.getLast? = some z) : ∀ x ∈ L, x.rad ≤ z.rad := by
  rcases List.eq_nil_or_concat L with hnil | ⟨L0, y, hy⟩
  · subst hnil; simp
  · subst hy
    simp at hz
    subst hz
    intro x hx
    simp at hx
    rw [List.concat_eq_append, List.pairwise_append] at hs
    rcases hx with h | h
    · exact hs.2.2 x h y (by simp)
    · subst h; exact le_refl _

theorem searchInv_nil (k : Nat) (ok : Prop) : SearchInv k ok [] [] :=
  ⟨List.Pairwise.nil, Nat.zero_le _, [], by simp, Or.inl rfl, by simp⟩

theorem searchInv_perm (k : Nat) (ok : Prop) (S S' L : List Cand) (hp : S.Perm S')
    (h : SearchInv k ok S L) : SearchInv k ok S' L := by
  obtain ⟨hs, hl, rest, hperm, hfull, hord⟩ := h
  exact ⟨hs, hl, rest, hp.symm.trans hperm, hfull, hord⟩

theorem searchInv_skip (k : Nat) (ok : Prop) (S L T : List Cand) (h : SearchInv k ok S L)
    (hfull : L.length = k) (hT : ok → ∀ x ∈ L, ∀ y ∈ T, x.rad ≤ y.rad) :
    SearchInv k ok (T ++ S) L := by
  obtain ⟨hs, hl, rest, hperm, _, hord⟩ := h
  refine ⟨hs, hl, rest ++ T, ?_, Or.inr hfull, ?_⟩
  · calc (T ++ S).Perm (S ++ T) := List.perm_append_comm
      _ |>.Perm ((L ++ rest) ++ T) := hperm.append_right T
      _ |>.Perm (L ++ (rest ++ T)) := by rw [List.append_assoc]
  · intro hok x hx y hy
    rcases List.mem_append.1 hy with h1 | h1
    · exact hord hok x hx y h1
    · exact hT hok x hx y h1

theorem searchInv_offer (k : Nat) (ok : Prop) (S Lp Ls : List Cand) (c : Cand)
    (h : SearchInv k ok S (Lp ++ Ls)) (hs : ∀ x ∈ Ls, c.rad < x.rad)
    (hp : ∀ x, Lp.getLast? = some x → x.rad ≤ c.rad) :
    SearchInv k ok (c :: S) ((Lp ++ c :: Ls).take k) := by
  obtain ⟨hsort, hl, rest, hperm, hfull, hord⟩ := h
  have hsort' := List.pairwise_append.1 hsort
  have hM : (Lp ++ c :: Ls).Pairwise (fun a b => a.rad ≤ b.rad) := by
    rw [List.pairwise_append]
    refine ⟨hsort'.1, ?_, ?_⟩
    · rw [List.pairwise_cons]
      exact ⟨fun x hx => le_of_lt (hs x hx), hsort'.2.1⟩
    · intro x hx y hy
      rcases List.mem_cons.1 hy with h1 | h1
      · subst h1
        cases hlast : Lp.getLast? with
        | none => simp [List.getLast?_eq_none_iff] at hlast; subst hlast; simp at hx
        | some z => exact le_trans (le_last_of_sorted Lp hsort'.1 z hlast x hx) (hp z hlast)
      · exact hsort'.2.2 x hx y h1
  have hsplit : (Lp ++ c :: Ls).take k ++ (Lp ++ c :: Ls).drop k = Lp ++ c :: Ls :=
    List.take_append_drop _ _
  have hM2 := hM
  rw [← hsplit, List.pairwise_append] at hM2
  refine ⟨hM2.1, by simp, (Lp ++ c :: Ls).drop k ++ rest, ?_, ?_, ?_⟩
  · rw [← List.append_assoc, hsplit]
    calc (c :: S).Perm (c :: ((Lp ++ Ls) ++ rest)) := hperm.cons c
      _ |>.Perm (c :: (Lp ++ (Ls ++ rest))) := by rw [List.append_assoc]
      _ |>.Perm (Lp ++ c :: (Ls ++ rest)) := List.perm_middle.symm
      _ |>.Perm ((Lp ++ c :: Ls) ++ rest) := by simp
  · by_cases hk : k ≤ (Lp ++ c :: Ls).length
    · right; simp at hk ⊢; omega
    · left
      have h1 : (Lp ++ Ls).length ≠ k := by simp at hk ⊢; omega
      have hrest : rest = [] := by
        rcases hfull with h2 | h2
        · exact h2
        · exact absurd h2 h1
      subst hrest
      simp at hk ⊢; omega
  · intro hok x hx y hy
    rcases List.mem_append.1 hy with h1 | h1
    · exact hM2.2.2 x hx y h1
    · have hLk : (Lp ++ Ls).length = k := by
        rcases hfull with h2 | h2
        · subst h2; simp at h1
        · exact h2
      rcases List.eq_nil_or_concat Ls with hnil | ⟨Ls0, z, hz⟩
      · subst hnil
        simp at hLk
        have : (Lp ++ [c]).take k = Lp := by
          rw [List.take_append_eq_append_take]; simp [hLk]
        rw [this] at hx
        exact hord hok x (by simp [hx]) y h1
      · have hzmem : z ∈ Ls := by subst hz; simp
        have hxM : x ∈ Lp ++ c :: Ls := List.mem_of_mem_take hx
        rcases List.mem_append.1 hxM with h3 | h3
        · exact hord hok x (by simp [h3]) y h1
        · rcases List.mem_cons.1 h3 with h4 | h4
          · subst h4
            exact le_trans (le_of_lt (hs z hzmem)) (hord hok z (by simp [hzmem]) y h1)
          · exact hord hok x (by simp [h4]) y h1

theorem visit_second_slots (g : ℚ) (k : Nat) (hk : 1 ≤ k) (L : List Cand)
    (hL : L.length ≤ k) :
    ∃ b, KDTree.visit_second g k (slots k L) = some b ∧
      (b = false → L.length = k ∧ ∃ z, L.getLast? = some z ∧ z.rad ≤ g * g) := by
  have hidx : ((k : Int) - 1).toNat = k - 1 := by omega
  have hnn : (0 : Int) ≤ (k : Int) - 1 := by omega
  by_cases hfull : L.length = k
  · rcases List.eq_nil_or_concat L with hnil | ⟨L0, z, hz⟩
    · subst hnil; simp at hfull; omega
    · subst hz
      simp only [List.concat_eq_append] at hfull ⊢
      have hlen : L0.length = k - 1 := by simp at hfull; omega
      have hget : (slots k (L0 ++ [z]))[k - 1]? = some z.slot := by
        have h1 : slots k (L0 ++ [z]) = L0.map Cand.slot ++
            z.slot :: List.replicate (k - (L0.length + 1)) NearestNeighbor.default := by
          simp [slots]
        have h2 : (L0.map Cand.slot ++
            z.slot :: List.replicate (k - (L0.length + 1)) NearestNeighbor.default)[
              (L0.map Cand.slot).length]? = some z.slot := by
          rw [List.getElem?_append_right (Nat.le_refl _)]; simp
        rw [h1, ← hlen]
        simpa using h2
      refine ⟨Distance.abs_lt g (Distance.root z.rad), ?_, ?_⟩
      · simp [KDTree.visit_second, NearestNeighbor.read, hnn, hidx, hget, Cand.slot]
      · intro hb
        refine ⟨hfull, z, by simp, ?_⟩
        simpa [Distance.abs_lt] using hb
  · refine ⟨true, ?_, by simp⟩
    have hlt : L.length < k := lt_of_le_of_ne hL hfull
    have hget : (slots k L)[k - 1]? = some NearestNeighbor.default := by
      unfold slots
      rw [List.getElem?_append_right (by simp; omega)]
      simp [List.getElem?_replicate]
      omega
    simp [KDTree.visit_second, NearestNeighbor.read, hnn, hidx, hget, NearestNeighbor.default]

theorem cands_node (dim : Nat) (query : List ℚ) (weights : Option (List ℚ))
    (point : List ℚ) (index split_dim : Nat) (left right : KDNode) :
    (KDNode.node point index split_dim left right).cands dim query weights =
      ⟨KDTree.node_radicand dim query point weights, point, index⟩ ::
        (left.cands dim query weights ++ right.cands dim query weights) := by
  simp [KDNode.cands, KDNode.entries, candOf]

theorem perm_visit_right_last (A B S : List Cand) (c : Cand) :
    (B ++ (A ++ c :: S)).Perm (c :: (A ++ B) ++ S) := by
  have h1 : (B ++ (A ++ c :: S)).Perm (c :: (B ++ (A ++ S))) := by
    have : (A ++ c :: S).Perm (c :: (A ++ S)) := List.perm_middle
    exact (this.append_left B).trans List.perm_middle
  have h2 : (B ++ (A ++ S)).Perm ((A ++ B) ++ S) := by
    rw [← List.append_assoc]
    exact List.perm_append_comm.append_right S
  simpa using h1.trans (h2.cons c)

theorem perm_visit_left_last (A B S : List Cand) (c : Cand) :
    (A ++ (B ++ c :: S)).Perm (c :: (A ++ B) ++ S) := by
  have h1 : (A ++ (B ++ c :: S)).Perm (c :: (A ++ (B ++ S))) := by
    have : (B ++ c :: S).Perm (c :: (B ++ S)) := List.perm_middle
    exact (this.append_left A).trans List.perm_middle
  simpa using h1

theorem search_inv (dim : Nat) (query : List ℚ) (k : Nat) (weights : Option (List ℚ))
    (ok : Prop) (hk : 1 ≤ k) :
    ∀ t : KDNode, (ok → PruneSound dim query weights t) → ∀ S L, SearchInv k ok S L →
      ∃ L', KDTree.find_k_nearest_impl dim t query k (slots k L) weights = some (slots k L') ∧
        SearchInv k ok (t.cands dim query weights ++ S) L' := by
  intro t
  induction t with
  | null =>
    intro _ S L h
    exact ⟨L, by simp [KDTree.find_k_nearest_impl], by simpa [KDNode.cands, KDNode.entries] using h⟩
  | node point index split_dim left right ihl ihr =>
    intro hsound S L h
    have hsl : ok → PruneSound dim query weights left := fun o => (hsound o).2.2.1
    have hsr : ok → PruneSound dim query weights right := fun o => (hsound o).2.2.2
    obtain ⟨Lp, Ls, hsplit, hs, hp, hoff⟩ :=
      offer_slots (KDTree.node_radicand dim query point weights) point index k L h.2.1
    set c : Cand := ⟨KDTree.node_radicand dim query point weights, point, index⟩ with hc
    have h1 : SearchInv k ok (c :: S) ((Lp ++ c :: Ls).take k) :=
      searchInv_offer k ok S Lp Ls c (hsplit ▸ h) hs hp
    rw [cands_node]
    by_cases hg : KDTree.split_distance query point split_dim weights ≤ 0
    · obtain ⟨L2, hrun2, h2⟩ := ihl hsl _ _ h1
      obtain ⟨b, hb, hbf⟩ := visit_second_slots
        (KDTree.split_distance query point split_dim weights) k hk L2 h2.2.1
      cases b with
      | true =>
        obtain ⟨L3, hrun3, h3⟩ := ihr hsr _ _ h2
        refine ⟨L3, ?_, searchInv_perm k ok _ _ L3 ?_ h3⟩
        · simp [KDTree.find_k_nearest_impl, node_distance_eq, hoff, hg, hrun2, hb, hrun3, bind]
        · exact perm_visit_right_last _ _ _ _
      | false =>
        obtain ⟨hfull, z, hz, hzle⟩ := hbf rfl
        refine ⟨L2, ?_, ?_⟩
        · simp [KDTree.find_k_nearest_impl, node_distance_eq, hoff, hg, hrun2, hb, bind]
        · have h3 := searchInv_skip k ok _ L2 (right.cands dim query weights) h2 hfull ?_
          · exact searchInv_perm k ok _ _ L2 (perm_visit_right_last _ _ _ _) h3
          · intro o x hx y hy
            exact le_trans (le_last_of_sorted L2 h2.1 z hz x hx)
              (le_trans hzle ((hsound o).1 hg y hy))
    · obtain ⟨L2, hrun2, h2⟩ := ihr hsr _ _ h1
      obtain ⟨b, hb, hbf⟩ := visit_second_slots
        (KDTree.split_distance query point split_dim weights) k hk L2 h2.2.1
      cases b with
      | true =>
        obtain ⟨L3, hrun3, h3⟩ := ihl hsl _ _ h2
        refine ⟨L3, ?_, searchInv_perm k ok _ _ L3 ?_ h3⟩
        · simp [KDTree.find_k_nearest_impl, node_distance_eq, hoff, hg, hrun2, hb, hrun3, bind]
        · exact perm_visit_left_last _ _ _ _
      | false =>
        obtain ⟨hfull, z, hz, hzle⟩ := hbf rfl
        refine ⟨L2, ?_, ?_⟩
        · simp [KDTree.find_k_nearest_impl, node_distance_eq, hoff, hg, hrun2, hb, bind]
        · have h3 := searchInv_skip k ok _ L2 (left.cands dim query weights) h2 hfull ?_
          · exact searchInv_perm k ok _ _ L2 (perm_visit_left_last _ _ _ _) h3
          · intro o x hx y hy
            exact le_trans (le_last_of_sorted L2 h2.1 z hz x hx)
              (le_trans hzle ((hsound o).2.1 hg y hy))

/-! ## The pruning bound -/

theorem foldl_add_eq (f : Nat → ℚ) (l : List Nat) (a : ℚ) :
    l.foldl (fun sum i => sum + f i) a = a + (l.map f).sum := by
  induction l generalizing a with
  | nil => simp
  | cons x xs ih => simp [ih, add_assoc]

theorem term_le_squared_sum (p1 p2 : List ℚ) (dim s : Nat) (hs : s < dim) :
    (p1.getD s 0 - p2.getD s 0) * (p1.getD s 0 - p2.getD s 0)
      ≤ MathUtils.squared_sum p1 p2 dim := by
  unfold MathUtils.squared_sum
  rw [foldl_add_eq (fun i => (p1.getD i 0 - p2.getD i 0) * (p1.getD i 0 - p2.getD i 0)), zero_add]
  apply List.single_le_sum
  · intro x hx
    obtain ⟨i, _, rfl⟩ := List.mem_map.1 hx
    exact mul_self_nonneg _
  · exact List.mem_map.2 ⟨s, List.mem_range.2 hs, rfl⟩

theorem term_le_weighted_squared_sum (p1 p2 w : List ℚ) (dim s : Nat) (hs : s < dim)
    (hw : ∀ i < dim, 0 ≤ w.getD i 0) :
    w.getD s 0 * (p1.getD s 0 - p2.getD s 0) * (p1.getD s 0 - p2.getD s 0)
      ≤ MathUtils.weighted_squared_sum p1 p2 dim w := by
  unfold MathUtils.weighted_squared_sum
  rw [foldl_add_eq
    (fun i => w.getD i 0 * (p1.getD i 0 - p2.getD i 0) * (p1.getD i 0 - p2.getD i 0)), zero_add]
  apply List.single_le_sum
  · intro x hx
    obtain ⟨i, hi, rfl⟩ := List.mem_map.1 hx
    rw [mul_assoc]
    exact mul_nonneg (hw i (List.mem_range.1 hi)) (mul_self_nonneg _)
  · exact List.mem_map.2 ⟨s, List.mem_range.2 hs, rfl⟩

theorem gap_le_far (q p y w : ℚ) (hw0 : 0 ≤ w) (hw1 : w ≤ 1) :
    ((q - p) * w ≤ 0 → p ≤ y → ((q - p) * w) * ((q - p) * w) ≤ w * (q - y) * (q - y)) ∧
    (¬ (q - p) * w ≤ 0 → y ≤ p → ((q - p) * w) * ((q - p) * w) ≤ w * (q - y) * (q - y)) := by
  have key : ∀ d e : ℚ, d * d ≤ e * e → (d * w) * (d * w) ≤ w * e * e := by
    intro d e hde
    have h1 : (d * w) * (d * w) = (w * w) * (d * d) := by ring
    have h2 : w * w ≤ w := by nlinarith
    have h3 : (w * w) * (d * d) ≤ w * (d * d) :=
      mul_le_mul_of_nonneg_right h2 (mul_self_nonneg d)
    have h4 : w * (d * d) ≤ w * (e * e) := mul_le_mul_of_nonneg_left hde hw0
    have h5 : w * e * e = w * (e * e) := by ring
    rw [h1, h5]
    exact le_trans h3 h4
  constructor
  · intro hg hy
    rcases eq_or_lt_of_le hw0 with h0 | hpos
    · subst h0; simp
    · have hd : q - p ≤ 0 := by
        by_contra hcon
        push_neg at hcon
        have := mul_pos hcon hpos
        linarith
      apply key
      nlinarith
  · intro hg hy
    push_neg at hg
    have hd : 0 < q - p := by
      by_contra hcon
      push_neg at hcon
      have := mul_nonpos_of_nonpos_of_nonneg hcon hw0
      linarith
    apply key
    nlinarith

theorem pruneSound_of_kdInv (ds : Dataset) (query : List ℚ) (weights : Option (List ℚ))
    (hw : WeightsUnit ds.n_features weights) :
    ∀ t : KDNode, KDInv ds t → PruneSound ds.n_features query weights t := by
  intro t
  induction t with
  | null => intro _; trivial
  | node point index split_dim left right ihl ihr =>
    intro h
    obtain ⟨hs, hleft, hright, hl, hr⟩ := h
    have hbound : ∀ e : List ℚ × Nat,
        (KDTree.split_distance query point split_dim weights ≤ 0 →
          point.getD split_dim 0 ≤ e.1.getD split_dim 0 →
          KDTree.split_distance query point split_dim weights
            * KDTree.split_distance query point split_dim weights
            ≤ KDTree.node_radicand ds.n_features query e.1 weights) ∧
        (¬ KDTree.split_distance query point split_dim weights ≤ 0 →
          e.1.getD split_dim 0 ≤ point.getD split_dim 0 →
          KDTree.split_distance query point split_dim weights
            * KDTree.split_distance query point split_dim weights
            ≤ KDTree.node_radicand ds.n_features query e.1 weights) := by
      intro e
      cases weights with
      | none =>
        have hterm := term_le_squared_sum query e.1 ds.n_features split_dim hs
        have hg := gap_le_far (query.getD split_dim 0) (point.getD split_dim 0)
          (e.1.getD split_dim 0) 1 (by norm_num) (by norm_num)
        simp only [mul_one, one_mul] at hg
        simp only [KDTree.split_distance, KDTree.node_radicand]
        exact ⟨fun a b => le_trans (hg.1 a b) hterm, fun a b => le_trans (hg.2 a b) hterm⟩
      | some w =>
        have hws := hw w rfl
        have hterm := term_le_weighted_squared_sum query e.1 w ds.n_features split_dim hs
          (fun i hi => (hws i hi).1)
        have hg := gap_le_far (query.getD split_dim 0) (point.getD split_dim 0)
          (e.1.getD split_dim 0) (w.getD split_dim 0) (hws split_dim hs).1 (hws split_dim hs).2
        simp only [KDTree.split_distance, KDTree.node_radicand]
        exact ⟨fun a b => le_trans (hg.1 a b) hterm, fun a b => le_trans (hg.2 a b) hterm⟩
    refine ⟨?_, ?_, ihl hl, ihr hr⟩
    · intro hg y hy
      obtain ⟨e, he, rfl⟩ := List.mem_map.1 hy
      exact (hbound e).1 hg (hright e he)
    · intro hg y hy
      obtain ⟨e, he, rfl⟩ := List.mem_map.1 hy
      exact (hbound e).2 hg (hleft e he)

/-! ## The tree that `build_tree` produces -/

theorem split_at_mid (arr : List Nat) (mid : Nat) (h : mid < arr.length) :
    arr = arr.take mid ++ arr.getD mid 0 :: arr.drop (mid + 1) := by
  have h1 : arr.drop mid = arr[mid] :: arr.drop (mid + 1) := List.drop_eq_getElem_cons h
  have h2 : arr.getD mid 0 = arr[mid] := by
    simp [List.getD, List.getElem?_eq_getElem h]
  rw [h2, ← h1, List.take_append_drop]

theorem build_tree_aux_facts (sel : Selector) (hsel : NthElementSpec sel) (ds : Dataset)
    (hD : 0 < ds.n_features) :
    ∀ (fuel : Nat) (indices : List Nat) (depth : Nat), indices.length ≤ fuel →
      ((KDTree.build_tree_aux sel ds fuel indices depth).entries.map Prod.snd).Perm indices ∧
      (∀ e ∈ (KDTree.build_tree_aux sel ds fuel indices depth).entries,
        e.1 = ds.features e.2) ∧
      KDInv ds (KDTree.build_tree_aux sel ds fuel indices depth) := by
  intro fuel
  induction fuel with
  | zero =>
    intro indices depth h
    have : indices = [] := List.length_eq_zero.1 (Nat.le_zero.1 h)
    subst this
    simp [KDTree.build_tree_aux, KDNode.entries, KDInv]
  | succ fuel ih =>
    intro indices depth h
    by_cases h0 : indices.length = 0
    · have : indices = [] := List.length_eq_zero.1 h0
      subst this
      simp [KDTree.build_tree_aux, KDNode.entries, KDInv]
    · have hmid : indices.length / 2 < indices.length := Nat.div_lt_self (by omega) (by norm_num)
      obtain ⟨hperm, hpart, hnth⟩ := hsel
        (fun a => (ds.features a).getD (depth % ds.n_features) 0) indices
        (indices.length / 2) hmid
      set arr := sel (fun a b => decide ((ds.features a).getD (depth % ds.n_features) 0
        < (ds.features b).getD (depth % ds.n_features) 0)) indices (indices.length / 2) with harr
      have hlen : arr.length = indices.length := hperm.length_eq
      have hright : (arr.drop (indices.length / 2 + 1)).take
          (indices.length - indices.length / 2 - 1) = arr.drop (indices.length / 2 + 1) := by
        apply List.take_of_length_le
        simp [hlen]; omega
      obtain ⟨ihl1, ihl2, ihl3⟩ := ih (arr.take (indices.length / 2)) (depth + 1)
        (by simp [hlen]; omega)
      obtain ⟨ihr1, ihr2, ihr3⟩ := ih (arr.drop (indices.length / 2 + 1)) (depth + 1)
        (by simp [hlen]; omega)
      have hsplit := split_at_mid arr (indices.length / 2) (by omega)
      have hmem_mid : arr.getD (indices.length / 2) 0 ∈ arr.drop (indices.length / 2) := by
        have hgetD : arr.getD (indices.length / 2) 0 = arr[indices.length / 2] := by
          simp [List.getD, List.getElem?_eq_getElem (by omega : indices.length / 2 < arr.length)]
        rw [hgetD, List.drop_eq_getElem_cons (by omega : indices.length / 2 < arr.length)]
        exact List.mem_cons_self _ _
      have hdef : KDTree.build_tree_aux sel ds (fuel + 1) indices depth =
          KDNode.node (ds.features (arr.getD (indices.length / 2) 0))
            (arr.getD (indices.length / 2) 0) (depth % ds.n_features)
            (KDTree.build_tree_aux sel ds fuel (arr.take (indices.length / 2)) (depth + 1))
            (KDTree.build_tree_aux sel ds fuel (arr.drop (indices.length / 2 + 1))
              (depth + 1)) := by
        rw [KDTree.build_tree_aux]
        simp only [h0, if_false, hright, harr]
      rw [hdef]
      refine ⟨?_, ?_, ?_⟩
      · simp only [KDNode.entries, List.map_cons, List.map_append]
        refine List.Perm.trans ?_ hperm
        have h1 := (ihl1.append ihr1).cons (arr.getD (indices.length / 2) 0)
        refine h1.trans ?_
        conv_rhs => rw [hsplit]
        exact List.perm_middle.symm
      · intro e he
        simp only [KDNode.entries, List.mem_cons, List.mem_append] at he
        rcases he with h1 | h1 | h1
        · subst h1; rfl
        · exact ihl2 e h1
        · exact ihr2 e h1
      · refine ⟨Nat.mod_lt _ hD, ?_, ?_, ihl3, ihr3⟩
        · intro e he
          have hidx : e.2 ∈ arr.take (indices.length / 2) :=
            ihl1.subset (List.mem_map_of_mem Prod.snd he)
          have := hpart e.2 hidx _ hmem_mid
          rw [ihl2 e he]
          exact this
        · intro e he
          have hidx : e.2 ∈ arr.drop (indices.length / 2 + 1) :=
            ihr1.subset (List.mem_map_of_mem Prod.snd he)
          have hidx2 : e.2 ∈ arr.drop (indices.length / 2) := by
            rw [List.drop_eq_getElem_cons (by omega : indices.length / 2 < arr.length)]
            exact List.mem_cons_of_mem _ hidx
          have := hnth e.2 hidx2
          rw [ihr2 e he]
          exact this

/-! ## The public search -/

theorem root_facts (sel : Selector) (hsel : NthElementSpec sel) (ds : Dataset)
    (hD : 0 < ds.n_features) :
    (KDTree.new sel (some ds)).dataset_ = some ds ∧
    ((KDTree.new sel (some ds)).root.entries.map Prod.snd).Perm (List.range ds.n_samples) ∧
    (∀ e ∈ (KDTree.new sel (some ds)).root.entries, e.1 = ds.features e.2) ∧
    KDInv ds (KDTree.new sel (some ds)).root := by
  by_cases h0 : ds.n_samples = 0
  · simp [KDTree.new, h0, KDNode.entries, KDInv]
  · have h := build_tree_aux_facts sel hsel ds hD (List.range ds.n_samples).length
      (List.range ds.n_samples) 0 (Nat.le_refl _)
    simpa [KDTree.new, h0, KDTree.build_tree] using h

theorem filterMap_slots (k : Nat) (L : List Cand) :
    (slots k L).filterMap
      (fun neighbor => if neighbor.point.isSome then some neighbor.index else none) =
      L.map Cand.index := by
  unfold slots
  rw [List.filterMap_append]
  have h1 : (List.replicate (k - L.length) NearestNeighbor.default).filterMap
      (fun neighbor => if neighbor.point.isSome then some neighbor.index else none) = [] := by
    rw [List.filterMap_eq_nil_iff]
    intro e he
    have := List.eq_of_mem_replicate he
    subst this
    simp [NearestNeighbor.default]
  rw [h1, List.append_nil, List.filterMap_map]
  clear h1
  induction L with
  | nil => rfl
  | cons c cs ih =>
    simp only [List.filterMap_cons, List.map_cons, Function.comp, Cand.slot, Option.isSome_some,
      if_true]
    rw [← ih]

theorem find_k_nearest_spec (sel : Selector) (hsel : NthElementSpec sel) (ds : Dataset)
    (hD : 0 < ds.n_features) (query : List ℚ) (k : Int) (hk : 1 ≤ k)
    (weights : Option (List ℚ)) (ok : Prop) (hok : ok → WeightsUnit ds.n_features weights) :
    ∃ L rest : List Cand,
      (KDTree.new sel (some ds)).find_k_nearest query k weights = Except.ok (L.map Cand.index) ∧
      L.Pairwise (fun a b => a.rad ≤ b.rad) ∧
      L.length ≤ k.toNat ∧ (rest = [] ∨ L.length = k.toNat) ∧
      ((L ++ rest).map Cand.index).Perm (List.range ds.n_samples) ∧
      (∀ c ∈ L ++ rest,
        c.rad = KDTree.node_radicand ds.n_features query (ds.features c.index) weights) ∧
      (ok → ∀ x ∈ L, ∀ y ∈ rest, x.rad ≤ y.rad) := by
  obtain ⟨hds, hperm, hpt, hkd⟩ := root_facts sel hsel ds hD
  have hk1 : 1 ≤ k.toNat := by omega
  obtain ⟨L, hrun, hsort, hlen, rest, hS, hfull, hord⟩ :=
    search_inv ds.n_features query k.toNat weights ok hk1 (KDTree.new sel (some ds)).root
      (fun o => pruneSound_of_kdInv ds query weights (hok o) _ hkd) [] []
      (searchInv_nil _ _)
  have hslots : slots k.toNat [] = List.replicate k.toNat NearestNeighbor.default := by
    simp [slots]
  rw [hslots] at hrun
  rw [List.append_nil] at hS
  refine ⟨L, rest, ?_, hsort, hlen, hfull, ?_, ?_, hord⟩
  · have hnk : ¬ k < 0 := by omega
    simp only [KDTree.find_k_nearest, hnk, if_false, hds, hrun, filterMap_slots]
  · have h1 : ((KDTree.new sel (some ds)).root.cands ds.n_features query weights).map Cand.index
        = (KDTree.new sel (some ds)).root.entries.map Prod.snd := by
      simp [KDNode.cands, candOf, Function.comp]
    exact ((hS.map Cand.index).symm.trans (h1 ▸ hperm))
  · intro c hc
    have hc' : c ∈ (KDTree.new sel (some ds)).root.cands ds.n_features query weights :=
      hS.symm.subset hc
    obtain ⟨e, he, rfl⟩ := List.mem_map.1 hc'
    simp only [candOf]
    rw [← hpt e he]

/-! ## A routine that meets the postcondition of `std::nth_element` -/

theorem nth_element_by_sort_spec : NthElementSpec nth_element_by_sort := by
  intro key l nth hnth
  have hrel : ∀ a b : Nat, (decide (key b < key a) = false) ↔ key a ≤ key b := by
    intro a b; simp
  haveI : IsTotal Nat (fun a b => decide (key b < key a) = false) :=
    ⟨fun a b => by simp only [hrel]; exact le_total _ _⟩
  haveI : IsTrans Nat (fun a b => decide (key b < key a) = false) :=
    ⟨fun a b c => by simp only [hrel]; exact le_trans⟩
  have hperm : (l.insertionSort (fun a b => decide (key b < key a) = false)).Perm l :=
    List.perm_insertionSort _ l
  have hsorted : (l.insertionSort (fun a b => decide (key b < key a) = false)).Pairwise
      (fun a b => decide (key b < key a) = false) :=
    List.sorted_insertionSort _ l
  set out := l.insertionSort (fun a b => decide (key b < key a) = false) with hout
  have hlen : nth < out.length := by rw [hperm.length_eq]; exact hnth
  have hsplit : out.take nth ++ out.drop nth = out := List.take_append_drop _ _
  have hs2 := hsorted
  rw [← hsplit, List.pairwise_append] at hs2
  refine ⟨hperm, ?_, ?_⟩
  · intro x hx y hy
    exact (hrel x y).1 (hs2.2.2 x hx y hy)
  · intro y hy
    have hgetD : out.getD nth 0 = out[nth] := by
      simp [List.getD, List.getElem?_eq_getElem hlen]
    have hdrop : out.drop nth = out[nth] :: out.drop (nth + 1) := List.drop_eq_getElem_cons hlen
    have hy : y ∈ out.drop nth := hy
    show key (out.getD nth 0) ≤ key y
    rw [hgetD]
    have h3 := hs2.2.1
    rw [hdrop] at hy h3
    rcases List.mem_cons.1 hy with h | h
    · rw [h]
    · exact (hrel _ _).1 ((List.pairwise_cons.1 h3).1 y h)

/-! ## Distances of a point to itself, and signs -/

theorem node_radicand_self (dim : Nat) (p : List ℚ) (weights : Option (List ℚ)) :
    KDTree.node_radicand dim p p weights = 0 := by
  cases weights with
  | none =>
    simp only [KDTree.node_radicand, MathUtils.squared_sum]
    rw [foldl_add_eq (fun i => (p.getD i 0 - p.getD i 0) * (p.getD i 0 - p.getD i 0))]
    simp
  | some w =>
    simp only [KDTree.node_radicand, MathUtils.weighted_squared_sum]
    rw [foldl_add_eq
      (fun i => w.getD i 0 * (p.getD i 0 - p.getD i 0) * (p.getD i 0 - p.getD i 0))]
    simp

theorem node_radicand_nonneg (dim : Nat) (q p : List ℚ) (weights : Option (List ℚ))
    (hw : ∀ w, weights = some w → ∀ i < dim, 0 ≤ w.getD i 0) :
    0 ≤ KDTree.node_radicand dim q p weights := by
  cases weights with
  | none =>
    simp only [KDTree.node_radicand, MathUtils.squared_sum]
    rw [foldl_add_eq (fun i => (q.getD i 0 - p.getD i 0) * (q.getD i 0 - p.getD i 0)), zero_add]
    apply List.sum_nonneg
    intro x hx
    obtain ⟨i, _, rfl⟩ := List.mem_map.1 hx
    exact mul_self_nonneg _
  | some w =>
    simp only [KDTree.node_radicand, MathUtils.weighted_squared_sum]
    rw [foldl_add_eq
      (fun i => w.getD i 0 * (q.getD i 0 - p.getD i 0) * (q.getD i 0 - p.getD i 0)), zero_add]
    apply List.sum_nonneg
    intro x hx
    obtain ⟨i, hi, rfl⟩ := List.mem_map.1 hx
    rw [mul_assoc]
    exact mul_nonneg (hw w rfl i (List.mem_range.1 hi)) (mul_self_nonneg _)

theorem weightsUnit_ones (dim : Nat) (weights : Option (List ℚ))
    (hw : weights = none ∨ weights = some (List.replicate dim 1)) :
    WeightsUnit dim weights := by
  intro w hwe i hi
  rcases hw with h | h
  · rw [h] at hwe; cases hwe
  · rw [h] at hwe
    cases hwe
    simp [List.getD, List.getElem?_replicate, hi]

theorem sorted_take_eq (L rest : List ℚ) (all : List ℚ)
    (hs : L.Pairwise (fun a b => a ≤ b)) (hperm : (L ++ rest).Perm all)
    (hord : ∀ x ∈ L, ∀ y ∈ rest, x ≤ y) :
    L = (all.insertionSort (fun a b => a ≤ b)).take L.length := by
  have h1 : (L ++ rest.insertionSort (fun a b => a ≤ b)).Pairwise (fun a b => a ≤ b) := by
    rw [List.pairwise_append]
    refine ⟨hs, List.sorted_insertionSort _ rest, ?_⟩
    intro x hx y hy
    exact hord x hx y ((List.perm_insertionSort _ rest).subset hy)
  have h2 : (L ++ rest.insertionSort (fun a b => a ≤ b)).Perm
      (all.insertionSort (fun a b => a ≤ b)) :=
    ((List.perm_insertionSort _ rest).append_left L).trans
      (hperm.trans (List.perm_insertionSort _ all).symm)
  have h3 : L ++ rest.insertionSort (fun a b => a ≤ b) = all.insertionSort (fun a b => a ≤ b) :=
    List.eq_of_perm_of_sorted h2 h1 (List.sorted_insertionSort _ all)
  rw [← h3]
  simp

/-! ## Claims about the search -/

/-- C1: on the tree built from a non-empty well-formed dataset of `n` samples,
with `k ≥ 1` and no weight vector or the all-ones vector, `find_k_nearest`
returns `min(k, n)` indices that are `n`-nearest in the exact sense: together
with the indices it leaves out they are a permutation of `0 .. n-1`, no index
left out is strictly closer to the query than a returned one, and the list of
their (squared) distances is the first `min(k, n)` entries of the sorted list
of all (squared) distances. With `k = 1` and the query equal to a sample's own
vector, the single returned index is at distance `0`. -/
theorem find_k_nearest_exact_unweighted (sel : Selector) (hsel : NthElementSpec sel)
    (ds : Dataset) (hwf : ds.WF) (hne : ds.data ≠ []) (query : List ℚ)
    (hq : query.length = ds.n_features) (k : Int) (hk : 1 ≤ k) (weights : Option (List ℚ))
    (hw : weights = none ∨ weights = some (List.replicate ds.n_features 1)) :
    ∃ result rest : List Nat,
      (KDTree.new sel (some ds)).find_k_nearest query k weights = Except.ok result ∧
      (result ++ rest).Perm (List.range ds.n_samples) ∧
      result.length = min k.toNat ds.n_samples ∧
      (∀ i ∈ result, ∀ j ∈ rest,
        (KDTree.node_distance ds.n_features query (ds.features j) weights).lt
          (KDTree.node_distance ds.n_features query (ds.features i) weights) = false) ∧
      result.map (fun i => KDTree.node_radicand ds.n_features query (ds.features i) weights) =
        (((List.range ds.n_samples).map
            (fun i => KDTree.node_radicand ds.n_features query (ds.features i) weights)).insertionSort
          (fun a b => a ≤ b)).take (min k.toNat ds.n_samples) ∧
      (k = 1 → ∀ s < ds.n_samples, query = ds.features s →
        ∃ i, result = [i] ∧ i < ds.n_samples ∧
          KDTree.node_distance ds.n_features query (ds.features i) weights = Distance.root 0) := by
  have hunit := weightsUnit_ones ds.n_features weights hw
  obtain ⟨L, rest, hrun, hsort, hlen, hfull, hperm, hrad, hord⟩ :=
    find_k_nearest_spec sel hsel ds hwf.1 query k hk weights True (fun _ => hunit)
  have hord := hord trivial
  have hn : L.length + rest.length = ds.n_samples := by
    have := hperm.length_eq
    simpa using this
  have hmin : L.length = min k.toNat ds.n_samples := by
    rcases hfull with h | h
    · subst h; simp at hn; omega
    · omega
  have hradmap : ∀ M : List Cand, (∀ c ∈ M, c ∈ L ++ rest) →
      (M.map Cand.index).map
        (fun i => KDTree.node_radicand ds.n_features query (ds.features i) weights)
        = M.map Cand.rad := by
    intro M hM
    rw [List.map_map]
    apply List.map_congr_left
    intro c hc
    exact (hrad c (hM c hc)).symm
  have hresult_rad := hradmap L (fun c hc => List.mem_append_left _ hc)
  have hall : (L.map Cand.rad ++ rest.map Cand.rad).Perm
      ((List.range ds.n_samples).map
        (fun i => KDTree.node_radicand ds.n_features query (ds.features i) weights)) := by
    have h1 := hperm.map
      (fun i => KDTree.node_radicand ds.n_features query (ds.features i) weights)
    rw [hradmap (L ++ rest) (fun c hc => hc), List.map_append] at h1
    exact h1
  have hdist : ∀ i ∈ L.map Cand.index, ∀ j ∈ rest.map Cand.index,
      KDTree.node_radicand ds.n_features query (ds.features i) weights
        ≤ KDTree.node_radicand ds.n_features query (ds.features j) weights := by
    intro i hi j hj
    obtain ⟨x, hx, rfl⟩ := List.mem_map.1 hi
    obtain ⟨y, hy, rfl⟩ := List.mem_map.1 hj
    rw [← hrad x (List.mem_append_left _ hx), ← hrad y (List.mem_append_right _ hy)]
    exact hord x hx y hy
  refine ⟨L.map Cand.index, rest.map Cand.index, hrun, ?_, ?_, ?_, ?_, ?_⟩
  · simpa using hperm
  · simpa using hmin
  · intro i hi j hj
    simp only [node_distance_eq, Distance.lt, decide_eq_false_iff_not, not_lt]
    exact hdist i hi j hj
  · rw [hresult_rad, ← hmin]
    have h := sorted_take_eq (L.map Cand.rad) (rest.map Cand.rad) _
      (by simpa [List.pairwise_map] using hsort) hall
      (by
        intro x hx y hy
        obtain ⟨a, ha, rfl⟩ := List.mem_map.1 hx
        obtain ⟨b, hb, rfl⟩ := List.mem_map.1 hy
        exact hord a ha b hb)
    simpa using h
  · intro hk1 s hs hqs
    have hlen1 : L.length = 1 := by
      have : 0 < ds.n_samples := by omega
      subst hk1; simp at hmin; omega
    obtain ⟨c, hc⟩ := List.length_eq_one.1 hlen1
    subst hc
    have hcmem : c.index ∈ List.range ds.n_samples :=
      hperm.subset (by simp)
    refine ⟨c.index, by simp, List.mem_range.1 hcmem, ?_⟩
    rw [node_distance_eq]
    congr 1
    have hnonneg := node_radicand_nonneg ds.n_features query (ds.features c.index) weights
      (fun w hw i hi => (hunit w hw i hi).1)
    have hself : KDTree.node_radicand ds.n_features query (ds.features s) weights = 0 := by
      rw [← hqs]; exact node_radicand_self _ _ _
    have hsmem : s ∈ ([c] ++ rest).map Cand.index := hperm.symm.subset (List.mem_range.2 hs)
    rw [List.map_append] at hsmem
    rcases List.mem_append.1 hsmem with h | h
    · simp at h
      rw [← h]; exact hself
    · have := hdist c.index (by simp) s h
      rw [hself] at this
      exact le_antisymm this hnonneg

/-- Witness of C1 on Scenario A: query `(0,0)`, `k = 2`, weights `[1,1]`. -/
theorem find_k_nearest_exact_unweighted_witness :
    ∃ result rest : List Nat,
      (KDTree.new nth_element_by_sort (some scenarioA)).find_k_nearest [0, 0] 2 (some [1, 1])
        = Except.ok result ∧
      (result ++ rest).Perm (List.range scenarioA.n_samples) ∧
      result.length = min (2 : Int).toNat scenarioA.n_samples := by
  obtain ⟨result, rest, h1, h2, h3, _⟩ :=
    find_k_nearest_exact_unweighted nth_element_by_sort nth_element_by_sort_spec scenarioA
      (by decide) (by decide) [0, 0] rfl 2 (by decide) (some [1, 1]) (Or.inr rfl)
  exact ⟨result, rest, h1, h2, h3⟩

/-- C3: on the tree built from a non-empty well-formed dataset of `n` samples,
for every query, every `k ≥ 1` and every weight argument, `find_k_nearest`
returns a sequence of length exactly `min(k, n)`, and when `k ≥ n` every sample
index occurs in it. -/
theorem find_k_nearest_length (sel : Selector) (hsel : NthElementSpec sel)
    (ds : Dataset) (hwf : ds.WF) (hne : ds.data ≠ []) (query : List ℚ)
    (hq : query.length = ds.n_features) (k : Int) (hk : 1 ≤ k) (weights : Option (List ℚ))
    (hw : WeightsWF ds.n_features weights) :
    ∃ result : List Nat,
      (KDTree.new sel (some ds)).find_k_nearest query k weights = Except.ok result ∧
      result.length = min k.toNat ds.n_samples ∧
      ((ds.n_samples : Int) ≤ k → ∀ i < ds.n_samples, i ∈ result) := by
  obtain ⟨L, rest, hrun, _, hlen, hfull, hperm, _, _⟩ :=
    find_k_nearest_spec sel hsel ds hwf.1 query k hk weights False (fun h => h.elim)
  have hn : L.length + rest.length = ds.n_samples := by
    have := hperm.length_eq
    simpa using this
  refine ⟨L.map Cand.index, hrun, ?_, ?_⟩
  · rcases hfull with h | h
    · subst h; simp at hn ⊢; omega
    · simp; omega
  · intro hkn i hi
    have hrest : rest = [] := by
      rcases hfull with h | h
      · exact h
      · apply List.eq_nil_of_length_eq_zero; omega
    subst hrest
    simpa using hperm.symm.subset (List.mem_range.2 hi)

/-- Witness of C3 on Scenario A: four samples, `k = 10`, weights above `1`. -/
theorem find_k_nearest_length_witness :
    ∃ result : List Nat,
      (KDTree.new nth_element_by_sort (some scenarioA)).find_k_nearest [0, 0] 10
        (some [2, 3]) = Except.ok result ∧
      result.length = min (10 : Int).toNat scenarioA.n_samples ∧
      ((scenarioA.n_samples : Int) ≤ 10 → ∀ i < scenarioA.n_samples, i ∈ result) :=
  find_k_nearest_length nth_element_by_sort nth_element_by_sort_spec scenarioA
    (by decide) (by decide) [0, 0] rfl 10 (by decide) (some [2, 3])
    (by intro w hw; cases hw; exact ⟨rfl, by simp⟩)

/-- C4: for every well-formed dataset (the empty one included), query, `k ≥ 1`
and weight argument, the indices returned by `find_k_nearest` are in ascending
order of distance: in the list of distances recomputed from the query to each
returned index, no later distance is smaller than an earlier one. -/
theorem find_k_nearest_sorted (sel : Selector) (hsel : NthElementSpec sel)
    (ds : Dataset) (hwf : ds.WF) (query : List ℚ)
    (hq : query.length = ds.n_features) (k : Int) (hk : 1 ≤ k) (weights : Option (List ℚ))
    (hw : WeightsWF ds.n_features weights) :
    ∃ result : List Nat,
      (KDTree.new sel (some ds)).find_k_nearest query k weights = Except.ok result ∧
      (result.map
        (fun i => KDTree.node_distance ds.n_features query (ds.features i) weights)).Pairwise
        (fun a b => b.lt a = false) := by
  obtain ⟨L, rest, hrun, hsort, _, _, _, hrad, _⟩ :=
    find_k_nearest_spec sel hsel ds hwf.1 query k hk weights False (fun h => h.elim)
  refine ⟨L.map Cand.index, hrun, ?_⟩
  rw [List.map_map, List.pairwise_map]
  refine List.Pairwise.imp_of_mem ?_ hsort
  intro a b ha hb hab
  simp only [Function.comp, node_distance_eq, Distance.lt, decide_eq_false_iff_not, not_lt]
  rw [← hrad a (List.mem_append_left _ ha), ← hrad b (List.mem_append_left _ hb)]
  exact hab

/-- Witness of C4 on Scenario A with weights above `1`. -/
theorem find_k_nearest_sorted_witness :
    ∃ result : List Nat,
      (KDTree.new nth_element_by_sort (some scenarioA)).find_k_nearest [3, 1] 3
        (some [2, 3]) = Except.ok result ∧
      (result.map
        (fun i => KDTree.node_distance scenarioA.n_features [3, 1] (scenarioA.features i)
          (some [2, 3]))).Pairwise (fun a b => b.lt a = false) :=
  find_k_nearest_sorted nth_element_by_sort nth_element_by_sort_spec scenarioA
    (by decide) [3, 1] rfl 3 (by decide) (some [2, 3])
    (by intro w hw; cases hw; exact ⟨rfl, by simp⟩)

/-! ## The weighted pruning bound on a concrete line -/

theorem lineData_root (sel : Selector) (hsel : NthElementSpec sel) :
    (KDTree.new sel (some lineData)).root =
      KDNode.node [0] 0 0 (KDNode.node [-1] 2 0 KDNode.null KDNode.null)
        (KDNode.node [10] 1 0 KDNode.null KDNode.null) := by
  have hkey : ∀ d : Nat, (fun a b : Nat => decide ((lineData.features a).getD (d % lineData.n_features) 0
      < (lineData.features b).getD (d % lineData.n_features) 0)) =
      (fun a b : Nat => decide ((lineData.features a).getD 0 0 < (lineData.features b).getD 0 0)) := by
    intro d
    have : d % lineData.n_features = 0 := by simp [lineData, Nat.mod_one]
    rw [this]
  obtain ⟨hperm, hpart, hnth⟩ := hsel (fun a => (lineData.features a).getD 0 0) [0, 1, 2] 1
    (by simp)
  obtain ⟨hperm2, -, -⟩ := hsel (fun a => (lineData.features a).getD 0 0) [2] 0 (by simp)
  obtain ⟨hperm1, -, -⟩ := hsel (fun a => (lineData.features a).getD 0 0) [1] 0 (by simp)
  have h2 := List.perm_singleton.1 hperm2
  have h1 := List.perm_singleton.1 hperm1
  have k0 : (lineData.features 0).getD 0 0 = 0 := by simp [lineData, Dataset.features]
  have k1 : (lineData.features 1).getD 0 0 = 10 := by simp [lineData, Dataset.features]
  have k2 : (lineData.features 2).getD 0 0 = -1 := by simp [lineData, Dataset.features]
  have harr : sel (fun a b : Nat => decide ((lineData.features a).getD 0 0
      < (lineData.features b).getD 0 0)) [0, 1, 2] 1 = [2, 0, 1] := by
    have hmem := List.mem_permutations.2 hperm
    generalize sel (fun a b : Nat => decide ((lineData.features a).getD 0 0
      < (lineData.features b).getD 0 0)) [0, 1, 2] 1 = arr at hperm hpart hnth hmem
    simp [List.permutations, List.permutationsAux, List.permutationsAux.rec,
      List.permutationsAux2] at hmem
    rcases hmem with h | h | h | h | h | h <;> subst h <;>
      first
        | rfl
        | (exfalso
           simp [lineData, Dataset.features] at hpart hnth
           done)
        | (exfalso
           simp [lineData, Dataset.features] at hpart hnth
           norm_num at hpart hnth)
  simp only [KDTree.new, KDTree.build_tree, KDTree.build_tree_aux, hkey]
  have hr : List.range lineData.n_samples = [0, 1, 2] := rfl
  have hn : lineData.n_samples = 3 := rfl
  generalize (fun a b : Nat => decide ((lineData.features a).getD 0 0
      < (lineData.features b).getD 0 0)) = comp at harr h1 h2 ⊢
  have hr3 : List.range 3 = [0, 1, 2] := rfl
  simp [hr, hn, hr3, harr, h1, h2]
  simp [lineData, Dataset.features]

/-- C2: the weighted search on three points of a line, at `0`, `10` and `-1`,
with weight `4`, query `4` and `k = 2`. Whatever admissible `std::nth_element`
builds the tree, the search returns the samples `0` and `1` (weighted
distances `8` and `12`) and leaves out sample `2`, whose weighted distance `10`
is strictly smaller than that of the returned sample `1`: the subtree holding
sample `2` is pruned because the bound `4 * |4 - 0| = 16` is not below `12`. -/
theorem find_k_nearest_weighted_misses (sel : Selector) (hsel : NthElementSpec sel) :
    (KDTree.new sel (some lineData)).find_k_nearest [4] 2 (some [4]) = Except.ok [0, 1] ∧
    (KDTree.node_distance lineData.n_features [4] (lineData.features 2) (some [4])).lt
      (KDTree.node_distance lineData.n_features [4] (lineData.features 1) (some [4])) = true := by
  have hds : (KDTree.new sel (some lineData)).dataset_ = some lineData := by
    simp [KDTree.new, lineData, Dataset.n_samples]
  constructor
  · simp only [KDTree.find_k_nearest, lineData_root sel hsel, hds]
    simp [KDTree.find_k_nearest_impl, KDTree.offer,
      KDTree.shift_loop, KDTree.node_distance, KDTree.split_distance, KDTree.visit_second,
      NearestNeighbor.read, NearestNeighbor.write, NearestNeighbor.default,
      MathUtils.weighted_euclidean_distance, MathUtils.weighted_squared_sum, Distance.lt,
      Distance.abs_lt, lineData, List.range, List.range.loop, List.replicate, bind,
      List.filterMap]
    norm_num
    rfl
  · simp [KDTree.node_distance, MathUtils.weighted_euclidean_distance,
      MathUtils.weighted_squared_sum, Distance.lt, lineData, Dataset.features, List.range,
      List.range.loop]
    norm_num

/-- Witness of C2 with the sorting `nth_element`. -/
theorem find_k_nearest_weighted_misses_witness :
    (KDTree.new nth_element_by_sort (some lineData)).find_k_nearest [4] 2 (some [4])
      = Except.ok [0, 1] ∧
    (KDTree.node_distance lineData.n_features [4] (lineData.features 2) (some [4])).lt
      (KDTree.node_distance lineData.n_features [4] (lineData.features 1) (some [4])) = true :=
  find_k_nearest_weighted_misses nth_element_by_sort nth_element_by_sort_spec

/-! ## Calls with `k ≤ 0`, and the empty index -/

theorem find_k_nearest_null_root (t : KDTree) (hroot : t.root = KDNode.null) (query : List ℚ)
    (k : Int) (hk : 0 ≤ k) (weights : Option (List ℚ)) :
    t.find_k_nearest query k weights = Except.ok [] := by
  have hnk : ¬ k < 0 := by omega
  have h := filterMap_slots k.toNat []
  simp only [slots, List.map_nil, List.nil_append, List.length_nil, Nat.sub_zero] at h
  simp only [KDTree.find_k_nearest, hnk, if_false, hroot, KDTree.find_k_nearest_impl, h]

theorem new_root_of_empty (sel : Selector) (ds : Dataset) (hds : ds.data = []) :
    (KDTree.new sel (some ds)).root = KDNode.null := by
  simp [KDTree.new, Dataset.n_samples, hds]

theorem find_k_nearest_impl_zero (dim : Nat) (query : List ℚ) (weights : Option (List ℚ)) :
    ∀ t : KDNode, t ≠ KDNode.null →
      KDTree.find_k_nearest_impl dim t query 0 [] weights = none := by
  intro t
  induction t with
  | null => intro h; exact absurd rfl h
  | node point index split_dim left right ihl ihr =>
    intro _
    have hoff : ∀ d, KDTree.offer d point index 0 [] = some [] := by
      intro d; simp [KDTree.offer, KDTree.shift_loop, bind]
    have hvisit : ∀ g, KDTree.visit_second g 0 [] = none := by
      intro g; simp [KDTree.visit_second, NearestNeighbor.read]
    have hnull : ∀ t : KDNode, t = KDNode.null →
        KDTree.find_k_nearest_impl dim t query 0 [] weights = some [] := by
      intro t ht; subst ht; simp [KDTree.find_k_nearest_impl]
    by_cases hg : KDTree.split_distance query point split_dim weights ≤ 0
    · by_cases hl : left = KDNode.null
      · simp [KDTree.find_k_nearest_impl, hoff, hg, hnull left hl, hvisit, bind]
      · simp [KDTree.find_k_nearest_impl, hoff, hg, ihl hl, bind]
    · by_cases hr : right = KDNode.null
      · simp [KDTree.find_k_nearest_impl, hoff, hg, hnull right hr, hvisit, bind]
      · simp [KDTree.find_k_nearest_impl, hoff, hg, ihr hr, bind]

/-- With `k = 0` on a non-empty index the search reads `neighbors[-1]`,
outside the (empty) neighbour list. -/
theorem find_k_nearest_zero_nonempty (sel : Selector) (ds : Dataset) (hne : ds.data ≠ [])
    (query : List ℚ) (weights : Option (List ℚ)) :
    (KDTree.new sel (some ds)).find_k_nearest query 0 weights
      = Except.error Fault.out_of_bounds := by
  have hn : ds.n_samples ≠ 0 := by
    simpa [Dataset.n_samples] using hne
  have hlen : (List.range ds.n_samples).length ≠ 0 := by simpa using hn
  have hroot : (KDTree.new sel (some ds)).root ≠ KDNode.null := by
    obtain ⟨m, hm⟩ := Nat.exists_eq_succ_of_ne_zero hn
    simp [KDTree.new, hn, KDTree.build_tree, hm, KDTree.build_tree_aux]
  have h := find_k_nearest_impl_zero
    (match (KDTree.new sel (some ds)).dataset_ with
      | some ds => ds.n_features
      | none => 0) query weights _ hroot
  simp [KDTree.find_k_nearest, h]

/-- C7, counterexample: with `k = 0` on the index of an empty dataset
`find_k_nearest` signals nothing and returns a result, the empty sequence. -/
theorem find_k_nearest_zero_returns :
    (KDTree.new nth_element_by_sort (some emptyData)).find_k_nearest [0] 0 none
      = Except.ok [] :=
  find_k_nearest_null_root _ (new_root_of_empty _ _ rfl) _ 0 (by decide) _

/-- C7, amended: for every `k < 0`, every dataset, query and weight argument,
`find_k_nearest` returns no result: the construction of the neighbour list
fails with `std::length_error` before the search starts. For `k = 0` on the
index of an empty dataset it returns the empty sequence and signals nothing. -/
theorem find_k_nearest_nonpositive (sel : Selector) (ds : Dataset) (query : List ℚ)
    (k : Int) (weights : Option (List ℚ)) (hk : k ≤ 0) :
    (k < 0 → (KDTree.new sel (some ds)).find_k_nearest query k weights
      = Except.error Fault.length_error) ∧
    (k = 0 → ds.data = [] →
      (KDTree.new sel (some ds)).find_k_nearest query k weights = Except.ok []) := by
  constructor
  · intro h
    simp [KDTree.find_k_nearest, h]
  · intro h hds
    exact find_k_nearest_null_root _ (new_root_of_empty sel ds hds) query k (by omega) weights

/-- Witness of C7 (amended) at `k = -1` on Scenario A. -/
theorem find_k_nearest_nonpositive_witness :
    (KDTree.new nth_element_by_sort (some scenarioA)).find_k_nearest [0, 0] (-1) none
      = Except.error Fault.length_error :=
  (find_k_nearest_nonpositive nth_element_by_sort scenarioA [0, 0] (-1) none (by decide)).1
    (by decide)

/-! ## The vote -/

theorem survived_votes_eq_sum (p : Predictor) (neighbors : List Nat) :
    p.survived_votes neighbors = (neighbors.map p.train_data_.survived).sum := by
  have h : ∀ (l : List Nat) (a : Int),
      l.foldl (fun votes idx => votes + p.train_data_.survived idx) a
        = a + (l.map p.train_data_.survived).sum := by
    intro l
    induction l with
    | nil => intro a; simp
    | cons x xs ih => intro a; simp [ih, add_assoc]
  simpa [Predictor.survived_votes] using h neighbors 0

theorem votes_bounds (p : Predictor) (neighbors : List Nat)
    (hlab : ∀ idx ∈ neighbors, p.train_data_.survived idx = 0 ∨ p.train_data_.survived idx = 1) :
    0 ≤ (neighbors.map p.train_data_.survived).sum ∧
    (neighbors.map p.train_data_.survived).sum ≤ (neighbors.length : Int) := by
  induction neighbors with
  | nil => simp
  | cons x xs ih =>
    have hx := hlab x (by simp)
    have ih' := ih (fun idx h => hlab idx (by simp [h]))
    simp only [List.map_cons, List.sum_cons, List.length_cons]
    push_cast
    rcases hx with h | h <;> rw [h] <;> constructor <;> omega

/-- C5: for a non-empty neighbour list whose training labels are all `0` or
`1` (with `2 * votes` within the range of an `int`, so that the source's
arithmetic is defined), `make_prediction` returns `1` if
`2 * (sum of the neighbours' labels) ≥ (number of neighbours)` and `0`
otherwise; in particular an exact tie predicts `1`. -/
theorem make_prediction_majority (p : Predictor) (neighbors : List Nat)
    (hne : neighbors ≠ [])
    (hlab : ∀ idx ∈ neighbors, p.train_data_.survived idx = 0 ∨ p.train_data_.survived idx = 1)
    (hfit : 2 * (neighbors.map p.train_data_.survived).sum ≤ 2147483647) :
    p.make_prediction neighbors =
      (if (neighbors.length : Int) ≤ 2 * (neighbors.map p.train_data_.survived).sum
        then 1 else 0) ∧
    (2 * (neighbors.map p.train_data_.survived).sum = (neighbors.length : Int) →
      p.make_prediction neighbors = 1) := by
  obtain ⟨h0, h1⟩ := votes_bounds p neighbors hlab
  have hconv : size_t_of_int (2 * p.survived_votes neighbors)
      = (2 * (neighbors.map p.train_data_.survived).sum).toNat := by
    rw [survived_votes_eq_sum]
    unfold size_t_of_int
    congr 1
    apply Int.emod_eq_of_lt <;> omega
  have hmain : p.make_prediction neighbors =
      (if (neighbors.length : Int) ≤ 2 * (neighbors.map p.train_data_.survived).sum
        then 1 else 0) := by
    unfold Predictor.make_prediction
    rw [hconv]
    by_cases h : (neighbors.length : Int) ≤ 2 * (neighbors.map p.train_data_.survived).sum
    · rw [if_pos h, if_pos (by omega)]
    · rw [if_neg h, if_neg (by omega)]
  refine ⟨hmain, ?_⟩
  intro htie
  rw [hmain, if_pos (by omega)]

/-- Witness of C5: two neighbours of Scenario A with labels `1` and `0`, an
exact tie, predicted `1`. -/
theorem make_prediction_majority_witness :
    (Predictor.with_weights nth_element_by_sort scenarioA none).make_prediction [0, 1] = 1 :=
  (make_prediction_majority (Predictor.with_weights nth_element_by_sort scenarioA none) [0, 1]
    (by decide) (by decide) (by decide)).2 (by decide)

/-! ## Classifying against an empty training set -/

theorem make_prediction_nil (p : Predictor) : p.make_prediction [] = 1 := by
  simp [Predictor.make_prediction, Predictor.survived_votes, size_t_of_int]

theorem predict_static_loop_empty (p : Predictor) (hroot : p.kdtree_.root = KDNode.null)
    (k : Int) (hk : 0 ≤ k) :
    ∀ samples : List Sample,
      p.predict_static_loop k samples = Except.ok (List.replicate samples.length 1) := by
  intro samples
  induction samples with
  | nil => rfl
  | cons s rest ih =>
    simp [Predictor.predict_static_loop, find_k_nearest_null_root p.kdtree_ hroot _ k hk, ih,
      make_prediction_nil, bind, Except.bind, List.replicate_succ]

theorem predict_adaptive_loop_empty (p : Predictor) (hroot : p.kdtree_.root = KDNode.null)
    (k : Int) (hk : 0 ≤ k) :
    ∀ (samples : List Sample) (aw : AdaptiveWeights),
      ∃ aw', p.predict_adaptive_loop k samples aw
        = Except.ok (List.replicate samples.length 1, aw') := by
  intro samples
  induction samples with
  | nil => intro aw; exact ⟨aw, rfl⟩
  | cons s rest ih =>
    intro aw
    obtain ⟨aw', h⟩ := ih (if s.survived ≠ -1 then
        aw.update s.features [] p.train_data_ (decide (p.make_prediction [] = s.survived))
      else aw)
    refine ⟨aw', ?_⟩
    simp only [Predictor.predict_adaptive_loop,
      find_k_nearest_null_root p.kdtree_ hroot _ k hk, bind, Except.bind, h]
    simp [make_prediction_nil, List.replicate_succ]

theorem predict_empty (p : Predictor) (hroot : p.kdtree_.root = KDNode.null)
    (test_data : Dataset) (k : Int) (hk : 0 ≤ k) :
    (p.predict test_data k).map Prod.fst
      = Except.ok (List.replicate test_data.n_samples 1) := by
  unfold Predictor.predict
  by_cases hmode : p.use_adaptive_ = true
  · obtain ⟨aw', h⟩ := predict_adaptive_loop_empty p hroot k hk test_data.data
      (p.adaptive_weights_.getD (AdaptiveWeights.new p.train_data_.n_features))
    simp [hmode, Predictor.predict_adaptive, h, Except.map, Dataset.n_samples]
  · simp [hmode, Predictor.predict_static, predict_static_loop_empty p hroot k hk,
      Except.map, Dataset.n_samples]

/-- C6, counterexample: a static-mode predictor built from an empty training
set classifies a query without failing; it returns the label `1`. -/
theorem predict_empty_training_returns :
    (Predictor.with_mode nth_element_by_sort emptyData false).predict oneTest 1
      = Except.ok ([1], Predictor.with_mode nth_element_by_sort emptyData false) := by
  simp [Predictor.predict, Predictor.with_mode, Predictor.predict_static, oneTest,
    Predictor.predict_static_loop,
    find_k_nearest_null_root _ (new_root_of_empty nth_element_by_sort emptyData rfl),
    make_prediction_nil, bind, Except.bind]

/-- C6, amended: classifying against a predictor built from an empty training
set does not fail. For every test set and every `k ≥ 1`, in static mode (with
or without a weight vector) and in adaptive mode, `predict` returns one
prediction per test sample and every prediction is the label `1`: the
neighbour list is empty, the vote sum is `0`, and `2 * 0 >= 0` holds. -/
theorem predict_empty_training (sel : Selector) (train_data : Dataset)
    (hempty : train_data.data = []) (test_data : Dataset) (k : Int) (hk : 1 ≤ k) :
    (∀ use_adaptive : Bool,
      ((Predictor.with_mode sel train_data use_adaptive).predict test_data k).map Prod.fst
        = Except.ok (List.replicate test_data.n_samples 1)) ∧
    (∀ weights : Option (List ℚ),
      ((Predictor.with_weights sel train_data weights).predict test_data k).map Prod.fst
        = Except.ok (List.replicate test_data.n_samples 1)) := by
  constructor
  · intro use_adaptive
    exact predict_empty _ (new_root_of_empty sel train_data hempty) test_data k (by omega)
  · intro weights
    exact predict_empty _ (new_root_of_empty sel train_data hempty) test_data k (by omega)

/-- Witness of C6 (amended): an empty training set, one test sample, `k = 1`,
adaptive mode. -/
theorem predict_empty_training_witness :
    ((Predictor.with_mode nth_element_by_sort emptyData true).predict oneTest 1).map Prod.fst
      = Except.ok (List.replicate oneTest.n_samples 1) :=
  (predict_empty_training nth_element_by_sort emptyData rfl oneTest 1 (by decide)).1 true

/-! ## The adaptive weight tracker -/

theorem update_feature_same (s : AdaptiveWeights) (hwf : s.WF) (f : Nat)
    (hf : f < s.weights_.length) (query : List ℚ) (neighbors : List Nat) (train_data : Dataset)
    (correct : Bool) :
    (s.update_feature f query neighbors train_data correct).stat f =
      stepStat (AdaptiveWeights.is_feature_helpful f query neighbors train_data) correct
        (s.stat f) := by
  obtain ⟨h1, h2⟩ := hwf
  have hf1 : f < s.feature_success_.length := by omega
  have hf2 : f < s.feature_used_.length := by omega
  by_cases hh : AdaptiveWeights.is_feature_helpful f query neighbors train_data = correct
  · simp [AdaptiveWeights.update_feature, AdaptiveWeights.stat, stepStat, hh, List.getD,
      List.getElem?_set, hf, hf1, hf2]
  · simp [AdaptiveWeights.update_feature, AdaptiveWeights.stat, stepStat, hh, List.getD,
      List.getElem?_set, hf, hf1, hf2]

theorem update_feature_other (s : AdaptiveWeights) (f g : Nat) (hg : g ≠ f)
    (query : List ℚ) (neighbors : List Nat) (train_data : Dataset) (correct : Bool) :
    (s.update_feature f query neighbors train_data correct).stat g = s.stat g := by
  have hfg : ¬ f = g := fun h => hg h.symm
  by_cases hh : AdaptiveWeights.is_feature_helpful f query neighbors train_data = correct
  · simp [AdaptiveWeights.update_feature, AdaptiveWeights.stat, hh, List.getD,
      List.getElem?_set, hfg]
  · simp [AdaptiveWeights.update_feature, AdaptiveWeights.stat, hh, List.getD,
      List.getElem?_set, hfg]

theorem update_feature_shape (s : AdaptiveWeights) (hwf : s.WF) (f : Nat)
    (query : List ℚ) (neighbors : List Nat) (train_data : Dataset) (correct : Bool) :
    (s.update_feature f query neighbors train_data correct).WF ∧
    (s.update_feature f query neighbors train_data correct).weights_.length
      = s.weights_.length := by
  obtain ⟨h1, h2⟩ := hwf
  by_cases hh : AdaptiveWeights.is_feature_helpful f query neighbors train_data = correct
  · simp [AdaptiveWeights.update_feature, AdaptiveWeights.WF, hh, h1, h2]
  · simp [AdaptiveWeights.update_feature, AdaptiveWeights.WF, hh, h1, h2]

theorem update_fold (query : List ℚ) (neighbors : List Nat) (train_data : Dataset)
    (correct : Bool) :
    ∀ (fs : List Nat) (s : AdaptiveWeights), s.WF → fs.Nodup →
      (∀ f ∈ fs, f < s.weights_.length) →
      (fs.foldl (fun st f => st.update_feature f query neighbors train_data correct) s).WF ∧
      (fs.foldl (fun st f => st.update_feature f query neighbors train_data correct)
        s).weights_.length = s.weights_.length ∧
      ∀ g, (fs.foldl (fun st f => st.update_feature f query neighbors train_data correct)
          s).stat g =
        if g ∈ fs then
          stepStat (AdaptiveWeights.is_feature_helpful g query neighbors train_data) correct
            (s.stat g)
        else s.stat g := by
  intro fs
  induction fs with
  | nil => intro s hwf _ _; simp [hwf]
  | cons x xs ih =>
    intro s hwf hnd hlt
    obtain ⟨hx, hxs⟩ := List.nodup_cons.1 hnd
    obtain ⟨hwf', hlen'⟩ := update_feature_shape s hwf x query neighbors train_data correct
    obtain ⟨r1, r2, r3⟩ := ih (s.update_feature x query neighbors train_data correct) hwf' hxs
      (by intro f hfm; rw [hlen']; exact hlt f (by simp [hfm]))
    simp only [List.foldl_cons]
    refine ⟨r1, by rw [r2, hlen'], ?_⟩
    intro g
    rw [r3 g]
    by_cases hgx : g = x
    · subst hgx
      simp only [hx, if_false, List.mem_cons, true_or, if_true]
      exact update_feature_same s hwf g (hlt g (by simp)) query neighbors train_data correct
    · by_cases hgxs : g ∈ xs
      · simp only [hgxs, if_true, List.mem_cons, or_true]
        rw [update_feature_other s x g hgx]
      · simp only [hgxs, if_false, List.mem_cons, hgx, or_self]
        rw [update_feature_other s x g hgx]

theorem update_stat (s : AdaptiveWeights) (hwf : s.WF) (query : List ℚ) (neighbors : List Nat)
    (train_data : Dataset) (correct : Bool) :
    (s.update query neighbors train_data correct).WF ∧
    (s.update query neighbors train_data correct).weights_.length = s.weights_.length ∧
    ∀ f < s.weights_.length,
      (s.update query neighbors train_data correct).stat f =
        stepStat (AdaptiveWeights.is_feature_helpful f query neighbors train_data) correct
          (s.stat f) := by
  obtain ⟨h1, h2, h3⟩ := update_fold query neighbors train_data correct
    (List.range s.weights_.length) s hwf (List.nodup_range _)
    (fun f hf => List.mem_range.1 hf)
  refine ⟨h1, h2, ?_⟩
  intro f hf
  have := h3 f
  rw [if_pos (List.mem_range.2 hf)] at this
  exact this

theorem is_feature_helpful_mean (f : Nat) (query : List ℚ) (neighbors : List Nat)
    (hne : neighbors ≠ []) (train_data : Dataset) :
    AdaptiveWeights.is_feature_helpful f query neighbors train_data =
      decide ((neighbors.map
          (fun idx => |query.getD f 0 - (train_data.features idx).getD f 0|)).sum
        / (neighbors.length : ℚ) < 1 / 2) := by
  have hlen : neighbors.length ≠ 0 := fun h => hne (List.length_eq_zero.1 h)
  unfold AdaptiveWeights.is_feature_helpful AdaptiveWeights.diff_sum
  rw [if_neg hlen,
    foldl_add_eq (fun idx => |query.getD f 0 - (train_data.features idx).getD f 0|), zero_add]

/-- C8: for every tracker state (three vectors of one length), query,
non-empty neighbour list and correctness flag, `update` changes each feature
`f` as follows: `uses[f]` grows by exactly 1; `successes[f]` grows by 1 if
(the mean over the neighbours of `|query[f] - neighbour.feature[f]|` is below
`0.5`) equals the correctness flag and is unchanged otherwise; and the new
`weight[f]` is `(new successes[f] / new uses[f]) * 2.0 + 0.5`. With new
counters `(3, 4)` the weight is exactly `2`. -/
theorem update_per_feature (s : AdaptiveWeights) (hwf : s.WF) (query : List ℚ)
    (neighbors : List Nat) (hne : neighbors ≠ []) (train_data : Dataset) (correct : Bool)
    (f : Nat) (hf : f < s.weights_.length) :
    (s.update query neighbors train_data correct).feature_used_.getD f 0
      = s.feature_used_.getD f 0 + 1 ∧
    (s.update query neighbors train_data correct).feature_success_.getD f 0
      = s.feature_success_.getD f 0 +
        (if decide ((neighbors.map
              (fun idx => |query.getD f 0 - (train_data.features idx).getD f 0|)).sum
            / (neighbors.length : ℚ) < 1 / 2) = correct then 1 else 0) ∧
    (s.update query neighbors train_data correct).weights_.getD f 0
      = (((s.update query neighbors train_data correct).feature_success_.getD f 0 : Nat) : ℚ)
        / (((s.update query neighbors train_data correct).feature_used_.getD f 0 : Nat) : ℚ) * 2
        + 1 / 2 ∧
    ((s.update query neighbors train_data correct).feature_success_.getD f 0 = 3 →
      (s.update query neighbors train_data correct).feature_used_.getD f 0 = 4 →
      (s.update query neighbors train_data correct).weights_.getD f 0 = 2) := by
  obtain ⟨_, _, hstat⟩ := update_stat s hwf query neighbors train_data correct
  have h := hstat f hf
  rw [is_feature_helpful_mean f query neighbors hne train_data] at h
  simp only [AdaptiveWeights.stat, stepStat, Prod.mk.injEq] at h
  obtain ⟨hw, hs, hu⟩ := h
  have hweight : (s.update query neighbors train_data correct).weights_.getD f 0
      = (((s.update query neighbors train_data correct).feature_success_.getD f 0 : Nat) : ℚ)
        / (((s.update query neighbors train_data correct).feature_used_.getD f 0 : Nat) : ℚ) * 2
        + 1 / 2 := by
    rw [hw, hs, hu]
  refine ⟨hu, ?_, hweight, ?_⟩
  · rw [hs]
    split <;> simp
  · intro h3 h4
    rw [hweight, h3, h4]
    norm_num

/-- Witness of C8: a one-feature tracker with counters `(2, 3)`, the query
`[0]` with its neighbour sample `0` of the line dataset (mean difference `0`,
so the feature is helpful) and a correct prediction: the counters become
`(3, 4)` and the weight `2`. -/
theorem update_per_feature_witness :
    ((AdaptiveWeights.mk [1] [2] [3]).update [0] [0] lineData true).weights_.getD 0 0 = 2 := by
  obtain ⟨hu, hs, _, h34⟩ := update_per_feature (AdaptiveWeights.mk [1] [2] [3]) ⟨rfl, rfl⟩
    [0] [0] (by decide) lineData true 0 (by decide)
  apply h34
  · rw [hs]
    simp [lineData, Dataset.features]
  · rw [hu]
    rfl

theorem update_all_inv (n : Nat) :
    ∀ (calls : List UpdateCall) (s : AdaptiveWeights), s.WF → s.weights_.length = n →
      (s.update_all calls).WF ∧ (s.update_all calls).weights_.length = n ∧
      ∀ f < n,
        (s.update_all calls).feature_used_.getD f 0 = s.feature_used_.getD f 0 + calls.length ∧
        s.feature_success_.getD f 0 ≤ (s.update_all calls).feature_success_.getD f 0 ∧
        (s.update_all calls).feature_success_.getD f 0
          ≤ s.feature_success_.getD f 0 + calls.length ∧
        (calls ≠ [] → (s.update_all calls).weights_.getD f 0 =
          (((s.update_all calls).feature_success_.getD f 0 : Nat) : ℚ)
            / (((s.update_all calls).feature_used_.getD f 0 : Nat) : ℚ) * 2 + 1 / 2) := by
  intro calls
  induction calls with
  | nil =>
    intro s hwf hlen
    refine ⟨hwf, hlen, ?_⟩
    intro f _
    simp [AdaptiveWeights.update_all]
  | cons c cs ih =>
    intro s hwf hlen
    obtain ⟨hwf1, hlen1, hstat⟩ :=
      update_stat s hwf c.query c.neighbors c.train_data c.correct_prediction
    obtain ⟨r1, r2, r3⟩ := ih (s.apply c) hwf1 (by rw [← hlen]; exact hlen1)
    have hunfold : s.update_all (c :: cs) = (s.apply c).update_all cs := rfl
    rw [hunfold]
    refine ⟨r1, r2, ?_⟩
    intro f hf
    obtain ⟨u, s1, s2, w⟩ := r3 f hf
    have h := hstat f (by omega)
    simp only [AdaptiveWeights.stat, stepStat, Prod.mk.injEq] at h
    obtain ⟨hw, hs, hu⟩ := h
    have hu' : (s.apply c).feature_used_.getD f 0 = s.feature_used_.getD f 0 + 1 := hu
    have hs' : (s.apply c).feature_success_.getD f 0 =
        if AdaptiveWeights.is_feature_helpful f c.query c.neighbors c.train_data
            = c.correct_prediction
          then s.feature_success_.getD f 0 + 1 else s.feature_success_.getD f 0 := hs
    have hsle : s.feature_success_.getD f 0 ≤ (s.apply c).feature_success_.getD f 0 ∧
        (s.apply c).feature_success_.getD f 0 ≤ s.feature_success_.getD f 0 + 1 := by
      rw [hs']; split <;> omega
    refine ⟨by rw [u, hu']; simp; omega, le_trans hsle.1 s1, ?_, ?_⟩
    · have := hsle.2
      simp only [List.length_cons]
      omega
    · intro _
      by_cases hcs : cs = []
      · subst hcs
        show (s.apply c).weights_.getD f 0 = _
        have hw' : (s.apply c).weights_.getD f 0 = _ := hw
        rw [hw']
        show _ = (((s.apply c).feature_success_.getD f 0 : Nat) : ℚ)
          / (((s.apply c).feature_used_.getD f 0 : Nat) : ℚ) * 2 + 1 / 2
        rw [hs', hu']
      · exact w hcs

/-- C9: a freshly constructed tracker has weight `1`, successes `0` and uses
`0` for every feature; after any non-empty sequence of `update` calls every
feature has `uses` equal to the number of calls, `successes ≤ uses` and
`0.5 ≤ weight ≤ 2.5`; and along any sequence of calls neither counter ever
decreases. -/
theorem tracker_invariant (n : Nat) (calls more : List UpdateCall) (f : Nat) (hf : f < n) :
    ((AdaptiveWeights.new n).weights_.getD f 0 = 1 ∧
      (AdaptiveWeights.new n).feature_success_.getD f 0 = 0 ∧
      (AdaptiveWeights.new n).feature_used_.getD f 0 = 0) ∧
    (calls ≠ [] →
      ((AdaptiveWeights.new n).update_all calls).feature_used_.getD f 0 = calls.length ∧
      ((AdaptiveWeights.new n).update_all calls).feature_success_.getD f 0
        ≤ ((AdaptiveWeights.new n).update_all calls).feature_used_.getD f 0 ∧
      1 / 2 ≤ ((AdaptiveWeights.new n).update_all calls).weights_.getD f 0 ∧
      ((AdaptiveWeights.new n).update_all calls).weights_.getD f 0 ≤ 5 / 2) ∧
    (((AdaptiveWeights.new n).update_all calls).feature_used_.getD f 0
        ≤ ((AdaptiveWeights.new n).update_all (calls ++ more)).feature_used_.getD f 0 ∧
      ((AdaptiveWeights.new n).update_all calls).feature_success_.getD f 0
        ≤ ((AdaptiveWeights.new n).update_all (calls ++ more)).feature_success_.getD f 0) := by
  have hfresh : (AdaptiveWeights.new n).weights_.getD f 0 = 1 ∧
      (AdaptiveWeights.new n).feature_success_.getD f 0 = 0 ∧
      (AdaptiveWeights.new n).feature_used_.getD f 0 = 0 := by
    simp [AdaptiveWeights.new, List.getD, List.getElem?_replicate, hf]
  have hwf0 : (AdaptiveWeights.new n).WF := by simp [AdaptiveWeights.new, AdaptiveWeights.WF]
  have hlen0 : (AdaptiveWeights.new n).weights_.length = n := by simp [AdaptiveWeights.new]
  obtain ⟨hwf1, hlen1, h1⟩ := update_all_inv n calls (AdaptiveWeights.new n) hwf0 hlen0
  obtain ⟨hu, _, hs, hw⟩ := h1 f hf
  refine ⟨hfresh, ?_, ?_⟩
  · intro hne
    have hpos : 0 < calls.length := List.length_pos.2 hne
    rw [hfresh.2.2, Nat.zero_add] at hu
    rw [hfresh.2.1, Nat.zero_add] at hs
    have hw' := hw hne
    rw [hu] at hw' ⊢
    have hq0 : (0 : ℚ) ≤
        (((AdaptiveWeights.new n).update_all calls).feature_success_.getD f 0 : Nat) := by
      exact_mod_cast Nat.zero_le _
    have hqpos : (0 : ℚ) < (calls.length : ℚ) := by exact_mod_cast hpos
    have hq1 : ((((AdaptiveWeights.new n).update_all calls).feature_success_.getD f 0 : Nat) : ℚ)
        ≤ (calls.length : ℚ) := by exact_mod_cast hs
    have hr0 : (0 : ℚ) ≤
        ((((AdaptiveWeights.new n).update_all calls).feature_success_.getD f 0 : Nat) : ℚ)
          / (calls.length : ℚ) := div_nonneg hq0 (le_of_lt hqpos)
    have hr1 : ((((AdaptiveWeights.new n).update_all calls).feature_success_.getD f 0 : Nat) : ℚ)
          / (calls.length : ℚ) ≤ 1 := (div_le_one hqpos).2 hq1
    refine ⟨rfl, hs, ?_, ?_⟩
    · rw [hw']; linarith
    · rw [hw']; linarith
  · have happ : (AdaptiveWeights.new n).update_all (calls ++ more)
        = ((AdaptiveWeights.new n).update_all calls).update_all more := by
      simp [AdaptiveWeights.update_all, List.foldl_append]
    obtain ⟨_, _, h2⟩ := update_all_inv n more _ hwf1 hlen1
    obtain ⟨hu2, hs2, _, _⟩ := h2 f hf
    rw [happ]
    exact ⟨by rw [hu2]; omega, hs2⟩

/-- Witness of C9: two features, two calls then one more call, feature `1`. -/
theorem tracker_invariant_witness :
    ((AdaptiveWeights.new 2).update_all
        [⟨[0, 0], [0], scenarioA, true⟩, ⟨[3, 3], [1], scenarioA, false⟩]).feature_used_.getD 1 0
      = 2 :=
  ((tracker_invariant 2 [⟨[0, 0], [0], scenarioA, true⟩, ⟨[3, 3], [1], scenarioA, false⟩]
    [⟨[1, 1], [2], scenarioA, true⟩] 1 (by decide)).2.1 (by simp)).1

/-- C10, counterexample: a fresh one-feature tracker, a first call where the
feature is helpful and the prediction correct, a second call where the feature
is not helpful and the prediction wrong. The helpful status differs between
the calls, yet both snapshots are `[5/2]`. -/
theorem two_updates_same_snapshot :
    AdaptiveWeights.is_feature_helpful 0 [0] [0] lineData
      ≠ AdaptiveWeights.is_feature_helpful 0 [1] [0] lineData ∧
    ((AdaptiveWeights.new 1).update [0] [0] lineData true).get_weights
      = (((AdaptiveWeights.new 1).update [0] [0] lineData true).update
          [1] [0] lineData false).get_weights := by
  have h1 : AdaptiveWeights.is_feature_helpful 0 [0] [0] lineData = true := by
    simp [AdaptiveWeights.is_feature_helpful, AdaptiveWeights.diff_sum, lineData,
      Dataset.features]
  have h2 : AdaptiveWeights.is_feature_helpful 0 [1] [0] lineData = false := by
    simp [AdaptiveWeights.is_feature_helpful, AdaptiveWeights.diff_sum, lineData,
      Dataset.features]
    norm_num
  refine ⟨by rw [h1, h2]; decide, ?_⟩
  simp [AdaptiveWeights.update, AdaptiveWeights.update_feature, AdaptiveWeights.new,
    AdaptiveWeights.get_weights, h1, h2, List.range, List.range.loop]

/-- C10, amended: for a fresh tracker and any two calls of `update` in
sequence, if for at least one dimension the outcome `feature_helpful ==
prediction_was_correct` differs between the first and the second call, then
the weight snapshot after the first call differs from the snapshot after the
second. This is the case in particular when `feature_helpful` differs for a
dimension and both calls carry the same correctness flag. -/
theorem fresh_two_updates_differ (n : Nat) (c1 c2 : UpdateCall) (f : Nat) (hf : f < n) :
    (decide (c1.helpful f = c1.correct_prediction)
        ≠ decide (c2.helpful f = c2.correct_prediction) →
      ((AdaptiveWeights.new n).apply c1).get_weights
        ≠ (((AdaptiveWeights.new n).apply c1).apply c2).get_weights) ∧
    (c1.correct_prediction = c2.correct_prediction → c1.helpful f ≠ c2.helpful f →
      ((AdaptiveWeights.new n).apply c1).get_weights
        ≠ (((AdaptiveWeights.new n).apply c1).apply c2).get_weights) := by
  have hwf0 : (AdaptiveWeights.new n).WF := by simp [AdaptiveWeights.new, AdaptiveWeights.WF]
  have hlen0 : (AdaptiveWeights.new n).weights_.length = n := by simp [AdaptiveWeights.new]
  have hstat0 : (AdaptiveWeights.new n).stat f = (1, 0, 0) := by
    simp [AdaptiveWeights.new, AdaptiveWeights.stat, List.getD, List.getElem?_replicate, hf]
  obtain ⟨hwf1, hlen1, hs1⟩ := update_stat (AdaptiveWeights.new n) hwf0
    c1.query c1.neighbors c1.train_data c1.correct_prediction
  obtain ⟨_, _, hs2⟩ := update_stat ((AdaptiveWeights.new n).apply c1) hwf1
    c2.query c2.neighbors c2.train_data c2.correct_prediction
  have e1 := hs1 f (by omega)
  have e2 := hs2 f (by rw [show ((AdaptiveWeights.new n).apply c1).weights_.length = n from
    hlen1.trans hlen0]; exact hf)
  rw [hstat0] at e1
  have e1' : ((AdaptiveWeights.new n).apply c1).stat f =
      stepStat (c1.helpful f) c1.correct_prediction (1, 0, 0) := e1
  have e2' : (((AdaptiveWeights.new n).apply c1).apply c2).stat f =
      stepStat (c2.helpful f) c2.correct_prediction
        (((AdaptiveWeights.new n).apply c1).stat f) := e2
  rw [e1'] at e2'
  have main : decide (c1.helpful f = c1.correct_prediction)
        ≠ decide (c2.helpful f = c2.correct_prediction) →
      ((AdaptiveWeights.new n).apply c1).get_weights
        ≠ (((AdaptiveWeights.new n).apply c1).apply c2).get_weights := by
    intro hdiff heq
    have hw : (((AdaptiveWeights.new n).apply c1).stat f).1
        = ((((AdaptiveWeights.new n).apply c1).apply c2).stat f).1 := by
      simp only [AdaptiveWeights.stat, AdaptiveWeights.get_weights] at heq ⊢
      rw [heq]
    rw [e1', e2'] at hw
    by_cases a1 : c1.helpful f = c1.correct_prediction <;>
      by_cases a2 : c2.helpful f = c2.correct_prediction <;>
      simp [stepStat, a1, a2] at hw hdiff
  refine ⟨main, ?_⟩
  intro hc hh
  apply main
  rw [hc]
  intro hcon
  apply hh
  have := decide_eq_decide.1 hcon
  cases h1 : c1.helpful f <;> cases h2 : c2.helpful f <;>
    cases h3 : c2.correct_prediction <;> simp [h1, h2, h3] at this ⊢

/-- Witness of C10 (amended): two calls with the same correctness flag whose
helpful status differs on the only feature. -/
theorem fresh_two_updates_differ_witness :
    ((AdaptiveWeights.new 1).apply ⟨[0], [0], lineData, true⟩).get_weights
      ≠ (((AdaptiveWeights.new 1).apply ⟨[0], [0], lineData, true⟩).apply
          ⟨[1], [0], lineData, true⟩).get_weights := by
  apply (fresh_two_updates_differ 1 ⟨[0], [0], lineData, true⟩ ⟨[1], [0], lineData, true⟩ 0
    (by decide)).2 rfl
  simp [UpdateCall.helpful, AdaptiveWeights.is_feature_helpful, AdaptiveWeights.diff_sum,
    lineData, Dataset.features]
  norm_num

/-! ## The index of an empty or absent dataset -/

/-- C12: building a `KDTree` over an absent dataset, or over a dataset without
samples, gives a tree whose root is absent, and for every query, every
`k ≥ 1` and every weight argument `find_k_nearest` on it returns the empty
sequence. -/
theorem empty_index_returns_nothing (sel : Selector) (dataset : Option Dataset)
    (hempty : ∀ ds, dataset = some ds → ds.n_samples = 0) (query : List ℚ) (k : Int)
    (hk : 1 ≤ k) (weights : Option (List ℚ)) :
    (KDTree.new sel dataset).root = KDNode.null ∧
    (KDTree.new sel dataset).find_k_nearest query k weights = Except.ok [] := by
  have hroot : (KDTree.new sel dataset).root = KDNode.null := by
    cases dataset with
    | none => rfl
    | some ds => simp [KDTree.new, hempty ds rfl]
  exact ⟨hroot, find_k_nearest_null_root _ hroot query k (by omega) weights⟩

/-- Witness of C12 with the absent dataset. -/
theorem empty_index_returns_nothing_witness :
    (KDTree.new nth_element_by_sort none).root = KDNode.null ∧
    (KDTree.new nth_element_by_sort none).find_k_nearest [1, 2] 3 (some [1, 1])
      = Except.ok [] :=
  empty_index_returns_nothing nth_element_by_sort none (by intro ds h; cases h) [1, 2] 3
    (by decide) (some [1, 1])

/-! ## Weighted distance with unit weights -/

theorem foldl_congr_range (f g : ℚ → Nat → ℚ) (dim : Nat)
    (h : ∀ a, ∀ i < dim, f a i = g a i) (a : ℚ) :
    (List.range dim).foldl f a = (List.range dim).foldl g a := by
  induction dim generalizing a with
  | zero => rfl
  | succ n ih =>
    rw [List.range_succ, List.foldl_append, List.foldl_append]
    simp only [List.foldl_cons, List.foldl_nil]
    rw [ih (fun a i hi => h a i (Nat.lt_succ_of_lt hi)), h _ n (Nat.lt_succ_self n)]

/-- C13: for two vectors of the same length `D`,
`MathUtils::weighted_euclidean_distance` with the weight vector of `D` ones
equals `MathUtils::euclidean_distance` exactly. -/
theorem weighted_ones_eq_unweighted (p1 p2 : List ℚ) (dim : Nat) (h1 : p1.length = dim)
    (h2 : p2.length = dim) :
    MathUtils.weighted_euclidean_distance p1 p2 dim (List.replicate dim 1)
      = MathUtils.euclidean_distance p1 p2 dim := by
  unfold MathUtils.weighted_euclidean_distance MathUtils.euclidean_distance
    MathUtils.weighted_squared_sum MathUtils.squared_sum
  congr 1
  apply foldl_congr_range
  intro a i hi
  simp [List.getD, List.getElem?_replicate, hi]

/-- Witness of C13 on two vectors of length `2`. -/
theorem weighted_ones_eq_unweighted_witness :
    MathUtils.weighted_euclidean_distance [1, 2] [4, 6] 2 (List.replicate 2 1)
      = MathUtils.euclidean_distance [1, 2] [4, 6] 2 :=
  weighted_ones_eq_unweighted [1, 2] [4, 6] 2 rfl rfl

/-! ## The static weights -/

theorem set_custom_weights_copy (custom_weights : List ℚ) (hlen : custom_weights.length = 7) :
    WeightCalculator.set_custom_weights custom_weights 7 = Except.ok custom_weights := by
  match custom_weights, hlen with
  | [a, b, c, d, e, f, g], _ =>
    simp [WeightCalculator.set_custom_weights, FEATURE_COUNT, WeightCalculator.copy_loop,
      WeightCalculator.store, List.replicate, bind, Except.bind]

/-- C19: with a `size` other than `FEATURE_COUNT` (7), `set_custom_weights`
does not return the default weights: it calls `calculate_feature_weights`
with a null dataset, which reads `dataset->n_features` through the null
pointer. -/
theorem set_custom_weights_fallback (custom_weights : List ℚ) (size : Int)
    (hsize : size ≠ 7) :
    WeightCalculator.set_custom_weights custom_weights size
      = Except.error Fault.null_dereference := by
  simp [WeightCalculator.set_custom_weights, FEATURE_COUNT, hsize,
    WeightCalculator.calculate_feature_weights]

/-- Witness of C19: three weights with `size = 3`. -/
theorem set_custom_weights_fallback_witness :
    WeightCalculator.set_custom_weights [1, 2, 3] 3 = Except.error Fault.null_dereference :=
  set_custom_weights_fallback [1, 2, 3] 3 (by decide)

/-! ## Weights between zero and one -/

/-- C20: on the tree built from a non-empty well-formed dataset of `n`
samples, with `k ≥ 1` and a weight vector whose `D` weights all lie in
`[0, 1]`, `find_k_nearest` returns `min(k, n)` indices whose weighted
distances are the `min(k, n)` smallest: together with the indices left out
they are a permutation of `0 .. n-1`, no index left out is strictly closer to
the query than a returned one, and the list of their (squared) weighted
distances is the first `min(k, n)` entries of the sorted list of all of them. -/
theorem find_k_nearest_exact_unit_weights (sel : Selector) (hsel : NthElementSpec sel)
    (ds : Dataset) (hwf : ds.WF) (hne : ds.data ≠ []) (query : List ℚ)
    (hq : query.length = ds.n_features) (k : Int) (hk : 1 ≤ k) (w : List ℚ)
    (hlen : w.length = ds.n_features) (hw : ∀ x ∈ w, 0 ≤ x ∧ x ≤ 1) :
    ∃ result rest : List Nat,
      (KDTree.new sel (some ds)).find_k_nearest query k (some w) = Except.ok result ∧
      (result ++ rest).Perm (List.range ds.n_samples) ∧
      result.length = min k.toNat ds.n_samples ∧
      (∀ i ∈ result, ∀ j ∈ rest,
        (KDTree.node_distance ds.n_features query (ds.features j) (some w)).lt
          (KDTree.node_distance ds.n_features query (ds.features i) (some w)) = false) ∧
      result.map (fun i => KDTree.node_radicand ds.n_features query (ds.features i) (some w)) =
        (((List.range ds.n_samples).map
            (fun i => KDTree.node_radicand ds.n_features query (ds.features i)
              (some w))).insertionSort
          (fun a b => a ≤ b)).take (min k.toNat ds.n_samples) := by
  have hunit : WeightsUnit ds.n_features (some w) := by
    intro w' hw' i hi
    cases hw'
    have hi' : i < w.length := by omega
    have hget : w.getD i 0 = w[i] := by
      simp [List.getD, List.getElem?_eq_getElem hi']
    rw [hget]
    exact hw _ (List.getElem_mem hi')
  obtain ⟨L, rest, hrun, hsort, hlenL, hfull, hperm, hrad, hord⟩ :=
    find_k_nearest_spec sel hsel ds hwf.1 query k hk (some w) True (fun _ => hunit)
  have hord := hord trivial
  have hn : L.length + rest.length = ds.n_samples := by
    have := hperm.length_eq
    simpa using this
  have hmin : L.length = min k.toNat ds.n_samples := by
    rcases hfull with h | h
    · subst h; simp at hn; omega
    · omega
  have hradmap : ∀ M : List Cand, (∀ c ∈ M, c ∈ L ++ rest) →
      (M.map Cand.index).map
        (fun i => KDTree.node_radicand ds.n_features query (ds.features i) (some w))
        = M.map Cand.rad := by
    intro M hM
    rw [List.map_map]
    apply List.map_congr_left
    intro c hc
    exact (hrad c (hM c hc)).symm
  have hall : (L.map Cand.rad ++ rest.map Cand.rad).Perm
      ((List.range ds.n_samples).map
        (fun i => KDTree.node_radicand ds.n_features query (ds.features i) (some w))) := by
    have h1 := hperm.map
      (fun i => KDTree.node_radicand ds.n_features query (ds.features i) (some w))
    rw [hradmap (L ++ rest) (fun c hc => hc), List.map_append] at h1
    exact h1
  refine ⟨L.map Cand.index, rest.map Cand.index, hrun, by simpa using hperm,
    by simpa using hmin, ?_, ?_⟩
  · intro i hi j hj
    obtain ⟨x, hx, rfl⟩ := List.mem_map.1 hi
    obtain ⟨y, hy, rfl⟩ := List.mem_map.1 hj
    simp only [node_distance_eq, Distance.lt, decide_eq_false_iff_not, not_lt]
    rw [← hrad x (List.mem_append_left _ hx), ← hrad y (List.mem_append_right _ hy)]
    exact hord x hx y hy
  · rw [hradmap L (fun c hc => List.mem_append_left _ hc), ← hmin]
    have h := sorted_take_eq (L.map Cand.rad) (rest.map Cand.rad) _
      (by simpa [List.pairwise_map] using hsort) hall
      (by
        intro x hx y hy
        obtain ⟨a, ha, rfl⟩ := List.mem_map.1 hx
        obtain ⟨b, hb, rfl⟩ := List.mem_map.1 hy
        exact hord a ha b hb)
    simpa using h

/-- Witness of C20 on Scenario A with the weights `1/2` and `1`. -/
theorem find_k_nearest_exact_unit_weights_witness :
    ∃ result rest : List Nat,
      (KDTree.new nth_element_by_sort (some scenarioA)).find_k_nearest [3, 1] 2
        (some [1 / 2, 1]) = Except.ok result ∧
      (result ++ rest).Perm (List.range scenarioA.n_samples) ∧
      result.length = min (2 : Int).toNat scenarioA.n_samples := by
  obtain ⟨result, rest, h1, h2, h3, _⟩ :=
    find_k_nearest_exact_unit_weights nth_element_by_sort nth_element_by_sort_spec scenarioA
      (by decide) (by decide) [3, 1] rfl 2 (by decide) [1 / 2, 1] rfl
      (by intro x hx; simp at hx; rcases hx with h | h <;> subst h <;> norm_num)
  exact ⟨result, rest, h1, h2, h3⟩

/-! ## Shape of the tree that `build_tree` produces -/

theorem partitioned_perm (sel : Selector) (hsel : NthElementSpec sel) (ds : Dataset)
    (indices : List Nat) (depth : Nat) (h0 : indices.length ≠ 0) :
    (KDTree.partitioned sel ds indices depth).Perm indices :=
  (hsel (fun a => (ds.features a).getD (depth % ds.n_features) 0) indices
    (indices.length / 2) (Nat.div_lt_self (by omega) (by norm_num))).1

theorem build_tree_aux_nil (sel : Selector) (ds : Dataset) (fuel depth : Nat) :
    KDTree.build_tree_aux sel ds fuel [] depth = KDNode.null := by
  cases fuel <;> simp [KDTree.build_tree_aux]

theorem build_tree_aux_node (sel : Selector) (hsel : NthElementSpec sel) (ds : Dataset)
    (fuel : Nat) (indices : List Nat) (depth : Nat) (h0 : indices.length ≠ 0) :
    KDTree.build_tree_aux sel ds (fuel + 1) indices depth =
      KDNode.node
        (ds.features ((KDTree.partitioned sel ds indices depth).getD (indices.length / 2) 0))
        ((KDTree.partitioned sel ds indices depth).getD (indices.length / 2) 0)
        (depth % ds.n_features)
        (KDTree.build_tree_aux sel ds fuel
          ((KDTree.partitioned sel ds indices depth).take (indices.length / 2)) (depth + 1))
        (KDTree.build_tree_aux sel ds fuel
          ((KDTree.partitioned sel ds indices depth).drop (indices.length / 2 + 1))
          (depth + 1)) := by
  have hlen := (partitioned_perm sel hsel ds indices depth h0).length_eq
  have hright : ((KDTree.partitioned sel ds indices depth).drop (indices.length / 2 + 1)).take
      (indices.length - indices.length / 2 - 1)
      = (KDTree.partitioned sel ds indices depth).drop (indices.length / 2 + 1) := by
    apply List.take_of_length_le
    simp [hlen]; omega
  rw [KDTree.build_tree_aux]
  simp only [h0, if_false]
  rw [← hright]
  rfl

theorem partitioned_lengths (sel : Selector) (hsel : NthElementSpec sel) (ds : Dataset)
    (indices : List Nat) (depth : Nat) (h0 : indices.length ≠ 0) :
    ((KDTree.partitioned sel ds indices depth).take (indices.length / 2)).length
      = indices.length / 2 ∧
    ((KDTree.partitioned sel ds indices depth).drop (indices.length / 2 + 1)).length
      = indices.length - 1 - indices.length / 2 := by
  have hlen := (partitioned_perm sel hsel ds indices depth h0).length_eq
  have hmid : indices.length / 2 < indices.length := Nat.div_lt_self (by omega) (by norm_num)
  constructor
  · simp [hlen]; omega
  · simp [hlen]; omega

theorem size_eq_entries_length (t : KDNode) : t.size = t.entries.length := by
  induction t with
  | null => rfl
  | node point index split_dim left right ihl ihr =>
    simp [KDNode.size, KDNode.entries, ihl, ihr]; omega

theorem build_tree_aux_size (sel : Selector) (hsel : NthElementSpec sel) (ds : Dataset)
    (hD : 0 < ds.n_features) (fuel : Nat) (indices : List Nat) (depth : Nat)
    (h : indices.length ≤ fuel) :
    (KDTree.build_tree_aux sel ds fuel indices depth).size = indices.length := by
  rw [size_eq_entries_length]
  have := (build_tree_aux_facts sel hsel ds hD fuel indices depth h).1.length_eq
  simpa using this

theorem build_tree_aux_partition (sel : Selector) (hsel : NthElementSpec sel) (ds : Dataset)
    (hD : 0 < ds.n_features) :
    ∀ (fuel : Nat) (indices : List Nat) (depth : Nat), indices.length ≤ fuel →
      PartitionInv ds depth (KDTree.build_tree_aux sel ds fuel indices depth) := by
  intro fuel
  induction fuel with
  | zero =>
    intro indices depth h
    simp [KDTree.build_tree_aux, PartitionInv]
  | succ fuel ih =>
    intro indices depth h
    by_cases h0 : indices.length = 0
    · have : indices = [] := List.length_eq_zero.1 h0
      subst this
      simp [build_tree_aux_nil, PartitionInv]
    · have hkd := (build_tree_aux_facts sel hsel ds hD (fuel + 1) indices depth h).2.2
      obtain ⟨hl, hr⟩ := partitioned_lengths sel hsel ds indices depth h0
      have hmid : indices.length / 2 < indices.length :=
        Nat.div_lt_self (by omega) (by norm_num)
      rw [build_tree_aux_node sel hsel ds fuel indices depth h0] at hkd ⊢
      obtain ⟨_, hleft, hright, _, _⟩ := hkd
      exact ⟨rfl, hleft, hright, ih _ _ (by rw [hl]; omega), ih _ _ (by rw [hr]; omega)⟩

theorem build_tree_aux_balanced (sel : Selector) (hsel : NthElementSpec sel) (ds : Dataset)
    (hD : 0 < ds.n_features) :
    ∀ (fuel : Nat) (indices : List Nat) (depth : Nat), indices.length ≤ fuel →
      (KDTree.build_tree_aux sel ds fuel indices depth).Balanced := by
  intro fuel
  induction fuel with
  | zero =>
    intro indices depth h
    simp [KDTree.build_tree_aux, KDNode.Balanced]
  | succ fuel ih =>
    intro indices depth h
    by_cases h0 : indices.length = 0
    · have : indices = [] := List.length_eq_zero.1 h0
      subst this
      simp [build_tree_aux_nil, KDNode.Balanced]
    · obtain ⟨hl, hr⟩ := partitioned_lengths sel hsel ds indices depth h0
      have hmid : indices.length / 2 < indices.length :=
        Nat.div_lt_self (by omega) (by norm_num)
      have hsl := build_tree_aux_size sel hsel ds hD fuel
        ((KDTree.partitioned sel ds indices depth).take (indices.length / 2)) (depth + 1)
        (by rw [hl]; omega)
      have hsr := build_tree_aux_size sel hsel ds hD fuel
        ((KDTree.partitioned sel ds indices depth).drop (indices.length / 2 + 1)) (depth + 1)
        (by rw [hr]; omega)
      rw [build_tree_aux_node sel hsel ds fuel indices depth h0]
      simp only [KDNode.Balanced, KDNode.size, hsl, hsr, hl, hr]
      refine ⟨by omega, by omega, by omega, by omega, by omega,
        ih _ _ (by rw [hl]; omega), ih _ _ (by rw [hr]; omega)⟩

theorem new_root_eq (sel : Selector) (ds : Dataset) :
    (KDTree.new sel (some ds)).root
      = KDTree.build_tree_aux sel ds ds.n_samples (List.range ds.n_samples) 0 := by
  by_cases h0 : ds.n_samples = 0
  · simp [KDTree.new, h0, KDTree.build_tree_aux]
  · simp [KDTree.new, h0, KDTree.build_tree]

/-- C14: in the tree the constructor builds over a well-formed dataset, every
node at depth `d` splits on column `d mod D`, every point of its left subtree
has a value in that column that is `≤` the node's value, and every point of
its right subtree a value that is `≥` the node's value. -/
theorem built_tree_partition (sel : Selector) (hsel : NthElementSpec sel) (ds : Dataset)
    (hwf : ds.WF) :
    PartitionInv ds 0 (KDTree.new sel (some ds)).root := by
  rw [new_root_eq]
  exact build_tree_aux_partition sel hsel ds hwf.1 _ _ 0 (by simp)

/-- Witness of C14 on Scenario A. -/
theorem built_tree_partition_witness :
    PartitionInv scenarioA 0 (KDTree.new nth_element_by_sort (some scenarioA)).root :=
  built_tree_partition nth_element_by_sort nth_element_by_sort_spec scenarioA (by decide)

/-- C15: the tree the constructor builds over a well-formed dataset of `n`
samples has exactly `n` nodes, the indices stored in its nodes are a
permutation of `0 .. n-1`, and the point of every node is the feature vector
of the sample at the node's index. -/
theorem built_tree_nodes (sel : Selector) (hsel : NthElementSpec sel) (ds : Dataset)
    (hwf : ds.WF) :
    (KDTree.new sel (some ds)).root.size = ds.n_samples ∧
    ((KDTree.new sel (some ds)).root.entries.map Prod.snd).Perm (List.range ds.n_samples) ∧
    (∀ e ∈ (KDTree.new sel (some ds)).root.entries, e.1 = ds.features e.2) := by
  obtain ⟨_, hperm, hpt, _⟩ := root_facts sel hsel ds hwf.1
  refine ⟨?_, hperm, hpt⟩
  rw [size_eq_entries_length]
  simpa using hperm.length_eq

/-- Witness of C15 on Scenario A. -/
theorem built_tree_nodes_witness :
    (KDTree.new nth_element_by_sort (some scenarioA)).root.size = scenarioA.n_samples ∧
    ((KDTree.new nth_element_by_sort (some scenarioA)).root.entries.map Prod.snd).Perm
      (List.range scenarioA.n_samples) ∧
    (∀ e ∈ (KDTree.new nth_element_by_sort (some scenarioA)).root.entries,
      e.1 = scenarioA.features e.2) :=
  built_tree_nodes nth_element_by_sort nth_element_by_sort_spec scenarioA (by decide)

/-- C16: in the tree the constructor builds over a well-formed dataset, every
node whose subtree holds `m` points has a left subtree of exactly `m / 2`
points and a right subtree of exactly `m - 1 - m / 2` points; the two sizes
sum to `m - 1` and differ by at most one. -/
theorem built_tree_balanced (sel : Selector) (hsel : NthElementSpec sel) (ds : Dataset)
    (hwf : ds.WF) :
    (KDTree.new sel (some ds)).root.Balanced := by
  rw [new_root_eq]
  exact build_tree_aux_balanced sel hsel ds hwf.1 _ _ 0 (by simp)

/-- Witness of C16 on Scenario A. -/
theorem built_tree_balanced_witness :
    (KDTree.new nth_element_by_sort (some scenarioA)).root.Balanced :=
  built_tree_balanced nth_element_by_sort nth_element_by_sort_spec scenarioA (by decide)

/-! ## Height of the tree and depth of the recursions -/

theorem balancedHeight_mono (a b : Nat) (h : a ≤ b) : balancedHeight a ≤ balancedHeight b := by
  unfold balancedHeight
  by_cases ha : a = 0
  · simp [ha]
  · have hb : b ≠ 0 := by omega
    simp only [ha, hb, if_false]
    exact Nat.add_le_add_right (Nat.log_mono_right h) 1

theorem balancedHeight_half (m : Nat) (hm : m ≠ 0) :
    balancedHeight m = balancedHeight (m / 2) + 1 := by
  unfold balancedHeight
  by_cases h1 : m / 2 = 0
  · have hm1 : m = 1 := by omega
    subst hm1
    simp
  · have h2 : 2 ≤ m := by omega
    simp only [hm, h1, if_false]
    rw [Nat.log_div_base]
    have := Nat.log_pos (by norm_num : 1 < 2) h2
    omega

theorem height_of_balanced (t : KDNode) (hb : t.Balanced) :
    t.height = balancedHeight t.size := by
  induction t with
  | null => simp [KDNode.height, KDNode.size, balancedHeight]
  | node point index split_dim left right ihl ihr =>
    obtain ⟨h1, h2, _, h4, _, hbl, hbr⟩ := hb
    have hm : (KDNode.node point index split_dim left right).size ≠ 0 := by
      simp [KDNode.size]
    rw [balancedHeight_half _ hm, ← h1]
    simp only [KDNode.height]
    rw [ihl hbl, ihr hbr, max_eq_left (balancedHeight_mono _ _ h4)]
    omega

theorem build_tree_aux_fuel (sel : Selector) (hsel : NthElementSpec sel) (ds : Dataset) :
    ∀ (fuel1 fuel2 : Nat) (indices : List Nat) (depth : Nat),
      balancedHeight indices.length ≤ fuel1 → balancedHeight indices.length ≤ fuel2 →
      KDTree.build_tree_aux sel ds fuel1 indices depth
        = KDTree.build_tree_aux sel ds fuel2 indices depth := by
  intro fuel1
  induction fuel1 with
  | zero =>
    intro fuel2 indices depth h1 _
    have hlen : indices.length = 0 := by
      by_contra hne
      simp [balancedHeight, hne] at h1
    have : indices = [] := List.length_eq_zero.1 hlen
    subst this
    simp [build_tree_aux_nil]
  | succ fuel1 ih =>
    intro fuel2 indices depth h1 h2
    by_cases h0 : indices.length = 0
    · have : indices = [] := List.length_eq_zero.1 h0
      subst this
      simp [build_tree_aux_nil]
    · have hhalf := balancedHeight_half indices.length h0
      obtain ⟨f2, rfl⟩ : ∃ f2, fuel2 = f2 + 1 := ⟨fuel2 - 1, by omega⟩
      obtain ⟨hl, hr⟩ := partitioned_lengths sel hsel ds indices depth h0
      have hrle := balancedHeight_mono (indices.length - 1 - indices.length / 2)
        (indices.length / 2) (by omega)
      rw [build_tree_aux_node sel hsel ds fuel1 indices depth h0,
        build_tree_aux_node sel hsel ds f2 indices depth h0]
      rw [ih f2 _ (depth + 1) (by rw [hl]; omega) (by rw [hl]; omega),
        ih f2 ((KDTree.partitioned sel ds indices depth).drop (indices.length / 2 + 1))
          (depth + 1) (by rw [hr]; omega) (by rw [hr]; omega)]

theorem traced_erase (dim : Nat) (query : List ℚ) (k : Nat) (weights : Option (List ℚ)) :
    ∀ (t : KDNode) (depth : Nat) (neighbors : List NearestNeighbor),
      (KDTree.find_k_nearest_impl_traced dim t depth query k neighbors weights).map Prod.fst
        = KDTree.find_k_nearest_impl dim t query k neighbors weights := by
  intro t
  induction t with
  | null => intro depth neighbors; rfl
  | node point index split_dim left right ihl ihr =>
    intro depth neighbors
    simp only [KDTree.find_k_nearest_impl_traced, KDTree.find_k_nearest_impl, bind]
    cases hoff : KDTree.offer (KDTree.node_distance dim query point weights) point index k
        neighbors with
    | none => rfl
    | some nb2 =>
      simp only [Option.bind]
      by_cases hg : KDTree.split_distance query point split_dim weights ≤ 0
      · simp only [hg, if_true]
        rw [← ihl (depth + 1) nb2]
        cases h1 : KDTree.find_k_nearest_impl_traced dim left (depth + 1) query k nb2
            weights with
        | none => rfl
        | some r1 =>
          obtain ⟨nb3, v1⟩ := r1
          simp only [Option.map, Option.bind]
          cases hv : KDTree.visit_second (KDTree.split_distance query point split_dim weights)
              k nb3 with
          | none => rfl
          | some b =>
            cases b with
            | false => simp
            | true =>
              simp only [if_true]
              rw [← ihr (depth + 1) nb3]
              cases h2 : KDTree.find_k_nearest_impl_traced dim right (depth + 1) query k nb3
                  weights with
              | none => rfl
              | some r2 => rfl
      · simp only [hg, if_false]
        rw [← ihr (depth + 1) nb2]
        cases h1 : KDTree.find_k_nearest_impl_traced dim right (depth + 1) query k nb2
            weights with
        | none => rfl
        | some r1 =>
          obtain ⟨nb3, v1⟩ := r1
          simp only [Option.map, Option.bind]
          cases hv : KDTree.visit_second (KDTree.split_distance query point split_dim weights)
              k nb3 with
          | none => rfl
          | some b =>
            cases b with
            | false => simp
            | true =>
              simp only [if_true]
              rw [← ihl (depth + 1) nb3]
              cases h2 : KDTree.find_k_nearest_impl_traced dim left (depth + 1) query k nb3
                  weights with
              | none => rfl
              | some r2 => rfl

theorem traced_depths (dim : Nat) (query : List ℚ) (k : Nat) (weights : Option (List ℚ)) :
    ∀ (t : KDNode) (depth : Nat) (neighbors res : List NearestNeighbor)
      (visits : List (Nat × Nat)),
      KDTree.find_k_nearest_impl_traced dim t depth query k neighbors weights
        = some (res, visits) →
      ∀ v ∈ visits, depth ≤ v.2 ∧ v.2 < depth + t.height := by
  intro t
  induction t with
  | null =>
    intro depth neighbors res visits h v hv
    simp [KDTree.find_k_nearest_impl_traced] at h
    rw [h.2] at hv
    simp at hv
  | node point index split_dim left right ihl ihr =>
    intro depth neighbors res visits h v hv
    simp only [KDTree.find_k_nearest_impl_traced, bind] at h
    cases hoff : KDTree.offer (KDTree.node_distance dim query point weights) point index k
        neighbors with
    | none => simp [hoff] at h
    | some nb2 =>
      simp only [hoff, Option.bind] at h
      have hcase : ∀ (first second : KDNode),
          (∀ (depth : Nat) (neighbors res : List NearestNeighbor) (visits : List (Nat × Nat)),
            KDTree.find_k_nearest_impl_traced dim first depth query k neighbors weights
              = some (res, visits) →
            ∀ v ∈ visits, depth ≤ v.2 ∧ v.2 < depth + first.height) →
          (∀ (depth : Nat) (neighbors res : List NearestNeighbor) (visits : List (Nat × Nat)),
            KDTree.find_k_nearest_impl_traced dim second depth query k neighbors weights
              = some (res, visits) →
            ∀ v ∈ visits, depth ≤ v.2 ∧ v.2 < depth + second.height) →
          ((KDTree.find_k_nearest_impl_traced dim first (depth + 1) query k nb2 weights).bind
            (fun r1 =>
              (KDTree.visit_second (KDTree.split_distance query point split_dim weights) k
                  r1.1).bind
                (fun b =>
                  if b = true then
                    (KDTree.find_k_nearest_impl_traced dim second (depth + 1) query k r1.1
                        weights).bind
                      (fun r2 => some (r2.1, (index, depth) :: (r1.2 ++ r2.2)))
                  else some (r1.1, (index, depth) :: r1.2)))
            = some (res, visits)) →
          depth ≤ v.2 ∧ v.2 < depth + (1 + max first.height second.height) := by
        intro first second ih1 ih2 hrun
        cases h1 : KDTree.find_k_nearest_impl_traced dim first (depth + 1) query k nb2
            weights with
        | none => simp [h1] at hrun
        | some r1 =>
          obtain ⟨nb3, v1⟩ := r1
          have b1 := ih1 (depth + 1) nb2 nb3 v1 h1
          simp only [h1, Option.bind] at hrun
          cases hvs : KDTree.visit_second (KDTree.split_distance query point split_dim weights)
              k nb3 with
          | none => simp [hvs] at hrun
          | some b =>
            simp only [hvs] at hrun
            cases b with
            | false =>
              simp at hrun
              rw [← hrun.2] at hv
              rcases List.mem_cons.1 hv with e | e
              · subst e; simp
              · have := b1 v e
                have hmax := le_max_left first.height second.height
                omega
            | true =>
              simp only [if_true] at hrun
              cases h2 : KDTree.find_k_nearest_impl_traced dim second (depth + 1) query k nb3
                  weights with
              | none => simp [h2] at hrun
              | some r2 =>
                obtain ⟨nb4, v2⟩ := r2
                have b2 := ih2 (depth + 1) nb3 nb4 v2 h2
                simp [h2] at hrun
                rw [← hrun.2] at hv
                have hmax1 := le_max_left first.height second.height
                have hmax2 := le_max_right first.height second.height
                rcases List.mem_cons.1 hv with e | e
                · subst e; simp
                · rcases List.mem_append.1 e with e1 | e2
                  · have := b1 v e1; omega
                  · have := b2 v e2; omega
      by_cases hg : KDTree.split_distance query point split_dim weights ≤ 0
      · simp only [hg, if_true] at h
        simpa [KDNode.height] using hcase left right ihl ihr h
      · simp only [hg, if_false] at h
        have := hcase right left ihr ihl h
        simpa [KDNode.height, max_comm] using this

theorem traced_returns (sel : Selector) (hsel : NthElementSpec sel) (ds : Dataset)
    (query : List ℚ) (k : Nat) (hk : 1 ≤ k) (weights : Option (List ℚ)) (t : KDNode) :
    ∃ res visits,
      KDTree.find_k_nearest_impl_traced ds.n_features t 1 query k
        (List.replicate k NearestNeighbor.default) weights = some (res, visits) := by
  obtain ⟨L, hrun, _⟩ := search_inv ds.n_features query k weights False hk t
    (fun h => h.elim) [] [] (searchInv_nil _ _)
  have hslots : slots k [] = List.replicate k NearestNeighbor.default := by
    simp [slots]
  rw [hslots, ← traced_erase ds.n_features query k weights t 1] at hrun
  cases h : KDTree.find_k_nearest_impl_traced ds.n_features t 1 query k
      (List.replicate k NearestNeighbor.default) weights with
  | none => rw [h] at hrun; simp at hrun
  | some r => exact ⟨r.1, r.2, rfl⟩

/-- C17: the tree the constructor builds over a well-formed dataset of
`n ≥ 1` samples has height exactly `floor(log2 n) + 1`. The recursion of
`build_tree` is no deeper: any depth allowance of at least that many levels
gives the same tree. The recursion of the search is no deeper either: the
search returns, and every node it enters is entered by a call of depth
between `1` (the root) and `floor(log2 n) + 1`. -/
theorem built_tree_height (sel : Selector) (hsel : NthElementSpec sel) (ds : Dataset)
    (hwf : ds.WF) (hn : 1 ≤ ds.n_samples) (query : List ℚ) (k : Int) (hk : 1 ≤ k)
    (weights : Option (List ℚ)) :
    (KDTree.new sel (some ds)).root.height = Nat.log 2 ds.n_samples + 1 ∧
    (∀ fuel, Nat.log 2 ds.n_samples + 1 ≤ fuel →
      KDTree.build_tree_aux sel ds fuel (List.range ds.n_samples) 0
        = (KDTree.new sel (some ds)).root) ∧
    (∃ res visits,
      KDTree.find_k_nearest_impl_traced ds.n_features (KDTree.new sel (some ds)).root 1 query
        k.toNat (List.replicate k.toNat NearestNeighbor.default) weights = some (res, visits) ∧
      ∀ v ∈ visits, 1 ≤ v.2 ∧ v.2 ≤ Nat.log 2 ds.n_samples + 1) := by
  have hbal : balancedHeight ds.n_samples = Nat.log 2 ds.n_samples + 1 := by
    have : ds.n_samples ≠ 0 := by omega
    simp [balancedHeight, this]
  obtain ⟨hsize, _, _⟩ : (KDTree.new sel (some ds)).root.size = ds.n_samples ∧ True ∧ True := by
    obtain ⟨_, hperm, _, _⟩ := root_facts sel hsel ds hwf.1
    refine ⟨?_, trivial, trivial⟩
    rw [size_eq_entries_length]
    simpa using hperm.length_eq
  have hheight : (KDTree.new sel (some ds)).root.height = Nat.log 2 ds.n_samples + 1 := by
    have hb : (KDTree.new sel (some ds)).root.Balanced := by
      rw [new_root_eq]
      exact build_tree_aux_balanced sel hsel ds hwf.1 _ _ 0 (by simp)
    rw [height_of_balanced _ hb, hsize, hbal]
  refine ⟨hheight, ?_, ?_⟩
  · intro fuel hfuel
    rw [new_root_eq]
    apply build_tree_aux_fuel sel hsel ds
    · simp only [List.length_range]; omega
    · simp only [List.length_range]
      rw [hbal]
      have := Nat.log_lt_self 2 (by omega : ds.n_samples ≠ 0)
      omega
  · obtain ⟨res, visits, hrun⟩ := traced_returns sel hsel ds query k.toNat (by omega) weights
      (KDTree.new sel (some ds)).root
    refine ⟨res, visits, hrun, ?_⟩
    intro v hv
    have := traced_depths ds.n_features query k.toNat weights _ 1 _ res visits hrun v hv
    rw [hheight] at this
    omega

/-- Witness of C17 on Scenario A: four samples, height `3`. -/
theorem built_tree_height_witness :
    (KDTree.new nth_element_by_sort (some scenarioA)).root.height
      = Nat.log 2 scenarioA.n_samples + 1 :=
  (built_tree_height nth_element_by_sort nth_element_by_sort_spec scenarioA (by decide)
    (by decide) [0, 0] 2 (by decide) none).1

/-! ## Which child is searched first -/

/-- C18, counterexample: the tree of three samples at `0`, `1` and `-1` (root
sample `0`, left child sample `2`, right child sample `1`), the query `0` and
`k = 2`. At the root the signed hyperplane distance is exactly zero, and the
search enters the left child (sample `2`) before the right child
(sample `1`). -/
theorem search_at_zero_goes_left :
    (KDTree.new nth_element_by_sort (some tieData)).root =
      KDNode.node [0] 0 0 (KDNode.node [-1] 2 0 KDNode.null KDNode.null)
        (KDNode.node [1] 1 0 KDNode.null KDNode.null) ∧
    KDTree.split_distance [0] [0] 0 none = 0 ∧
    (KDTree.find_k_nearest_impl_traced 1
        (KDNode.node [0] 0 0 (KDNode.node [-1] 2 0 KDNode.null KDNode.null)
          (KDNode.node [1] 1 0 KDNode.null KDNode.null))
        1 [0] 2 (List.replicate 2 NearestNeighbor.default) none).map Prod.snd
      = some [(0, 1), (2, 2), (1, 2)] := by
  refine ⟨?_, ?_, ?_⟩
  · simp [KDTree.new, tieData, Dataset.n_samples, KDTree.build_tree, KDTree.build_tree_aux,
      nth_element_by_sort, Dataset.features, List.range, List.range.loop, List.insertionSort,
      List.orderedInsert]
  · simp [KDTree.split_distance]
  · norm_num [KDTree.find_k_nearest_impl_traced, KDTree.offer,
      KDTree.shift_loop, KDTree.node_distance, KDTree.split_distance, KDTree.visit_second,
      NearestNeighbor.read, NearestNeighbor.write, NearestNeighbor.default,
      MathUtils.euclidean_distance, MathUtils.squared_sum, Distance.lt,
      Distance.abs_lt, List.range, List.range.loop, List.replicate, bind]
    simp

/-- C18, amended: at every visited node the search first offers the node,
then searches one child on the resulting list, then (unless pruned) the other
child on the list the first search left. The child searched first is the left
one when the signed hyperplane distance (scaled by `weight[split_dim]` when
weights are supplied) is negative or exactly zero, and the right one when it
is positive. -/
theorem search_first_child (dim : Nat) (point : List ℚ) (index split_dim : Nat)
    (left right : KDNode) (depth : Nat) (query : List ℚ) (k : Nat)
    (neighbors : List NearestNeighbor) (weights : Option (List ℚ))
    (res : List NearestNeighbor) (visits : List (Nat × Nat))
    (h : KDTree.find_k_nearest_impl_traced dim (KDNode.node point index split_dim left right)
      depth query k neighbors weights = some (res, visits)) :
    ∃ nb2 nb3 v1 v2,
      KDTree.offer (KDTree.node_distance dim query point weights) point index k neighbors
        = some nb2 ∧
      visits = (index, depth) :: (v1 ++ v2) ∧
      (KDTree.split_distance query point split_dim weights ≤ 0 →
        KDTree.find_k_nearest_impl_traced dim left (depth + 1) query k nb2 weights
          = some (nb3, v1) ∧
        ((v2 = [] ∧ res = nb3) ∨
          KDTree.find_k_nearest_impl_traced dim right (depth + 1) query k nb3 weights
            = some (res, v2))) ∧
      (0 < KDTree.split_distance query point split_dim weights →
        KDTree.find_k_nearest_impl_traced dim right (depth + 1) query k nb2 weights
          = some (nb3, v1) ∧
        ((v2 = [] ∧ res = nb3) ∨
          KDTree.find_k_nearest_impl_traced dim left (depth + 1) query k nb3 weights
            = some (res, v2))) := by
  simp only [KDTree.find_k_nearest_impl_traced, bind] at h
  cases hoff : KDTree.offer (KDTree.node_distance dim query point weights) point index k
      neighbors with
  | none => simp [hoff] at h
  | some nb2 =>
    simp only [hoff, Option.bind] at h
    have hcase : ∀ (first second : KDNode),
        ((KDTree.find_k_nearest_impl_traced dim first (depth + 1) query k nb2 weights).bind
          (fun r1 =>
            (KDTree.visit_second (KDTree.split_distance query point split_dim weights) k
                r1.1).bind
              (fun b =>
                if b = true then
                  (KDTree.find_k_nearest_impl_traced dim second (depth + 1) query k r1.1
                      weights).bind
                    (fun r2 => some (r2.1, (index, depth) :: (r1.2 ++ r2.2)))
                else some (r1.1, (index, depth) :: r1.2)))
          = some (res, visits)) →
        ∃ nb3 v1 v2, visits = (index, depth) :: (v1 ++ v2) ∧
          KDTree.find_k_nearest_impl_traced dim first (depth + 1) query k nb2 weights
            = some (nb3, v1) ∧
          ((v2 = [] ∧ res = nb3) ∨
            KDTree.find_k_nearest_impl_traced dim second (depth + 1) query k nb3 weights
              = some (res, v2)) := by
      intro first second hrun
      cases h1 : KDTree.find_k_nearest_impl_traced dim first (depth + 1) query k nb2
          weights with
      | none => simp [h1] at hrun
      | some r1 =>
        obtain ⟨nb3, v1⟩ := r1
        simp only [h1, Option.bind] at hrun
        cases hvs : KDTree.visit_second (KDTree.split_distance query point split_dim weights)
            k nb3 with
        | none => simp [hvs] at hrun
        | some b =>
          simp only [hvs] at hrun
          cases b with
          | false =>
            simp at hrun
            exact ⟨nb3, v1, [], by simp [hrun.2], rfl, Or.inl ⟨rfl, hrun.1.symm⟩⟩
          | true =>
            simp only [if_true] at hrun
            cases h2 : KDTree.find_k_nearest_impl_traced dim second (depth + 1) query k nb3
                weights with
            | none => simp [h2] at hrun
            | some r2 =>
              obtain ⟨nb4, v2⟩ := r2
              simp [h2] at hrun
              refine ⟨nb3, v1, v2, hrun.2.symm, rfl, Or.inr ?_⟩
              rw [← hrun.1]
              exact h2
    by_cases hg : KDTree.split_distance query point split_dim weights ≤ 0
    · simp only [hg, if_true] at h
      obtain ⟨nb3, v1, v2, e1, e2, e3⟩ := hcase left right h
      exact ⟨nb2, nb3, v1, v2, rfl, e1, fun _ => ⟨e2, e3⟩, fun hpos => absurd hg (not_le.2 hpos)⟩
    · simp only [hg, if_false] at h
      obtain ⟨nb3, v1, v2, e1, e2, e3⟩ := hcase right left h
      exact ⟨nb2, nb3, v1, v2, rfl, e1, fun hle => absurd hle hg, fun _ => ⟨e2, e3⟩⟩

/-- Witness of C18 (amended) on the tree of `tieData`, where the signed
distance at the root is zero and the left child is searched first. -/
theorem search_first_child_witness :
    ∃ nb3 v1 v2, [(0, 1), (2, 2), (1, 2)] = ((0, 1) :: (v1 ++ v2) : List (Nat × Nat)) ∧
      KDTree.find_k_nearest_impl_traced 1 (KDNode.node [-1] 2 0 KDNode.null KDNode.null) 2 [0] 2
        [⟨Distance.root 0, some [0], 0⟩, NearestNeighbor.default] none = some (nb3, v1) := by
  obtain ⟨nb2, nb3, v1, v2, h1, h2, h3, _⟩ := search_first_child 1 [0] 0 0
    (KDNode.node [-1] 2 0 KDNode.null KDNode.null) (KDNode.node [1] 1 0 KDNode.null KDNode.null)
    1 [0] 2 (List.replicate 2 NearestNeighbor.default) none
    [⟨Distance.root 0, some [0], 0⟩, ⟨Distance.root 1, some [-1], 2⟩]
    [(0, 1), (2, 2), (1, 2)]
    (by
      norm_num [KDTree.find_k_nearest_impl_traced, KDTree.offer,
        KDTree.shift_loop, KDTree.node_distance, KDTree.split_distance, KDTree.visit_second,
        NearestNeighbor.read, NearestNeighbor.write, NearestNeighbor.default,
        MathUtils.euclidean_distance, MathUtils.squared_sum, Distance.lt,
        Distance.abs_lt, List.range, List.range.loop, List.replicate, bind]
      simp)
  have hnb2 : nb2 = [⟨Distance.root 0, some [0], 0⟩, NearestNeighbor.default] := by
    have : KDTree.offer (KDTree.node_distance 1 [0] [0] none) [0] 0 2
        (List.replicate 2 NearestNeighbor.default)
        = some [⟨Distance.root 0, some [0], 0⟩, NearestNeighbor.default] := by
      norm_num [KDTree.offer, KDTree.shift_loop, KDTree.node_distance,
        NearestNeighbor.read, NearestNeighbor.write, NearestNeighbor.default,
        MathUtils.euclidean_distance, MathUtils.squared_sum, Distance.lt,
        List.range, List.range.loop, List.replicate, bind]
    rw [this] at h1
    exact (Option.some.inj h1).symm
  subst hnb2
  exact ⟨nb3, v1, v2, h2, (h3 (by simp [KDTree.split_distance])).1⟩

/-! ## The adaptive loop -/

theorem find_k_nearest_returns (sel : Selector) (hsel : NthElementSpec sel) (ds : Dataset)
    (hD : 0 < ds.n_features) (query : List ℚ) (k : Int) (hk : 1 ≤ k)
    (weights : Option (List ℚ)) :
    ∃ neighbors, (KDTree.new sel (some ds)).find_k_nearest query k weights
      = Except.ok neighbors := by
  obtain ⟨L, _, hrun, _⟩ :=
    find_k_nearest_spec sel hsel ds hD query k hk weights False (fun h => h.elim)
  exact ⟨_, hrun⟩

theorem predict_adaptive_loop_trace (p : Predictor) (k : Int)
    (hfind : ∀ query weights, ∃ neighbors,
      p.kdtree_.find_k_nearest query k weights = Except.ok neighbors) :
    ∀ (samples : List Sample) (aw : AdaptiveWeights),
      ∃ (predictions : List Int) (states : List AdaptiveWeights) (final : AdaptiveWeights),
        p.predict_adaptive_loop k samples aw = Except.ok (predictions, final) ∧
        predictions.length = samples.length ∧ states.length = samples.length + 1 ∧
        states[0]? = some aw ∧ states[samples.length]? = some final ∧
        ∀ i s, samples[i]? = some s →
          ∃ before after neighbors,
            states[i]? = some before ∧ states[i + 1]? = some after ∧
            p.kdtree_.find_k_nearest s.features k (some before.get_weights)
              = Except.ok neighbors ∧
            predictions[i]? = some (p.make_prediction neighbors) ∧
            (s.survived = -1 → after = before) ∧
            (s.survived ≠ -1 →
              after = before.update s.features neighbors p.train_data_
                (decide (p.make_prediction neighbors = s.survived))) := by
  intro samples
  induction samples with
  | nil =>
    intro aw
    exact ⟨[], [aw], aw, rfl, rfl, rfl, rfl, rfl, by intro i s h; simp at h⟩
  | cons s rest ih =>
    intro aw
    obtain ⟨nb, hnb⟩ := hfind s.features (some aw.get_weights)
    obtain ⟨preds, states, final, hrun, hlen, htl, h0, hlast, hstep⟩ :=
      ih (if s.survived ≠ -1 then
          aw.update s.features nb p.train_data_ (decide (p.make_prediction nb = s.survived))
        else aw)
    refine ⟨p.make_prediction nb :: preds, aw :: states, final, ?_, by simp [hlen],
      by simp [htl], by simp, by simpa using hlast, ?_⟩
    · simp only [Predictor.predict_adaptive_loop, hnb, bind, Except.bind, hrun]
    · intro i t hi
      cases i with
      | zero =>
        simp at hi
        subst hi
        refine ⟨aw, _, nb, by simp, by simpa using h0, hnb, by simp, ?_, ?_⟩
        · intro hlabel; simp [hlabel]
        · intro hlabel; simp [hlabel]
      | succ j =>
        simp at hi
        obtain ⟨before, after, neighbors, e1, e2, e3, e4, e5, e6⟩ := hstep j t hi
        exact ⟨before, after, neighbors, by simpa using e1, by simpa using e2, e3,
          by simpa using e4, e5, e6⟩

/-- C11: in adaptive mode `predict` returns one prediction per test sample,
and there is a sequence of tracker states, one before each sample and one
after the last, that starts with the fresh tracker and ends with the tracker
the call leaves, such that every sample is searched with the weights of the
state before it, its prediction is the vote of the neighbours found, the
state after a sample labelled `-1` is the state before it, and the state
after any other sample is the state before it changed by exactly one
`update` built from the sample's vector, its neighbours, and whether its
prediction equals its label. -/
theorem predict_adaptive_updates (sel : Selector) (hsel : NthElementSpec sel)
    (train_data : Dataset) (hwf : train_data.WF) (test_data : Dataset) (k : Int)
    (hk : 1 ≤ k) :
    ∃ (predictions : List Int) (states : List AdaptiveWeights) (final : AdaptiveWeights),
      (Predictor.with_mode sel train_data true).predict test_data k
        = Except.ok (predictions,
            { Predictor.with_mode sel train_data true with adaptive_weights_ := some final }) ∧
      predictions.length = test_data.n_samples ∧
      states.length = test_data.n_samples + 1 ∧
      states[0]? = some (AdaptiveWeights.new train_data.n_features) ∧
      states[test_data.n_samples]? = some final ∧
      ∀ i s, test_data.data[i]? = some s →
        ∃ before after neighbors,
          states[i]? = some before ∧ states[i + 1]? = some after ∧
          (KDTree.new sel (some train_data)).find_k_nearest s.features k
            (some before.get_weights) = Except.ok neighbors ∧
          predictions[i]? = some
            ((Predictor.with_mode sel train_data true).make_prediction neighbors) ∧
          (s.survived = -1 → after = before) ∧
          (s.survived ≠ -1 →
            after = before.update s.features neighbors train_data
              (decide ((Predictor.with_mode sel train_data true).make_prediction neighbors
                = s.survived))) := by
  obtain ⟨preds, states, final, hrun, hlen, htl, h0, hlast, hstep⟩ :=
    predict_adaptive_loop_trace (Predictor.with_mode sel train_data true) k
      (fun query weights =>
        find_k_nearest_returns sel hsel train_data hwf.1 query k hk weights)
      test_data.data (AdaptiveWeights.new train_data.n_features)
  refine ⟨preds, states, final, ?_, hlen, htl, h0, hlast, hstep⟩
  have hrun' : (Predictor.with_mode sel train_data true).predict_adaptive test_data k
      = Except.ok (preds, final) := by
    simpa [Predictor.predict_adaptive, Predictor.with_mode] using hrun
  simp only [Predictor.predict, hrun']
  simp [Predictor.with_mode]

/-- Witness of C11: Scenario A as training set, two test samples, the first
unlabelled and the second labelled, `k = 1`. -/
theorem predict_adaptive_updates_witness :
    ∃ (predictions : List Int) (final : AdaptiveWeights),
      (Predictor.with_mode nth_element_by_sort scenarioA true).predict
          ⟨[⟨[0, 0], -1⟩, ⟨[1, 0], 0⟩], 2⟩ 1
        = Except.ok (predictions,
            { Predictor.with_mode nth_element_by_sort scenarioA true with
              adaptive_weights_ := some final }) ∧
      predictions.length = 2 := by
  obtain ⟨predictions, _, final, h1, h2, _⟩ :=
    predict_adaptive_updates nth_element_by_sort nth_element_by_sort_spec scenarioA
      (by decide) ⟨[⟨[0, 0], -1⟩, ⟨[1, 0], 0⟩], 2⟩ 1 (by decide)
  exact ⟨predictions, final, h1, h2⟩

/-! ## The vote in unsigned arithmetic -/

/-- C21: the comparison of `make_prediction` is made in `size_t`. For every
non-empty neighbour list whose label sum is negative (with `2 * votes` within
the range of an `int`, and a list shorter than `2^63`, as every
`std::vector` is), the prediction is `1`, although
`2 * vote_sum ≥ neighbor_count` is false over the integers. -/
theorem make_prediction_negative_votes (p : Predictor) (neighbors : List Nat)
    (hne : neighbors ≠ [])
    (hneg : (neighbors.map p.train_data_.survived).sum < 0)
    (hfit : -2147483648 ≤ 2 * (neighbors.map p.train_data_.survived).sum)
    (hsize : neighbors.length < 2 ^ 63) :
    p.make_prediction neighbors = 1 ∧
    ¬ ((neighbors.length : Int) ≤ 2 * (neighbors.map p.train_data_.survived).sum) := by
  have hconv : size_t_of_int (2 * p.survived_votes neighbors)
      = (2 * (neighbors.map p.train_data_.survived).sum + 2 ^ 64).toNat := by
    rw [survived_votes_eq_sum]
    unfold size_t_of_int
    congr 1
    rw [← Int.add_mul_emod_self (a := 2 * (neighbors.map p.train_data_.survived).sum)
      (b := 1) (c := 2 ^ 64), one_mul]
    apply Int.emod_eq_of_lt <;> omega
  constructor
  · unfold Predictor.make_prediction
    rw [hconv, if_pos]
    have h63 : (2 : Nat) ^ 63 = 9223372036854775808 := by norm_num
    omega
  · omega

/-- Witness of C21: one neighbour of label `-1`. -/
theorem make_prediction_negative_votes_witness :
    (Predictor.with_weights nth_element_by_sort ⟨[⟨[0], -1⟩], 1⟩ none).make_prediction [0] = 1 :=
  (make_prediction_negative_votes
    (Predictor.with_weights nth_element_by_sort ⟨[⟨[0], -1⟩], 1⟩ none) [0]
    (by decide) (by decide) (by decide) (by norm_num)).1

/-! ## Distinct, valid indices -/

theorem traced_visit_counts (dim : Nat) (query : List ℚ) (k : Nat) (weights : Option (List ℚ)) :
    ∀ (t : KDNode) (depth : Nat) (neighbors res : List NearestNeighbor)
      (visits : List (Nat × Nat)),
      KDTree.find_k_nearest_impl_traced dim t depth query k neighbors weights
        = some (res, visits) →
      ∀ a, (visits.map Prod.fst).count a ≤ (t.entries.map Prod.snd).count a := by
  intro t
  induction t with
  | null =>
    intro depth neighbors res visits h a
    simp [KDTree.find_k_nearest_impl_traced] at h
    rw [h.2]
    simp
  | node point index split_dim left right ihl ihr =>
    intro depth neighbors res visits h a
    simp only [KDTree.find_k_nearest_impl_traced, bind] at h
    cases hoff : KDTree.offer (KDTree.node_distance dim query point weights) point index k
        neighbors with
    | none => simp [hoff] at h
    | some nb2 =>
      simp only [hoff, Option.bind] at h
      have hcase : ∀ (first second : KDNode),
          (∀ (depth : Nat) (neighbors res : List NearestNeighbor) (visits : List (Nat × Nat)),
            KDTree.find_k_nearest_impl_traced dim first depth query k neighbors weights
              = some (res, visits) →
            ∀ a, (visits.map Prod.fst).count a ≤ (first.entries.map Prod.snd).count a) →
          (∀ (depth : Nat) (neighbors res : List NearestNeighbor) (visits : List (Nat × Nat)),
            KDTree.find_k_nearest_impl_traced dim second depth query k neighbors weights
              = some (res, visits) →
            ∀ a, (visits.map Prod.fst).count a ≤ (second.entries.map Prod.snd).count a) →
          ((KDTree.find_k_nearest_impl_traced dim first (depth + 1) query k nb2 weights).bind
            (fun r1 =>
              (KDTree.visit_second (KDTree.split_distance query point split_dim weights) k
                  r1.1).bind
                (fun b =>
                  if b = true then
                    (KDTree.find_k_nearest_impl_traced dim second (depth + 1) query k r1.1
                        weights).bind
                      (fun r2 => some (r2.1, (index, depth) :: (r1.2 ++ r2.2)))
                  else some (r1.1, (index, depth) :: r1.2)))
            = some (res, visits)) →
          (visits.map Prod.fst).count a
            ≤ (index :: (first.entries.map Prod.snd ++ second.entries.map Prod.snd)).count a := by
        intro first second ih1 ih2 hrun
        cases h1 : KDTree.find_k_nearest_impl_traced dim first (depth + 1) query k nb2
            weights with
        | none => simp [h1] at hrun
        | some r1 =>
          obtain ⟨nb3, v1⟩ := r1
          have b1 := ih1 (depth + 1) nb2 nb3 v1 h1 a
          simp only [h1, Option.bind] at hrun
          cases hvs : KDTree.visit_second (KDTree.split_distance query point split_dim weights)
              k nb3 with
          | none => simp [hvs] at hrun
          | some b =>
            simp only [hvs] at hrun
            cases b with
            | false =>
              simp at hrun
              rw [← hrun.2]
              simp only [List.map_cons, List.count_cons, List.count_append]
              omega
            | true =>
              simp only [if_true] at hrun
              cases h2 : KDTree.find_k_nearest_impl_traced dim second (depth + 1) query k nb3
                  weights with
              | none => simp [h2] at hrun
              | some r2 =>
                obtain ⟨nb4, v2⟩ := r2
                have b2 := ih2 (depth + 1) nb3 nb4 v2 h2 a
                simp [h2] at hrun
                rw [← hrun.2]
                simp only [List.map_cons, List.map_append, List.count_cons, List.count_append]
                omega
      by_cases hg : KDTree.split_distance query point split_dim weights ≤ 0
      · simp only [hg, if_true] at h
        have := hcase left right ihl ihr h
        simpa [KDNode.entries] using this
      · simp only [hg, if_false] at h
        have := hcase right left ihr ihl h
        simp only [KDNode.entries, List.map_cons, List.map_append, List.count_cons,
          List.count_append] at this ⊢
        omega

/-- C22: on the tree built from a well-formed dataset of `n` samples, for
every query, `k ≥ 1` and weight argument, the indices `find_k_nearest` returns
are pairwise distinct and each is below `n`. The reasons hold as well: the
final neighbour list is a run of filled slots followed by default slots only,
and the search enters no node twice. -/
theorem find_k_nearest_distinct (sel : Selector) (hsel : NthElementSpec sel)
    (ds : Dataset) (hwf : ds.WF) (query : List ℚ) (hq : query.length = ds.n_features)
    (k : Int) (hk : 1 ≤ k) (weights : Option (List ℚ))
    (hw : WeightsWF ds.n_features weights) :
    ∃ result : List Nat,
      (KDTree.new sel (some ds)).find_k_nearest query k weights = Except.ok result ∧
      result.Nodup ∧ (∀ i ∈ result, i < ds.n_samples) ∧
      (∃ filled : List Cand,
        KDTree.find_k_nearest_impl ds.n_features (KDTree.new sel (some ds)).root query k.toNat
          (List.replicate k.toNat NearestNeighbor.default) weights
          = some (filled.map Cand.slot
              ++ List.replicate (k.toNat - filled.length) NearestNeighbor.default) ∧
        result = filled.map Cand.index) ∧
      (∃ res visits,
        KDTree.find_k_nearest_impl_traced ds.n_features (KDTree.new sel (some ds)).root 1 query
          k.toNat (List.replicate k.toNat NearestNeighbor.default) weights
          = some (res, visits) ∧
        (visits.map Prod.fst).Nodup) := by
  obtain ⟨hds, hperm, _, hkd⟩ := root_facts sel hsel ds hwf.1
  have hk1 : 1 ≤ k.toNat := by omega
  obtain ⟨L, hrun, _, _, rest, hS, _, _⟩ :=
    search_inv ds.n_features query k.toNat weights False hk1 (KDTree.new sel (some ds)).root
      (fun h => h.elim) [] [] (searchInv_nil _ _)
  have hslots : slots k.toNat [] = List.replicate k.toNat NearestNeighbor.default := by
    simp [slots]
  rw [hslots] at hrun
  rw [List.append_nil] at hS
  have hidx : ((KDTree.new sel (some ds)).root.cands ds.n_features query weights).map Cand.index
      = (KDTree.new sel (some ds)).root.entries.map Prod.snd := by
    simp [KDNode.cands, candOf, Function.comp]
  have hall : (L.map Cand.index ++ rest.map Cand.index).Perm (List.range ds.n_samples) := by
    have := (hS.map Cand.index).symm.trans (hidx ▸ hperm)
    simpa using this
  have hnodup : (L.map Cand.index ++ rest.map Cand.index).Nodup :=
    hall.nodup_iff.2 (List.nodup_range _)
  have hentries_nodup : ((KDTree.new sel (some ds)).root.entries.map Prod.snd).Nodup :=
    hperm.nodup_iff.2 (List.nodup_range _)
  refine ⟨L.map Cand.index, ?_, hnodup.of_append_left, ?_, ⟨L, hrun, rfl⟩, ?_⟩
  · have hnk : ¬ k < 0 := by omega
    simp only [KDTree.find_k_nearest, hnk, if_false, hds, hrun, filterMap_slots]
  · intro i hi
    exact List.mem_range.1 (hall.subset (List.mem_append_left _ hi))
  · obtain ⟨res, visits, htr⟩ := traced_returns sel hsel ds query k.toNat hk1 weights
      (KDTree.new sel (some ds)).root
    refine ⟨res, visits, htr, ?_⟩
    rw [List.nodup_iff_count_le_one]
    intro a
    exact le_trans
      (traced_visit_counts ds.n_features query k.toNat weights _ 1 _ res visits htr a)
      (List.nodup_iff_count_le_one.1 hentries_nodup a)

/-- Witness of C22 on Scenario A with weights above `1`. -/
theorem find_k_nearest_distinct_witness :
    ∃ result : List Nat,
      (KDTree.new nth_element_by_sort (some scenarioA)).find_k_nearest [3, 1] 3
        (some [2, 3]) = Except.ok result ∧
      result.Nodup ∧ (∀ i ∈ result, i < scenarioA.n_samples) := by
  obtain ⟨result, h1, h2, h3, _⟩ :=
    find_k_nearest_distinct nth_element_by_sort nth_element_by_sort_spec scenarioA
      (by decide) [3, 1] rfl 3 (by decide) (some [2, 3])
      (by intro w hw; cases hw; exact ⟨rfl, by simp⟩)
  exact ⟨result, h1, h2, h3⟩

/-! ## `predict_with_neighbors` against `predict` -/

theorem predict_with_neighbors_loop_static (p : Predictor) (hmode : p.use_adaptive_ = false)
    (k : Int)
    (hfind : ∀ query, ∃ neighbors,
      p.kdtree_.find_k_nearest query k p.static_weights_ = Except.ok neighbors) :
    ∀ samples : List Sample,
      ∃ (predictions : List Int) (all_neighbors : List (List Nat)),
        p.predict_with_neighbors_loop k samples = Except.ok (predictions, all_neighbors) ∧
        p.predict_static_loop k samples = Except.ok predictions ∧
        all_neighbors.length = samples.length ∧
        ∀ (i : Nat) (s : Sample), samples[i]? = some s →
          ∃ neighbors, all_neighbors[i]? = some neighbors ∧
            p.kdtree_.find_k_nearest s.features k p.static_weights_ = Except.ok neighbors := by
  intro samples
  induction samples with
  | nil => exact ⟨[], [], rfl, rfl, rfl, by intro i s h; simp at h⟩
  | cons s rest ih =>
    obtain ⟨nb, hnb⟩ := hfind s.features
    obtain ⟨preds, nbs, h1, h2, h3, h4⟩ := ih
    refine ⟨p.make_prediction nb :: preds, nb :: nbs, ?_, ?_, by simp [h3], ?_⟩
    · simp only [Predictor.predict_with_neighbors_loop, hmode, Bool.false_eq_true, if_false, hnb,
        bind, Except.bind, h1]
      rfl
    · simp only [Predictor.predict_static_loop, hnb, bind, Except.bind, h2]
    · intro i t hi
      cases i with
      | zero =>
        simp at hi
        subst hi
        exact ⟨nb, by simp, hnb⟩
      | succ j =>
        simp at hi
        obtain ⟨neighbors, e1, e2⟩ := h4 j t hi
        exact ⟨neighbors, by simpa using e1, e2⟩

/-- C23: for a predictor constructed in static mode with a weight vector, over
a well-formed training set and with `k ≥ 1`, `predict_with_neighbors` and
`predict` agree: both return, the predictions written by
`predict_with_neighbors` are the list `predict` returns, and
`all_neighbors[i]` is `find_k_nearest(test[i], k, static weights)` for every
test sample `i`. -/
theorem predict_with_neighbors_agrees (sel : Selector) (hsel : NthElementSpec sel)
    (train_data : Dataset) (hwf : train_data.WF) (w : List ℚ)
    (hw : WeightsWF train_data.n_features (some w)) (test_data : Dataset) (k : Int)
    (hk : 1 ≤ k) :
    ∃ (predictions : List Int) (all_neighbors : List (List Nat)),
      (Predictor.with_weights sel train_data (some w)).predict_with_neighbors test_data k
        = Except.ok (predictions, all_neighbors) ∧
      (Predictor.with_weights sel train_data (some w)).predict test_data k
        = Except.ok (predictions, Predictor.with_weights sel train_data (some w)) ∧
      all_neighbors.length = test_data.n_samples ∧
      ∀ (i : Nat) (s : Sample), test_data.data[i]? = some s →
        ∃ neighbors, all_neighbors[i]? = some neighbors ∧
          (KDTree.new sel (some train_data)).find_k_nearest s.features k (some w)
            = Except.ok neighbors := by
  obtain ⟨preds, nbs, h1, h2, h3, h4⟩ :=
    predict_with_neighbors_loop_static (Predictor.with_weights sel train_data (some w)) rfl k
      (fun query => find_k_nearest_returns sel hsel train_data hwf.1 query k hk (some w))
      test_data.data
  refine ⟨preds, nbs, h1, ?_, h3, h4⟩
  have h2' : (Predictor.with_weights sel train_data (some w)).predict_static test_data k
      = Except.ok preds := h2
  have hmode : (Predictor.with_weights sel train_data (some w)).use_adaptive_ = false := rfl
  simp only [Predictor.predict, hmode, Bool.false_eq_true, if_false, h2']

/-- Witness of C23: Scenario A as training set, weights `[2, 3]`, two test
samples, `k = 3`. -/
theorem predict_with_neighbors_agrees_witness :
    ∃ (predictions : List Int) (all_neighbors : List (List Nat)),
      (Predictor.with_weights nth_element_by_sort scenarioA (some [2, 3])).predict_with_neighbors
          ⟨[⟨[0, 0], -1⟩, ⟨[1, 0], 0⟩], 2⟩ 3 = Except.ok (predictions, all_neighbors) ∧
      (Predictor.with_weights nth_element_by_sort scenarioA (some [2, 3])).predict
          ⟨[⟨[0, 0], -1⟩, ⟨[1, 0], 0⟩], 2⟩ 3
        = Except.ok (predictions,
            Predictor.with_weights nth_element_by_sort scenarioA (some [2, 3])) := by
  obtain ⟨predictions, all_neighbors, h1, h2, _⟩ :=
    predict_with_neighbors_agrees nth_element_by_sort nth_element_by_sort_spec scenarioA
      (by decide) [2, 3] (by intro w hw; cases hw; exact ⟨rfl, by simp⟩)
      ⟨[⟨[0, 0], -1⟩, ⟨[1, 0], 0⟩], 2⟩ 3 (by decide)
  exact ⟨predictions, all_neighbors, h1, h2⟩

/-! ## Loading a file line by line -/

theorem fgets_chars_line :
    ∀ (l : List Char) (n : Nat) (rest : List Char), l ≠ [] → l.length ≤ n →
      '\n' ∉ l.dropLast → (l.getLast? = some '\n' ∨ rest = []) →
      fgets_chars n (l ++ rest) = (l, rest) := by
  intro l
  induction l with
  | nil => intro n rest h; exact absurd rfl h
  | cons c l1 ih =>
    intro n rest _ hlen hno hend
    obtain ⟨n1, rfl⟩ : ∃ n1, n = n1 + 1 := ⟨n - 1, by simp at hlen; omega⟩
    cases l1 with
    | nil =>
      by_cases hc : c = '\n'
      · simp [fgets_chars, hc]
      · have hrest : rest = [] := by
          rcases hend with h | h
          · simp at h; exact absurd h hc
          · exact h
        subst hrest
        cases n1 <;> simp [fgets_chars, hc]
    | cons c1 l2 =>
      have hc : c ≠ '\n' := by
        intro h
        apply hno
        simp [List.dropLast, h]
      have hno1 : '\n' ∉ (c1 :: l2).dropLast := by
        intro h
        apply hno
        simp only [List.dropLast_cons₂]
        exact List.mem_cons_of_mem _ h
      have hend1 : (c1 :: l2).getLast? = some '\n' ∨ rest = [] := by
        rcases hend with h | h
        · left; simpa [List.getLast?_cons_cons] using h
        · right; exact h
      have := ih n1 rest (by simp) (by simp at hlen ⊢; omega) hno1 hend1
      simp only [List.cons_append, fgets_chars, hc, if_false, List.append_eq]
      simp only [List.cons_append] at this
      rw [this]

theorem fgets_line (l rest : List Char) (hl : TextLine l)
    (hend : l.getLast? = some '\n' ∨ rest = []) :
    fgets 1024 (l ++ rest) = some (l, rest) := by
  obtain ⟨hne, hlen, hno⟩ := hl
  have h := fgets_chars_line l 1023 rest hne hlen hno hend
  cases l with
  | nil => exact absurd rfl hne
  | cons c l1 =>
    simp only [List.cons_append] at h ⊢
    simp only [fgets]
    rw [show 1024 - 1 = 1023 from rfl, h]

theorem textLines_cons (l : List Char) (ls : List (List Char)) (h : TextLines (l :: ls)) :
    TextLine l ∧ (l.getLast? = some '\n' ∨ ls.flatten = []) ∧ TextLines ls := by
  cases ls with
  | nil => exact ⟨h, Or.inr rfl, trivial⟩
  | cons l1 ls1 => exact ⟨h.1, Or.inl h.2.1, h.2.2⟩

theorem fgets_flatten (l : List Char) (ls : List (List Char)) (h : TextLines (l :: ls)) :
    fgets 1024 (l :: ls).flatten = some (l, ls.flatten) := by
  obtain ⟨h1, h2, _⟩ := textLines_cons l ls h
  simpa using fgets_line l ls.flatten h1 h2

theorem count_samples_loop_lines :
    ∀ (lines : List (List Char)) (fuel : Nat), TextLines lines →
      lines.flatten.length ≤ fuel →
      DataLoader.count_samples_loop fuel lines.flatten = lines.length := by
  intro lines
  induction lines with
  | nil =>
    intro fuel _ _
    cases fuel <;> simp [DataLoader.count_samples_loop, fgets]
  | cons l ls ih =>
    intro fuel h hfuel
    obtain ⟨h1, _, h3⟩ := textLines_cons l ls h
    have hpos : 0 < l.length := List.length_pos.2 h1.1
    rw [List.flatten_cons, List.length_append] at hfuel
    obtain ⟨f, rfl⟩ : ∃ f, fuel = f + 1 := ⟨fuel - 1, by omega⟩
    rw [DataLoader.count_samples_loop, fgets_flatten l ls h]
    simp only
    rw [ih f h3 (by omega)]
    simp

theorem read_rows_lines {α : Type} (parse_line : List Char → α → Sample) (col_idx : α)
    (n_samples : Int) :
    ∀ (lines : List (List Char)) (fuel row : Nat) (rows : List Sample), TextLines lines →
      lines.flatten.length ≤ fuel → (row : Int) ≤ n_samples →
      DataLoader.read_rows parse_line col_idx n_samples fuel lines.flatten row rows
        = rows ++ (lines.take (n_samples.toNat - row)).map (fun l => parse_line l col_idx) := by
  intro lines
  induction lines with
  | nil =>
    intro fuel row rows _ _ _
    cases fuel <;> simp [DataLoader.read_rows, fgets]
  | cons l ls ih =>
    intro fuel row rows h hfuel hrow
    obtain ⟨h1, _, h3⟩ := textLines_cons l ls h
    have hpos : 0 < l.length := List.length_pos.2 h1.1
    rw [List.flatten_cons, List.length_append] at hfuel
    obtain ⟨f, rfl⟩ : ∃ f, fuel = f + 1 := ⟨fuel - 1, by omega⟩
    rw [DataLoader.read_rows, fgets_flatten l ls h]
    simp only
    by_cases hlt : (row : Int) < n_samples
    · rw [if_pos hlt, ih f (row + 1) _ h3 (by omega) (by push_cast; omega)]
      obtain ⟨d, hd⟩ : ∃ d, n_samples.toNat - row = d + 1 :=
        ⟨n_samples.toNat - row - 1, by omega⟩
      have hd' : n_samples.toNat - (row + 1) = d := by omega
      rw [hd, hd']
      simp
    · rw [if_neg hlt]
      have : n_samples.toNat - row = 0 := by omega
      rw [this]
      simp

/-- C24: for a file made of a header line followed by `m ≥ 1` data lines, each
shorter than the 1024-byte line buffer (and fewer than `2^31` of them, the
range of the `int` line counter), `load_csv` returns a dataset whose
`n_samples` is `m - 1` (the number of lines after the header, less one), with
seven features, and whose samples are the parses of the first `m - 1` data
lines in order; the last data line is not loaded. -/
theorem load_csv_drops_last_line {α : Type} (parse_header : List Char → α)
    (parse_line : List Char → α → Sample) (header : List Char) (lines : List (List Char))
    (is_training : Bool) (hheader : TextLine header) (hnl : header.getLast? = some '\n')
    (hlines : TextLines lines) (hm : 1 ≤ lines.length) (_hfit : lines.length < 2147483648) :
    DataLoader.count_samples lines.flatten = lines.length ∧
    ∃ ds : Dataset,
      DataLoader.load_csv parse_header parse_line (some (header ++ lines.flatten)) is_training
        = Except.ok (some ds) ∧
      ds.n_samples = lines.length - 1 ∧ ds.n_features = 7 ∧
      ds.data = (lines.take (lines.length - 1)).map
        (fun l => parse_line l (parse_header header)) := by
  have hcount : DataLoader.count_samples lines.flatten = lines.length :=
    count_samples_loop_lines lines _ hlines (Nat.le_refl _)
  have hfg : fgets 1024 (header ++ lines.flatten) = some (header, lines.flatten) :=
    fgets_line header lines.flatten hheader (Or.inl hnl)
  have hn : ¬ ((lines.length : Int) - 1 < 0) := by omega
  have hrows := read_rows_lines parse_line (parse_header header) ((lines.length : Int) - 1)
    lines lines.flatten.length 0 [] hlines (Nat.le_refl _) (by push_cast; omega)
  have htn : ((lines.length : Int) - 1).toNat = lines.length - 1 := by omega
  rw [htn] at hrows
  simp only [Nat.sub_zero, List.nil_append] at hrows
  have hfill : lines.length - 1
      - ((lines.take (lines.length - 1)).map
          (fun l => parse_line l (parse_header header))).length = 0 := by
    simp
  have hload : DataLoader.load_csv parse_header parse_line (some (header ++ lines.flatten))
      is_training = Except.ok (some
        ⟨(lines.take (lines.length - 1)).map (fun l => parse_line l (parse_header header)),
          FEATURE_COUNT⟩) := by
    simp only [DataLoader.load_csv, hfg, hcount, hn, if_false, hrows, htn, hfill,
      List.replicate_zero, List.append_nil]
  refine ⟨hcount, _, hload, ?_, rfl, rfl⟩
  simp only [Dataset.n_samples, List.length_map, List.length_take]
  omega

/-- Witness of C24: a header and two data lines; only the first data line is
loaded. -/
theorem load_csv_drops_last_line_witness :
    ∃ ds : Dataset,
      DataLoader.load_csv (fun h => h.length) (fun l c => ⟨[(l.length : ℚ)], c⟩)
        (some (['a', ',', 'b', '\n'] ++ [['1', ',', '2', '\n'], ['3', ',', '4', '\n']].flatten))
        true = Except.ok (some ds) ∧
      ds.n_samples = 1 := by
  obtain ⟨_, ds, h1, h2, _⟩ := load_csv_drops_last_line (fun h => h.length)
    (fun l c => (⟨[(l.length : ℚ)], c⟩ : Sample)) ['a', ',', 'b', '\n']
    [['1', ',', '2', '\n'], ['3', ',', '4', '\n']] true
    ⟨by decide, by decide, by decide⟩ (by decide)
    ⟨⟨by decide, by decide, by decide⟩, by decide, ⟨by decide, by decide, by decide⟩⟩
    (by decide) (by decide)
  exact ⟨ds, h1, h2⟩
